import Mathlib

/-!
ParallelExecutor (paddle/fluid/framework/parallel_executor.cc)

A shallow embedding of the execution coordinator: its reference-count reset,
the admissibility predicate of the parallel-graph mode, the creation and
release of the per-device scopes, the parameter broadcast and the two feed
operations.

Hash maps (std::unordered_map, std::unordered_set) are lists in iteration
order; a well-formed map has no key twice.  Pointers to scopes and to memory
allocations are indices into a heap list.
-/

namespace paddle.framework

/-! ## Name-keyed maps -/

/-- A std::unordered_map keyed by variable names, as the list of its pairs in
iteration order. -/
abbrev NameMap (α : Type) := List (String × α)

/-- The keys of a map, in iteration order. -/
def NameMap.keys {α : Type} (m : NameMap α) : List String := m.map Prod.fst

/-- Lookup of a key (`find`, `at`): the first pair with that key. -/
def NameMap.find {α : Type} : NameMap α → String → Option α
  | [], _ => none
  | (k, v) :: m, key => if k = key then some v else NameMap.find m key

/-- Assignment through `operator[]`: overwrite the value of an existing key,
insert the pair when the key is absent. -/
def NameMap.assign {α : Type} : NameMap α → String → α → NameMap α
  | [], key, val => [(key, val)]
  | (k, v) :: m, key, val =>
    if k = key then (k, val) :: m else (k, v) :: NameMap.assign m key val

/-- Removal of a key (`erase(key)`). -/
def NameMap.erase {α : Type} : NameMap α → String → NameMap α
  | [], _ => []
  | (k, v) :: m, key => if k = key then NameMap.erase m key else (k, v) :: NameMap.erase m key

/-- Every key of `a` is a key of `b`. -/
def NameMap.KeysSubset {α : Type} (a b : NameMap α) : Prop :=
  ∀ k ∈ a.keys, k ∈ b.keys

instance {α : Type} (a b : NameMap α) : Decidable (NameMap.KeysSubset a b) := by
  unfold NameMap.KeysSubset
  infer_instance

/-! ## Devices -/

/-- A device: the type platform::Place. -/
inductive Place where
  | CPUPlace
  | CUDAPlace (device : Nat)
  | CUDAPinnedPlace
  deriving DecidableEq, Repr

/-- The test platform::is_gpu_place. -/
def is_gpu_place : Place → Bool
  | Place.CUDAPlace _ => true
  | _ => false

/-- The test platform::is_cpu_place. -/
def is_cpu_place : Place → Bool
  | Place.CPUPlace => true
  | _ => false

/-! ## Tensors and variables

The classes Tensor, LoDTensor, Variable and Scope are defined outside this
file.  They are given here by the operations the file calls on them. -/

/-- A memory allocation (the holder a tensor points to): where it lives and the
elements it holds. -/
structure Allocation where
  place : Place
  data : List Nat
  deriving DecidableEq, Repr

/-- Modelled from the spec: the class LoDTensor, not in this file.  A shape, an
element type, the address of the allocation that backs it (none while the
tensor is uninitialized) with the position of its first element there, and the
sequence-length metadata (LoD). -/
structure LoDTensor where
  dims_ : List Nat
  type_ : Nat
  holder_ : Option Nat
  offset_ : Nat
  lod_ : List (List Nat)
  deriving DecidableEq, Repr

/-- A default-constructed LoDTensor. -/
def LoDTensor.empty : LoDTensor :=
  { dims_ := [], type_ := 0, holder_ := none, offset_ := 0, lod_ := [] }

/-- The method `Tensor::IsInitialized`: the tensor has a holder. -/
def LoDTensor.IsInitialized (t : LoDTensor) : Bool := t.holder_.isSome

/-- The method `Tensor::numel`: the product of the dimensions. -/
def LoDTensor.numel (t : LoDTensor) : Nat := t.dims_.foldl (fun a d => a * d) 1

/-- The method `Tensor::place`: the place of the holder. -/
def LoDTensor.place (memory : List Allocation) (t : LoDTensor) : Place :=
  match t.holder_ with
  | none => Place.CPUPlace
  | some b => (memory.getD b { place := Place.CPUPlace, data := [] }).place

/-- The elements of a tensor, read from its allocation. -/
def LoDTensor.contents (memory : List Allocation) (t : LoDTensor) : List Nat :=
  match t.holder_ with
  | none => []
  | some b =>
    (((memory.getD b { place := Place.CPUPlace, data := [] }).data).drop t.offset_).take t.numel

/-- The method `Tensor::Resize`. -/
def LoDTensor.Resize (t : LoDTensor) (dims : List Nat) : LoDTensor := { t with dims_ := dims }

/-- The method `LoDTensor::set_lod`. -/
def LoDTensor.set_lod (t : LoDTensor) (lod : List (List Nat)) : LoDTensor := { t with lod_ := lod }

/-- Modelled from the spec: the method `Tensor::ShareDataWith`, not in this
file ("share the same underlying buffer directly with no copy").  The target
takes the shape, the element type and the holder of the source; its LoD is not
touched. -/
def LoDTensor.ShareDataWith (t src : LoDTensor) : LoDTensor :=
  { t with dims_ := src.dims_, type_ := src.type_, holder_ := src.holder_,
           offset_ := src.offset_ }

/-- Modelled from the spec: the method `Tensor::mutable_data(place, type)`, not
in this file ("freshly allocated matching-shape buffers").  The tensor gets a
new allocation of `numel` elements on the place, at the next free address. -/
def LoDTensor.mutable_data (memory : List Allocation) (t : LoDTensor) (place : Place)
    (type : Nat) : List Allocation × LoDTensor :=
  (memory ++ [{ place := place, data := List.replicate t.numel 0 }],
   { t with type_ := type, holder_ := some memory.length, offset_ := 0 })

/-- Overwrite the elements of the allocation at an address. -/
def writeAllocation (memory : List Allocation) (b : Nat) (place : Place) (data : List Nat) :
    List Allocation :=
  if b < memory.length then memory.set b { place := place, data := data } else memory

/-- Modelled from the spec: the function `TensorCopy(src, dst_place, dst)`, not
in this file ("a true deep copy").  The destination takes the shape and the
element type of the source, and the elements of the source are written into the
destination's own allocation (a new one when it has none). -/
def TensorCopy (memory : List Allocation) (src : LoDTensor) (dst_place : Place)
    (dst : LoDTensor) : List Allocation × LoDTensor :=
  match dst.holder_ with
  | some b =>
    (writeAllocation memory b dst_place (src.contents memory),
     { dst with dims_ := src.dims_, type_ := src.type_, offset_ := 0 })
  | none =>
    (memory ++ [{ place := dst_place, data := src.contents memory }],
     { dst with dims_ := src.dims_, type_ := src.type_, holder_ := some memory.length,
                offset_ := 0 })

/-- Modelled from the spec: the class Variable, not in this file.  A variable is
empty (no holder yet), holds a LoDTensor, or holds a value of another type. -/
inductive Variable where
  | Uninitialized
  | OfLoDTensor (t : LoDTensor)
  | Other (type_id : Nat)
  deriving DecidableEq, Repr

/-- The test `Variable::IsType<LoDTensor>()`. -/
def Variable.IsTypeLoDTensor : Variable → Bool
  | Variable.OfLoDTensor _ => true
  | _ => false

/-- Modelled from the spec: the accessor `Variable::GetMutable<LoDTensor>()`,
not in this file.  The tensor the variable holds; a variable that holds none
is given a default-constructed one. -/
def Variable.GetMutableLoDTensor : Variable → LoDTensor
  | Variable.OfLoDTensor t => t
  | _ => LoDTensor.empty

/-! ## Scopes -/

/-- Modelled from the spec: the class Scope, not in this file ("a node in a
tree of variable namespaces ... at most one parent and any number of
children"; operations "create/find/delete child, lookup variable by name").
`deleted` records that the scope has been handed to `DeleteScope`; the scopes
below it, which are released with it, are not marked. -/
structure Scope where
  parent_ : Option Nat
  kids_ : List Nat
  vars_ : NameMap Variable
  deleted : Bool
  deriving DecidableEq, Repr

/-- Apply `f` to the scope at address `p`. -/
def updateScope (scopes : List Scope) (p : Nat) (f : Scope → Scope) : List Scope :=
  match scopes[p]? with
  | none => scopes
  | some s => scopes.set p (f s)

/-- Modelled from the spec: the method `Scope::NewScope` ("create child"): a
new empty scope at the next free address, with parent `p`, appended to the
children of `p`.  Returns the heap and the address of the child. -/
def NewScope (scopes : List Scope) (p : Nat) : List Scope × Nat :=
  (updateScope scopes p (fun s => { s with kids_ := s.kids_ ++ [scopes.length] })
     ++ [{ parent_ := some p, kids_ := [], vars_ := [], deleted := false }],
   scopes.length)

/-- Modelled from the spec: the method `Scope::HasKid` ("find child"). -/
def HasKid (scopes : List Scope) (p : Nat) (kid : Nat) : Bool :=
  match scopes[p]? with
  | none => false
  | some s => decide (kid ∈ s.kids_)

/-- Modelled from the spec: the method `Scope::DeleteScope` ("delete child"):
the child is taken out of the children of `p` and marked as deleted.  The
scopes below the child go with it and are not marked one by one. -/
def DeleteScope (scopes : List Scope) (p : Nat) (kid : Nat) : List Scope :=
  updateScope (updateScope scopes p (fun s => { s with kids_ := s.kids_.erase kid }))
    kid (fun s => { s with deleted := true })

/-- Modelled from the spec: the method `Scope::FindVarLocally`: the variable
bound to the name in this scope itself. -/
def FindVarLocally (scopes : List Scope) (p : Nat) (name : String) : Option Variable :=
  match scopes[p]? with
  | none => none
  | some s => NameMap.find s.vars_ name

/-- The scope at `p` followed by its ancestors, nearest first; `fuel` bounds
the number of scopes visited. -/
def scopeChainAux (scopes : List Scope) : Nat → Nat → List Nat
  | 0, _ => []
  | fuel + 1, p =>
    match scopes[p]? with
    | none => []
    | some s =>
      match s.parent_ with
      | none => [p]
      | some q => p :: scopeChainAux scopes fuel q

/-- The scope at `p` followed by its ancestors.  A chain of parents in a tree
of `scopes.length` scopes has at most that many members. -/
def scopeChain (scopes : List Scope) (p : Nat) : List Nat :=
  scopeChainAux scopes scopes.length p

/-- Modelled from the spec: the method `Scope::FindVar` ("lookup variable by
name"): the nearest binding of the name in the scope or one of its ancestors. -/
def FindVar (scopes : List Scope) (p : Nat) (name : String) : Option Variable :=
  (scopeChain scopes p).findSome? (fun q => FindVarLocally scopes q name)

/-- The call chain `scope->Var(name)->GetMutable<LoDTensor>()` followed by the
writes `f` made through the returned pointer: the variable is created in the
scope itself when the name is not bound there, and afterwards holds the tensor
`f` makes of the one it held. -/
def updateLocalTensor (scopes : List Scope) (p : Nat) (name : String)
    (f : LoDTensor → LoDTensor) : List Scope :=
  updateScope scopes p (fun s =>
    let v := (NameMap.find s.vars_ name).getD Variable.Uninitialized
    let t := f (Variable.GetMutableLoDTensor v)
    { s with vars_ := NameMap.assign s.vars_ name (Variable.OfLoDTensor t) })

/-- The tensor reached by `scope->Var(name)->GetMutable<LoDTensor>()`. -/
def localTensor (scopes : List Scope) (p : Nat) (name : String) : LoDTensor :=
  Variable.GetMutableLoDTensor ((FindVarLocally scopes p name).getD Variable.Uninitialized)

/-- The scopes and the device memory the coordinator works on. -/
structure World where
  scopes : List Scope
  memory : List Allocation
  deriving DecidableEq, Repr

/-- The state a call leaves behind, with the exception it raised (PADDLE_ENFORCE,
PADDLE_THROW), if any. -/
structure Outcome (σ : Type) where
  state : σ
  error : Option String
  deriving DecidableEq, Repr

/-! ## Program description and strategies

The declarations of ProgramDesc, BuildStrategy and ExecutionStrategy are in
headers outside this file; they are given here with the members the file uses. -/

/-- The values of proto::VarType::Type: the two the file names and the rest. -/
inductive VarType where
  | LOD_TENSOR
  | SELECTED_ROWS
  | OTHER (code : Nat)
  deriving DecidableEq, Repr

/-- A variable description: `Name()`, `GetType()`, `Persistable()`. -/
structure VarDesc where
  Name : String
  GetType : VarType
  Persistable : Bool
  deriving DecidableEq, Repr

/-- An operator description: `Type()`. -/
structure OpDesc where
  type : String
  deriving DecidableEq, Repr

/-- A block of a program (BlockDesc): `AllVars()`, `AllOps()`. -/
structure BlockDesc where
  AllVars : List VarDesc
  AllOps : List OpDesc
  deriving DecidableEq, Repr

/-- The class ProgramDesc, declared outside this file, which reads it through
`main_program.Block(0).AllVars()` and `main_program.Block(0).AllOps()`: a
program is the list of its blocks, block 0 first. -/
structure ProgramDesc where
  blocks : List BlockDesc
  deriving DecidableEq, Repr

/-- The accessor `ProgramDesc::Block(idx)`. -/
def ProgramDesc.Block (p : ProgramDesc) (idx : Nat) : BlockDesc :=
  p.blocks.getD idx { AllVars := [], AllOps := [] }

/-- The enumeration BuildStrategy::ReduceStrategy. -/
inductive ReduceStrategy where
  | kAllReduce
  | kReduce
  deriving DecidableEq, Repr

/-- Modelled from the spec: the enumeration ExecutionStrategy::ExecutorType,
whose declaration is outside this file.  The file names kDefault and
kExperimental; the spec lists the executor kinds default, fast and
experimental. -/
inductive ExecutorType where
  | kDefault
  | kFast
  | kExperimental
  deriving DecidableEq, Repr

/-- The members of BuildStrategy the file reads or writes. -/
structure BuildStrategy where
  reduce_ : ReduceStrategy
  memory_early_delete_ : Bool
  enable_sequential_execution_ : Bool
  enable_parallel_graph_ : Bool
  num_trainers_ : Nat
  trainer_id_ : Nat
  deriving DecidableEq, Repr

/-- The members of ExecutionStrategy the file reads. -/
structure ExecutionStrategy where
  type_ : ExecutorType
  use_cuda_ : Bool
  num_threads_ : Nat
  num_iteration_per_drop_scope_ : Nat
  deriving DecidableEq, Repr

/-! ## Graphs and graph executors -/

/-- A node of an ir::Graph: `IsVar()`, `IsCtrlVar()`, `Var()` (null when the
node carries no variable description). -/
structure Node where
  IsVar : Bool
  IsCtrlVar : Bool
  Var : Option VarDesc
  deriving DecidableEq, Repr

/-- An ir::Graph, by its nodes. -/
structure Graph where
  Nodes : List Node
  deriving DecidableEq, Repr

/-- The record details::VariableInfo. -/
structure VariableInfo where
  name_ : String
  type_ : VarType
  persistable_ : Bool
  deriving DecidableEq, Repr

/-- The graph executors the constructor creates, each with the graph or graphs
it is given; the scope-buffering executor wraps another executor. -/
inductive SSAGraphExecutor where
  | ThreadedSSAGraphExecutor (graph : Graph)
  | FastThreadedSSAGraphExecutor (graph : Graph)
  | ParallelSSAGraphExecutor (graphs : List Graph)
  | ScopeBufferedSSAGraphExecutor (var_infos : List VariableInfo)
      (underlying_executor : SSAGraphExecutor)
  deriving DecidableEq, Repr

/-! ## Reference counts -/

/-- The type details::ReferenceCountMap (and its atomic runtime twin): variable
name to number of pending readers. -/
abbrev ReferenceCountMap := NameMap Nat

/-- The kinds of garbage collector PrepareGCAndRefCnts creates. -/
inductive GarbageCollector where
  | CPUGarbageCollector (max_memory_size : Nat)
  | StreamGarbageCollector (device : Nat) (max_memory_size : Nat)
  | UnsafeFastGPUGarbageCollector (device : Nat) (max_memory_size : Nat)
  deriving DecidableEq, Repr

/-- The arguments an NCCLContextMap is created from. -/
structure NCCLContextMap where
  places : List Place
  has_nccl_id : Bool
  num_trainers : Nat
  trainer_id : Nat
  deriving DecidableEq, Repr

/-- The class ParallelExecutorPrivate.  Scopes are addresses into the scope
heap; `executor_` and `nccl_ctxs_` are null until the constructor sets them. -/
structure ParallelExecutorPrivate where
  build_strategy_ : BuildStrategy
  places_ : List Place
  local_scopes_ : List Nat
  global_scope_ : Nat
  executor_ : Option SSAGraphExecutor
  nccl_ctxs_ : Option NCCLContextMap
  own_local_scope_ : Bool
  use_cuda_ : Bool
  use_all_reduce_ : Bool
  nranks_ : Nat
  global_ref_cnts_ : List ReferenceCountMap
  runtime_ref_cnts_ : List ReferenceCountMap
  gcs_ : List (Place × GarbageCollector)
  deriving DecidableEq, Repr

/-- The method HasGarbageCollectors: `!gcs_.empty()`. -/
def HasGarbageCollectors (m : ParallelExecutorPrivate) : Bool := !m.gcs_.isEmpty

/-- First inner loop of ResetRuntimeReferenceCount:
`for (auto &pair : global_ref_cnts_[i]) runtime_ref_cnts_[i][pair.first] = pair.second;` -/
def copyStaticCounts (rt : ReferenceCountMap) (g : ReferenceCountMap) : ReferenceCountMap :=
  g.foldl (fun acc pair => NameMap.assign acc pair.1 pair.2) rt

/-- Second inner loop of ResetRuntimeReferenceCount:
`for (auto &fetch_name : fetch_tensors) runtime_ref_cnts_[i].erase(fetch_name);` -/
def eraseFetched (rt : ReferenceCountMap) (fetch_tensors : List String) : ReferenceCountMap :=
  fetch_tensors.foldl (fun acc fetch_name => NameMap.erase acc fetch_name) rt

/-- Body of the outer loop of ResetRuntimeReferenceCount for one device. -/
def resetOne (g rt : ReferenceCountMap) (fetch_tensors : List String)
    (fetched_var_name : String) : ReferenceCountMap :=
  NameMap.erase (eraseFetched (copyStaticCounts rt g) fetch_tensors) fetched_var_name

/-- Outer loop of ResetRuntimeReferenceCount from index `i` on, over the
remaining runtime maps; `global_ref_cnts_[i]` past the end of the vector is
read as the empty map. -/
def resetFrom (global_ref_cnts : List ReferenceCountMap) (fetch_tensors : List String)
    (fetched_var_name : String) : Nat → List ReferenceCountMap → List ReferenceCountMap
  | _, [] => []
  | i, rt :: rest =>
    resetOne (global_ref_cnts.getD i []) rt fetch_tensors fetched_var_name
      :: resetFrom global_ref_cnts fetch_tensors fetched_var_name (i + 1) rest

/-- The method ParallelExecutorPrivate::ResetRuntimeReferenceCount. -/
def ResetRuntimeReferenceCount (m : ParallelExecutorPrivate) (fetch_tensors : List String)
    (fetched_var_name : String) : ParallelExecutorPrivate :=
  { m with runtime_ref_cnts_ :=
      resetFrom m.global_ref_cnts_ fetch_tensors fetched_var_name 0 m.runtime_ref_cnts_ }

/-- The start of ParallelExecutor::Run, up to the call of the graph executor:
`if (member_->HasGarbageCollectors()) member_->ResetRuntimeReferenceCount(...)`. -/
def RunResetPhase (m : ParallelExecutorPrivate) (fetch_tensors : List String)
    (fetched_var_name : String) : ParallelExecutorPrivate :=
  if HasGarbageCollectors m then ResetRuntimeReferenceCount m fetch_tensors fetched_var_name
  else m

/-! ## The admissibility predicate of the parallel-graph mode -/

/-- First loop of EnableParallelGraphExecution:
`for (var_desc : AllVars()) if (var_desc->GetType() == SELECTED_ROWS) enable_parallel_graph = false;` -/
def sparseVarLoop (vars : List VarDesc) (enable_parallel_graph : Bool) : Bool :=
  vars.foldl (fun e var_desc => if var_desc.GetType = VarType.SELECTED_ROWS then false else e)
    enable_parallel_graph

/-- Second loop of EnableParallelGraphExecution, which stops at the first
"send" or "recv" operator:
`for (op_desc : AllOps()) if (Type() == "send" || Type() == "recv") { enable_parallel_graph = false; break; }` -/
def sendRecvLoop : List OpDesc → Bool → Bool
  | [], enable_parallel_graph => enable_parallel_graph
  | op_desc :: rest, enable_parallel_graph =>
    if op_desc.type = "send" ∨ op_desc.type = "recv" then false
    else sendRecvLoop rest enable_parallel_graph

/-- The method ParallelExecutor::EnableParallelGraphExecution;
`FLAGS_enable_parallel_graph` is the command-line flag. -/
def EnableParallelGraphExecution (FLAGS_enable_parallel_graph : Bool)
    (member_ : ParallelExecutorPrivate) (main_program : ProgramDesc)
    (exec_strategy : ExecutionStrategy) (build_strategy : BuildStrategy) : Bool :=
  if !FLAGS_enable_parallel_graph then false
  else
    let e0 := true
    let e1 := sparseVarLoop (main_program.Block 0).AllVars e0
    let e2 := sendRecvLoop (main_program.Block 0).AllOps e1
    let e3 := if !member_.use_all_reduce_ || !member_.use_cuda_ then false else e2
    let e4 :=
      if build_strategy.enable_sequential_execution_ ||
          decide (exec_strategy.type_ = ExecutorType.kExperimental) then false
      else e3
    e4

/-! ## Construction: validation and the per-device scopes -/

/-- The member initialisation at the head of the constructor
(`member_(new ParallelExecutorPrivate(places))` and the five assignments that
follow).  `num_trainers` is a name the constructor reads without declaring it
in this file; `nranks_` is a size_t, so the product is taken modulo 2^64. -/
def ctorInit (num_trainers : Nat) (places : List Place) (scope : Nat)
    (exec_strategy : ExecutionStrategy) (build_strategy : BuildStrategy) :
    ParallelExecutorPrivate :=
  { build_strategy_ := build_strategy,
    places_ := places,
    local_scopes_ := [],
    global_scope_ := scope,
    executor_ := none,
    nccl_ctxs_ := none,
    own_local_scope_ := false,
    use_cuda_ := exec_strategy.use_cuda_,
    use_all_reduce_ := decide (build_strategy.reduce_ = ReduceStrategy.kAllReduce),
    nranks_ := (num_trainers * places.length) % 2 ^ 64,
    global_ref_cnts_ := [],
    runtime_ref_cnts_ := [],
    gcs_ := [] }

/-- The loop `for (i = 1; i < places_.size(); ++i)
local_scopes_.emplace_back(&scope->NewScope());` with `n` iterations left. -/
def createOwnedScopes (scope : Nat) : Nat → List Scope → List Nat → List Scope × List Nat
  | 0, scopes, local_scopes_ => (scopes, local_scopes_)
  | n + 1, scopes, local_scopes_ =>
    createOwnedScopes scope n (NewScope scopes scope).1
      (local_scopes_ ++ [(NewScope scopes scope).2])

/-- The loop `for (i = 0; i < places_.size(); ++i)
local_scopes_.emplace_back(&local_scopes[i]->NewScope());` over the supplied
scopes still to visit (the two vectors have the same size when it runs). -/
def createBorrowedScopes : List Nat → List Scope → List Nat → List Scope × List Nat
  | [], scopes, local_scopes_ => (scopes, local_scopes_)
  | supplied :: rest, scopes, local_scopes_ =>
    createBorrowedScopes rest (NewScope scopes supplied).1
      (local_scopes_ ++ [(NewScope scopes supplied).2])

/-- The constructor from the check of the reduction strategy to the end of
"Create local scopes": the two PADDLE_ENFORCE checks and the creation of the
per-device scopes. -/
def ctorLocalScopes (member_ : ParallelExecutorPrivate) (scopes : List Scope)
    (places : List Place) (scope : Nat) (local_scopes : List Nat) :
    Outcome (ParallelExecutorPrivate × List Scope) :=
  if !member_.use_all_reduce_ && !decide (places.length > 1) then
    { state := (member_, scopes),
      error := some "If you set build_strategy.reduce with 'Reduce',the number of places must be greater than 1." }
  else if local_scopes.isEmpty then
    let m1 := { member_ with own_local_scope_ := true }
    let m2 := { m1 with local_scopes_ := m1.local_scopes_ ++ [m1.global_scope_] }
    let r := createOwnedScopes scope (m2.places_.length - 1) scopes m2.local_scopes_
    { state := ({ m2 with local_scopes_ := r.2 }, r.1), error := none }
  else
    let m1 := { member_ with own_local_scope_ := false }
    if m1.places_.length ≠ local_scopes.length then
      { state := (m1, scopes), error := some "Enforce failed: places_.size() == local_scopes.size()" }
    else
      let r := createBorrowedScopes local_scopes scopes m1.local_scopes_
      { state := ({ m1 with local_scopes_ := r.2 }, r.1), error := none }

/-- The constructor up to the end of "Create local scopes". -/
def ctorValidateAndCreateScopes (num_trainers : Nat) (places : List Place) (scope : Nat)
    (local_scopes : List Nat) (exec_strategy : ExecutionStrategy)
    (build_strategy : BuildStrategy) (scopes : List Scope) :
    Outcome (ParallelExecutorPrivate × List Scope) :=
  ctorLocalScopes (ctorInit num_trainers places scope exec_strategy build_strategy) scopes
    places scope local_scopes

/-- Scope `child` is a child of scope `parent`: its parent link says so and the
parent lists it. -/
def IsChildOf (scopes : List Scope) (parent child : Nat) : Prop :=
  (scopes[child]?).map (fun s => s.parent_) = some (some parent) ∧
    HasKid scopes parent child = true

instance (scopes : List Scope) (parent child : Nat) : Decidable (IsChildOf scopes parent child) := by
  unfold IsChildOf
  infer_instance

/-- The children of the scope at `p` (none when `p` is not a scope). -/
def kidsOf (scopes : List Scope) (p : Nat) : List Nat :=
  match scopes[p]? with
  | none => []
  | some s => s.kids_

/-- Whether the scope at `p` has been destroyed (none when `p` is not a scope). -/
def isDeleted (scopes : List Scope) (p : Nat) : Option Bool :=
  (scopes[p]?).map (fun s => s.deleted)

/-! ## Destruction -/

/-- The loop of the destructor over the per-device scopes after the first:
`if (global_scope_->HasKid(local_scope)) global_scope_->DeleteScope(local_scope);` -/
def deleteOwnedScopes (global_scope_ : Nat) : List Nat → List Scope → List Scope
  | [], scopes => scopes
  | local_scope :: rest, scopes =>
    deleteOwnedScopes global_scope_ rest
      (if HasKid scopes global_scope_ local_scope then DeleteScope scopes global_scope_ local_scope
       else scopes)

/-- The destructor of ParallelExecutorPrivate; the loop starts at index 1
("Skip the first scope, since it is the global scope"). -/
def ParallelExecutorPrivate.destroy (member_ : ParallelExecutorPrivate) (scopes : List Scope) :
    List Scope :=
  if member_.own_local_scope_ then
    deleteOwnedScopes member_.global_scope_ (member_.local_scopes_.drop 1) scopes
  else scopes

/-- The destructor of ParallelExecutor: it waits for every device, which
touches no scope, and then deletes `member_`. -/
def ParallelExecutor.destroy (member_ : ParallelExecutorPrivate) (scopes : List Scope) :
    List Scope :=
  member_.destroy scopes

/-! ## Feeding -/

/-- The inner loop of FeedTensorsIntoLocalScopes over the pairs of one map:
`trg = scope->Var(pair.first)->GetMutable<LoDTensor>();
trg->ShareDataWith(pair.second); trg->set_lod(pair.second.lod());` -/
def feedMap (scope : Nat) (map : NameMap LoDTensor) (scopes : List Scope) : List Scope :=
  map.foldl (fun sc pair =>
    updateLocalTensor sc scope pair.1
      (fun trg => (trg.ShareDataWith pair.2).set_lod pair.2.lod_)) scopes

/-- The outer loop of FeedTensorsIntoLocalScopes from index `i` on, over the
maps still to feed; `local_scopes_[i]` is in range by the size check. -/
def feedFrom (local_scopes_ : List Nat) : Nat → List (NameMap LoDTensor) → List Scope → List Scope
  | _, [], scopes => scopes
  | i, map :: rest, scopes =>
    feedFrom local_scopes_ (i + 1) rest (feedMap (local_scopes_.getD i 0) map scopes)

/-- The method ParallelExecutor::FeedTensorsIntoLocalScopes. -/
def FeedTensorsIntoLocalScopes (member_ : ParallelExecutorPrivate) (w : World)
    (tensors : List (NameMap LoDTensor)) : Outcome World :=
  if member_.local_scopes_.length ≠ tensors.length then
    { state := w, error := some "Enforce failed: local_scopes_.size() == tensors.size()" }
  else
    { state := { w with scopes := feedFrom member_.local_scopes_ 0 tensors w.scopes },
      error := none }

/-- The inner loop of FeedAndSplitTensorIntoLocalScopes over the devices from
index `j` on, `n` devices left:
`t = local_scopes_[j]->Var(pair.first)->GetMutable<LoDTensor>();
t->ShareDataWith(lod_tensors[j]); t->set_lod(lod_tensors[j].lod());` -/
def feedShards (local_scopes_ : List Nat) (name : String) (lod_tensors : List LoDTensor) :
    Nat → Nat → List Scope → List Scope
  | 0, _, scopes => scopes
  | n + 1, j, scopes =>
    feedShards local_scopes_ name lod_tensors n (j + 1)
      (updateLocalTensor scopes (local_scopes_.getD j 0) name
        (fun t => (t.ShareDataWith (lod_tensors.getD j LoDTensor.empty)).set_lod
          (lod_tensors.getD j LoDTensor.empty).lod_))

/-- The world after the inner loop of FeedAndSplitTensorIntoLocalScopes has
bound the shards `lod_tensors` of the tensor named `name`. -/
def feedSplitEntry (member_ : ParallelExecutorPrivate) (name : String)
    (lod_tensors : List LoDTensor) (w : World) : World :=
  { w with scopes :=
      feedShards member_.local_scopes_ name lod_tensors member_.places_.length 0 w.scopes }

/-- The method ParallelExecutor::FeedAndSplitTensorIntoLocalScopes, over the
pairs of the map in iteration order.  `SplitLoDTensor` is the method of
LoDTensor of that name, defined outside this file. -/
def FeedAndSplitTensorIntoLocalScopes (SplitLoDTensor : LoDTensor → List Place → List LoDTensor)
    (member_ : ParallelExecutorPrivate) : NameMap LoDTensor → World → Outcome World
  | [], w => { state := w, error := none }
  | pair :: rest, w =>
    let lod_tensors := SplitLoDTensor pair.2 member_.places_
    if member_.places_.length ≠ lod_tensors.length then
      { state := w,
        error := some "The number of samples of current batch is less than the count of devices, currently, it is not allowed." }
    else
      FeedAndSplitTensorIntoLocalScopes SplitLoDTensor member_ rest
        (feedSplitEntry member_ pair.1 lod_tensors w)

/-- Modelled from the spec: the method LoDTensor::SplitLoDTensor, not in this
file ("splits each tensor along its outer batch dimension into exactly one
shard per device - fails if the number of producible shards is less than the
number of devices").  A tensor of outer dimension B yields min(B, N) shards
over N devices; each is a slice of B / N rows of the same allocation, the last
device also taking the B mod N rows left over. -/
def SplitLoDTensor (t : LoDTensor) (places : List Place) : List LoDTensor :=
  let batch_size := t.dims_.headD 0
  let row := t.dims_.tail.foldl (fun a d => a * d) 1
  let step_width := batch_size / places.length
  let remainder := batch_size % places.length
  (List.range (min batch_size places.length)).map (fun i =>
    { dims_ := (if i + 1 = places.length then step_width + remainder else step_width)
                 :: t.dims_.tail,
      type_ := t.type_,
      holder_ := t.holder_,
      offset_ := t.offset_ + i * step_width * row,
      lod_ := [] })

/-! ## Broadcast of the parameters -/

/-- One iteration of the host loop of BCastParamsToDevices, for device `i`:
`t = local_scope->Var(var)->GetMutable<LoDTensor>();` then, under the copy
condition, `t->Resize(dims); t->mutable_data(cpu, main_tensor.type());
TensorCopy(main_tensor, cpu, t);` and otherwise `t->ShareDataWith(main_tensor);` -/
def bcastHostDevice (member_ : ParallelExecutorPrivate) (var : String)
    (main_tensor : LoDTensor) (w : World) (i : Nat) : World :=
  let local_scope := member_.local_scopes_.getD i 0
  let t := localTensor w.scopes local_scope var
  if member_.use_all_reduce_ || member_.use_cuda_ || decide (var = "@LR_DECAY_COUNTER@") then
    let t1 := t.Resize main_tensor.dims_
    let r2 := LoDTensor.mutable_data w.memory t1 Place.CPUPlace main_tensor.type_
    let r3 := TensorCopy r2.1 main_tensor Place.CPUPlace r2.2
    { scopes := updateLocalTensor w.scopes local_scope var (fun _ => r3.2), memory := r3.1 }
  else
    { scopes := updateLocalTensor w.scopes local_scope var (fun _ => t.ShareDataWith main_tensor),
      memory := w.memory }

/-- One device of the accelerator path of BCastParamsToDevices.  Device 0
contributes the buffer of `main_tensor`; for another device
`t = local_scope->Var(var)->GetMutable<LoDTensor>(); t->Resize(dims);
buffer = t->mutable_data(place, main_tensor.type());` and the ncclBcast from
device 0 leaves the elements of device 0's buffer in this buffer. -/
def bcastNcclDevice (member_ : ParallelExecutorPrivate) (var : String)
    (main_tensor : LoDTensor) (w : World) (i : Nat) : World :=
  if i = 0 then w
  else
    let place := member_.places_.getD i Place.CPUPlace
    let local_scope := member_.local_scopes_.getD i 0
    let t := localTensor w.scopes local_scope var
    let t1 := t.Resize main_tensor.dims_
    let r2 := LoDTensor.mutable_data w.memory t1 place main_tensor.type_
    { scopes := updateLocalTensor w.scopes local_scope var (fun _ => r2.2),
      memory := writeAllocation r2.1 w.memory.length place (main_tensor.contents w.memory) }

/-- The body of the loop of BCastParamsToDevices for one variable name.
`with_cuda` says whether the file is compiled with PADDLE_WITH_CUDA (and not
on Windows). -/
def bcastVar (with_cuda : Bool) (member_ : ParallelExecutorPrivate) (var : String)
    (w : World) : Outcome World :=
  match FindVar w.scopes (member_.local_scopes_.getD 0 0) var with
  | some (Variable.OfLoDTensor main_tensor) =>
    if !main_tensor.IsInitialized then { state := w, error := none }
    else if is_gpu_place (main_tensor.place w.memory) then
      if with_cuda then
        { state := (List.range member_.places_.length).foldl
            (bcastNcclDevice member_ var main_tensor) w,
          error := none }
      else { state := w, error := some "Not compiled with CUDA" }
    else
      { state := (List.range' 1 (member_.places_.length - 1)).foldl
          (bcastHostDevice member_ var main_tensor) w,
        error := none }
  | _ => { state := w, error := none }

/-- The method ParallelExecutor::BCastParamsToDevices, over the names of the
set in iteration order; an exception ends the loop. -/
def BCastParamsToDevices (with_cuda : Bool) (member_ : ParallelExecutorPrivate) :
    List String → World → Outcome World
  | [], w => { state := w, error := none }
  | var :: rest, w =>
    match (bcastVar with_cuda member_ var w).error with
    | some e => { state := (bcastVar with_cuda member_ var w).state, error := some e }
    | none => BCastParamsToDevices with_cuda member_ rest (bcastVar with_cuda member_ var w).state

/-! ## Construction: graphs, garbage collection, executor -/

/-- The last-live-operator table the reference-count pass hands to the
eager-deletion pass; its content is not used by this file. -/
abbrev LastLiveOpsOfVars := List (NameMap (List Nat))

/-- What the constructor takes from outside the file: the compilation
switches, the command-line flags and configuration functions, the name
`num_trainers`, the graph builder `BuildStrategy::Apply` and the three passes of
PrepareGCAndRefCnts.  The passes write the attributes they were given by
pointer, which are returned here next to the graph. -/
structure Env where
  PADDLE_WITH_CUDA : Bool
  WIN32 : Bool
  FLAGS_enable_parallel_graph : Bool
  num_trainers : Nat
  NCCL_ID_VARNAME : String
  GetEagerDeletionThreshold : Int
  IsFastEagerDeletionModeEnabled : Bool
  Apply : BuildStrategy → ProgramDesc → List Place → String → List Nat → Nat → Bool →
    Option NCCLContextMap → Graph
  reference_count_pass : Graph → List ReferenceCountMap →
    Graph × List ReferenceCountMap × LastLiveOpsOfVars
  eager_deletion_pass : Graph → List ReferenceCountMap → List (Place × GarbageCollector) →
    LastLiveOpsOfVars → List Place → Graph × List ReferenceCountMap
  memory_early_delete_pass : Graph → List (Place × GarbageCollector) → Graph

/-- The condition `defined(PADDLE_WITH_CUDA) && !defined(_WIN32)`. -/
def Env.ncclBuild (env : Env) : Bool := env.PADDLE_WITH_CUDA && !env.WIN32

/-- The device index of an accelerator place
(`boost::get<platform::CUDAPlace>(place)`). -/
def Place.device : Place → Nat
  | Place.CUDAPlace device => device
  | _ => 0

/-- The loop of PrepareGCAndRefCnts over the places: a place that has a
collector is passed over; in a build with PADDLE_WITH_CUDA an accelerator place
gets the unsafe-fast or the stream collector; otherwise a host place gets the
CPU collector and any other place raises "Unsupported place". -/
def createCollectors (env : Env) (max_memory_size : Nat) :
    List Place → List (Place × GarbageCollector) → Outcome (List (Place × GarbageCollector))
  | [], gcs_ => { state := gcs_, error := none }
  | place :: rest, gcs_ =>
    if gcs_.any (fun entry => decide (entry.1 = place)) then
      createCollectors env max_memory_size rest gcs_
    else if env.PADDLE_WITH_CUDA && is_gpu_place place then
      let gc :=
        if env.IsFastEagerDeletionModeEnabled then
          GarbageCollector.UnsafeFastGPUGarbageCollector place.device max_memory_size
        else GarbageCollector.StreamGarbageCollector place.device max_memory_size
      createCollectors env max_memory_size rest (gcs_ ++ [(place, gc)])
    else if is_cpu_place place then
      createCollectors env max_memory_size rest
        (gcs_ ++ [(place, GarbageCollector.CPUGarbageCollector max_memory_size)])
    else { state := gcs_, error := some "Unsupported place for garbage collection" }

/-- The passes of PrepareGCAndRefCnts, run when a collector exists. -/
def applyGCPasses (env : Env) (member_ : ParallelExecutorPrivate) (graph : Graph) :
    ParallelExecutorPrivate × Graph :=
  if !member_.gcs_.isEmpty then
    let r1 := env.reference_count_pass graph member_.global_ref_cnts_
    let m1 := { member_ with global_ref_cnts_ := r1.2.1 }
    let r2 := env.eager_deletion_pass r1.1 m1.runtime_ref_cnts_ m1.gcs_ r1.2.2 m1.places_
    let m2 := { m1 with runtime_ref_cnts_ := r2.2 }
    let g3 :=
      if m2.build_strategy_.memory_early_delete_ then env.memory_early_delete_pass r2.1 m2.gcs_
      else r2.1
    (m2, g3)
  else (member_, graph)

/-- The method ParallelExecutorPrivate::PrepareGCAndRefCnts. -/
def PrepareGCAndRefCnts (env : Env) (member_ : ParallelExecutorPrivate) (graph : Graph)
    (max_memory_size : Nat) : Outcome (ParallelExecutorPrivate × Graph) :=
  let c := createCollectors env max_memory_size member_.places_ member_.gcs_
  let m1 := { member_ with gcs_ := c.state }
  match c.error with
  | some e => { state := (m1, graph), error := some e }
  | none => { state := applyGCPasses env m1 graph, error := none }

/-- The loop `for (i = 0; i < graphs.size(); ++i) graphs[i] =
member_->PrepareGCAndRefCnts(std::move(graphs[i]), max_memory_size);` over the
graphs still to prepare; `done` holds those prepared so far. -/
def prepareGraphs (env : Env) (max_memory_size : Nat) :
    List Graph → ParallelExecutorPrivate → List Graph →
      Outcome (ParallelExecutorPrivate × List Graph)
  | [], member_, done => { state := (member_, done), error := none }
  | graph :: rest, member_, done =>
    match (PrepareGCAndRefCnts env member_ graph max_memory_size).error with
    | some e =>
      { state := ((PrepareGCAndRefCnts env member_ graph max_memory_size).state.1,
                  done ++ graph :: rest),
        error := some e }
    | none =>
      prepareGraphs env max_memory_size rest
        (PrepareGCAndRefCnts env member_ graph max_memory_size).state.1
        (done ++ [(PrepareGCAndRefCnts env member_ graph max_memory_size).state.2])

/-- The loop that builds one graph per device in the parallel-graph mode, from
device `i` on:
`build_strategy.Apply(main_program, {places_[i]}, loss_var_name, {local_scopes_[i]}, nranks_, use_cuda_, nccl_ctxs_.get())`. -/
def buildPerDeviceGraphs (env : Env) (member_ : ParallelExecutorPrivate)
    (build_strategy : BuildStrategy) (main_program : ProgramDesc) (loss_var_name : String) :
    Nat → Nat → List Graph
  | 0, _ => []
  | n + 1, i =>
    env.Apply build_strategy main_program [member_.places_.getD i Place.CPUPlace] loss_var_name
        [member_.local_scopes_.getD i 0] member_.nranks_ member_.use_cuda_ member_.nccl_ctxs_
      :: buildPerDeviceGraphs env member_ build_strategy main_program loss_var_name n (i + 1)

/-- Step 2 of the constructor: the vector `graphs`.  In a build with NCCL the
parallel-graph mode builds one graph per device and the other modes one shared
graph; a build without NCCL always builds one shared graph. -/
def buildGraphs (env : Env) (member_ : ParallelExecutorPrivate)
    (build_strategy : BuildStrategy) (main_program : ProgramDesc) (loss_var_name : String) :
    List Graph :=
  if env.ncclBuild then
    if build_strategy.enable_parallel_graph_ then
      buildPerDeviceGraphs env member_ build_strategy main_program loss_var_name
        member_.places_.length 0
    else
      [env.Apply build_strategy main_program member_.places_ loss_var_name
        member_.local_scopes_ member_.nranks_ member_.use_cuda_ member_.nccl_ctxs_]
  else
    [env.Apply build_strategy main_program member_.places_ loss_var_name
      member_.local_scopes_ member_.nranks_ member_.use_cuda_ none]

/-- Step 3 of the constructor: a VariableInfo for every node that is a variable,
is not a control variable and has a description. -/
def collectVarInfos (graphs : List Graph) : List VariableInfo :=
  graphs.foldl (fun var_infos graph =>
    graph.Nodes.foldl (fun var_infos node =>
      match node.Var with
      | some desc =>
        if node.IsVar && !node.IsCtrlVar then
          var_infos ++ [{ name_ := desc.Name, type_ := desc.GetType,
                          persistable_ := desc.Persistable }]
        else var_infos
      | none => var_infos) var_infos) []

/-- The choice of the graph executor at the end of the constructor, before it
is wrapped. -/
def selectExecutor (build_strategy : BuildStrategy) (exec_strategy : ExecutionStrategy)
    (graphs : List Graph) : SSAGraphExecutor :=
  if build_strategy.enable_parallel_graph_ then
    SSAGraphExecutor.ParallelSSAGraphExecutor graphs
  else if exec_strategy.type_ = ExecutorType.kDefault then
    SSAGraphExecutor.ThreadedSSAGraphExecutor (graphs.getD 0 { Nodes := [] })
  else
    SSAGraphExecutor.FastThreadedSSAGraphExecutor (graphs.getD 0 { Nodes := [] })

/-- The state a run of the constructor leaves: the coordinator, the scopes and
memory, the caller's build strategy (whose `enable_parallel_graph_` the
constructor assigns), the vector `graphs` as handed to the executor, and the
exception raised, if any. -/
structure CtorResult where
  member_ : ParallelExecutorPrivate
  world : World
  build_strategy : BuildStrategy
  graphs : List Graph
  error : Option String

/-- The creation of the NCCL contexts in an accelerated run: the unique id is
the one held by the variable NCCL_ID_VARNAME of the scope, if there is one, or
a new one in the parallel-graph mode with more than one rank, or none. -/
def createNCCLContextMap (env : Env) (member_ : ParallelExecutorPrivate) (scopes : List Scope)
    (scope : Nat) (build_strategy : BuildStrategy) : NCCLContextMap :=
  { places := member_.places_,
    has_nccl_id := (FindVar scopes scope env.NCCL_ID_VARNAME).isSome ||
      (build_strategy.enable_parallel_graph_ && decide (member_.nranks_ > 1)),
    num_trainers := build_strategy.num_trainers_,
    trainer_id := build_strategy.trainer_id_ }

/-- The garbage-collection step of the constructor:
`if (max_memory_size >= 0)` every graph goes through PrepareGCAndRefCnts. -/
def prepareAll (env : Env) (member_ : ParallelExecutorPrivate) (graphs : List Graph) :
    Outcome (ParallelExecutorPrivate × List Graph) :=
  if env.GetEagerDeletionThreshold ≥ 0 then
    prepareGraphs env env.GetEagerDeletionThreshold.toNat graphs member_ []
  else { state := (member_, graphs), error := none }

/-- The constructor of ParallelExecutor from "Step 2" on: graphs, garbage
collection, variable infos and the executor. -/
def ctorFinish (env : Env) (member_ : ParallelExecutorPrivate) (w : World)
    (bs : BuildStrategy) (main_program : ProgramDesc) (loss_var_name : String)
    (exec_strategy : ExecutionStrategy) : CtorResult :=
  let graphs := buildGraphs env member_ bs main_program loss_var_name
  let prepared := prepareAll env member_ graphs
  match prepared.error with
  | some e =>
    { member_ := prepared.state.1, world := w, build_strategy := bs,
      graphs := prepared.state.2, error := some e }
  | none =>
    let var_infos := collectVarInfos prepared.state.2
    let executor := selectExecutor bs exec_strategy prepared.state.2
    let wrapped := SSAGraphExecutor.ScopeBufferedSSAGraphExecutor var_infos executor
    let m := prepared.state.1
    { member_ := { m with executor_ := some wrapped },
      world := w, build_strategy := bs, graphs := prepared.state.2, error := none }

/-- The accelerated branch of the constructor in a build with NCCL: the
contexts are created and stored in `nccl_ctxs_`. -/
def ctorNccl (env : Env) (m1 : ParallelExecutorPrivate) (scopes : List Scope) (scope : Nat)
    (bs : BuildStrategy) : ParallelExecutorPrivate :=
  if m1.use_cuda_ then
    { m1 with nccl_ctxs_ := some (createNCCLContextMap env m1 scopes scope bs) }
  else m1

/-- The broadcast of the constructor:
`if (member_->local_scopes_.size() != 1 && local_scopes.empty()) BCastParamsToDevices(bcast_vars);` -/
def ctorBroadcast (env : Env) (m2 : ParallelExecutorPrivate) (local_scopes : List Nat)
    (bcast_vars : List String) (w1 : World) : Outcome World :=
  if decide (m2.local_scopes_.length ≠ 1) && local_scopes.isEmpty then
    BCastParamsToDevices env.ncclBuild m2 bcast_vars w1
  else { state := w1, error := none }

/-- The constructor after the admissibility decision has been stored in the
build strategy `bs`: the NCCL contexts (an accelerated run in a build without
NCCL raises "Not compiled with CUDA"), the broadcast, and the rest. -/
def ctorAfterDecision (env : Env) (m1 : ParallelExecutorPrivate) (w1 : World)
    (bcast_vars : List String) (main_program : ProgramDesc) (loss_var_name : String)
    (scope : Nat) (local_scopes : List Nat) (exec_strategy : ExecutionStrategy)
    (bs : BuildStrategy) : CtorResult :=
  if m1.use_cuda_ && !env.ncclBuild then
    { member_ := m1, world := w1, build_strategy := bs, graphs := [],
      error := some "Not compiled with CUDA" }
  else
    let m2 := ctorNccl env m1 w1.scopes scope bs
    let b := ctorBroadcast env m2 local_scopes bcast_vars w1
    match b.error with
    | some e =>
      { member_ := m2, world := b.state, build_strategy := bs, graphs := [], error := some e }
    | none => ctorFinish env m2 b.state bs main_program loss_var_name exec_strategy

/-- The assignment `build_strategy.enable_parallel_graph_ = value`. -/
def setEnableParallelGraph (build_strategy : BuildStrategy) (value : Bool) : BuildStrategy :=
  { build_strategy with enable_parallel_graph_ := value }

/-- The constructor after the per-device scopes exist:
`build_strategy.enable_parallel_graph_ = EnableParallelGraphExecution(main_program, exec_strategy, build_strategy);`
and what follows. -/
def ctorAfterScopes (env : Env) (m1 : ParallelExecutorPrivate) (w1 : World)
    (bcast_vars : List String) (main_program : ProgramDesc) (loss_var_name : String)
    (scope : Nat) (local_scopes : List Nat) (exec_strategy : ExecutionStrategy)
    (build_strategy : BuildStrategy) : CtorResult :=
  ctorAfterDecision env m1 w1 bcast_vars main_program loss_var_name scope local_scopes
    exec_strategy
    (setEnableParallelGraph build_strategy
      (EnableParallelGraphExecution env.FLAGS_enable_parallel_graph m1 main_program
        exec_strategy build_strategy))

/-- The constructor of ParallelExecutor. -/
def ParallelExecutor.ctor (env : Env) (places : List Place) (bcast_vars : List String)
    (main_program : ProgramDesc) (loss_var_name : String) (scope : Nat)
    (local_scopes : List Nat) (exec_strategy : ExecutionStrategy)
    (build_strategy : BuildStrategy) (w : World) : CtorResult :=
  let r1 := ctorValidateAndCreateScopes env.num_trainers places scope local_scopes
    exec_strategy build_strategy w.scopes
  match r1.error with
  | some e =>
    { member_ := r1.state.1, world := { w with scopes := r1.state.2 },
      build_strategy := build_strategy, graphs := [], error := some e }
  | none =>
    ctorAfterScopes env r1.state.1 { w with scopes := r1.state.2 } bcast_vars main_program
      loss_var_name scope local_scopes exec_strategy build_strategy

/-- The three conditions under which BCastParamsToDevices passes over a name:
no variable is found from device 0's scope (`main_var == nullptr`), the
variable found is not a LoDTensor, or its tensor is not initialized. -/
def Skipped (scopes : List Scope) (scope0 : Nat) (name : String) : Prop :=
  FindVar scopes scope0 name = none ∨
  (∃ v, FindVar scopes scope0 name = some v ∧ v.IsTypeLoDTensor = false) ∨
  (∃ t, FindVar scopes scope0 name = some (Variable.OfLoDTensor t) ∧ t.IsInitialized = false)

/-! ## Frame conditions -/

/-- The scope heap `sc2` has the scopes of `sc1` with the same parents, and
binds the same variable wherever `keep` says so. -/
def ScopesFrame (keep : Nat → String → Prop) (sc1 sc2 : List Scope) : Prop :=
  sc2.length = sc1.length ∧
  (∀ q : Nat, (sc2[q]?).map (fun s => s.parent_) = (sc1[q]?).map (fun s => s.parent_)) ∧
  (∀ q key, keep q key → FindVarLocally sc2 q key = FindVarLocally sc1 q key)

/-- The scope heap `sc2` has the scopes of `sc1`, each with the same parent,
the same children and the same deletion mark: at most bindings differ. -/
def SameTree (sc1 sc2 : List Scope) : Prop :=
  sc2.length = sc1.length ∧
  ∀ q : Nat, (sc2[q]?).map (fun s => (s.parent_, s.kids_, s.deleted)) =
    (sc1[q]?).map (fun s => (s.parent_, s.kids_, s.deleted))

/-- The memory `m2` holds every allocation of `m1` unchanged, at its address. -/
def MemoryGrows (m1 m2 : List Allocation) : Prop :=
  m1.length ≤ m2.length ∧ ∀ b, b < m1.length → m2[b]? = m1[b]?

/-! ## The inputs of the admissibility predicate -/

/-- Everything EnableParallelGraphExecution reads: the command-line flag, the
coordinator and its three arguments. -/
structure AdmissibilityInputs where
  FLAGS_enable_parallel_graph : Bool
  member_ : ParallelExecutorPrivate
  main_program : ProgramDesc
  exec_strategy : ExecutionStrategy
  build_strategy : BuildStrategy
  deriving DecidableEq, Repr

/-- The result of EnableParallelGraphExecution on the inputs. -/
def AdmissibilityInputs.decision (x : AdmissibilityInputs) : Bool :=
  EnableParallelGraphExecution x.FLAGS_enable_parallel_graph x.member_ x.main_program
    x.exec_strategy x.build_strategy

/-- The seven conditions of the admissibility rule as the predicate tests them,
each true at its qualifying value: (0) the flag is set, (1) no variable of
block 0 is of type SELECTED_ROWS, (2) no operator of block 0 is "send" or
"recv", (3) the coordinator recorded all-reduce, (4) it recorded use_cuda,
(5) sequential execution is not forced, (6) the executor kind is not
experimental. -/
def AdmissibilityInputs.conditions (x : AdmissibilityInputs) : List Bool :=
  [ x.FLAGS_enable_parallel_graph,
    (x.main_program.Block 0).AllVars.all (fun v => decide (v.GetType ≠ VarType.SELECTED_ROWS)),
    (x.main_program.Block 0).AllOps.all
      (fun op => decide (op.type ≠ "send" ∧ op.type ≠ "recv")),
    x.member_.use_all_reduce_,
    x.member_.use_cuda_,
    !x.build_strategy.enable_sequential_execution_,
    decide (x.exec_strategy.type_ ≠ ExecutorType.kExperimental) ]

/-! ## Concrete states used by the witnesses and counterexamples -/

/-- A coordinator state before construction has filled it in. -/
def blankMember : ParallelExecutorPrivate :=
  { build_strategy_ :=
      { reduce_ := ReduceStrategy.kAllReduce, memory_early_delete_ := false,
        enable_sequential_execution_ := false, enable_parallel_graph_ := false,
        num_trainers_ := 1, trainer_id_ := 0 },
    places_ := [], local_scopes_ := [], global_scope_ := 0, executor_ := none,
    nccl_ctxs_ := none, own_local_scope_ := false, use_cuda_ := false,
    use_all_reduce_ := true, nranks_ := 1, global_ref_cnts_ := [],
    runtime_ref_cnts_ := [], gcs_ := [] }

/-- A two-device state in which runtime entries were consumed or dropped by an
earlier step. -/
def exampleRefCnts : ParallelExecutorPrivate :=
  { blankMember with
    global_ref_cnts_ := [[("x", 2), ("y", 1), ("z", 3)], [("x", 1), ("w", 4)]],
    runtime_ref_cnts_ := [[("x", 0), ("z", 1)], [("w", 0)]],
    gcs_ := [(Place.CPUPlace, GarbageCollector.CPUGarbageCollector 0)] }

/-- A two-block program: block 0 holds a dense variable and a "mul" operator,
block 1 (a sub-block) holds a SELECTED_ROWS variable and a "send" operator. -/
def subBlockSparseProgram : ProgramDesc :=
  { blocks :=
      [ { AllVars := [{ Name := "w", GetType := VarType.LOD_TENSOR, Persistable := true }],
          AllOps := [{ type := "mul" }] },
        { AllVars := [{ Name := "g", GetType := VarType.SELECTED_ROWS, Persistable := false }],
          AllOps := [{ type := "send" }] } ] }

/-- An accelerated all-reduce coordinator state. -/
def cudaAllReduceMember : ParallelExecutorPrivate :=
  { blankMember with use_cuda_ := true, use_all_reduce_ := true }

/-- The execution strategy of the default executor on accelerators. -/
def cudaDefaultExec : ExecutionStrategy :=
  { type_ := ExecutorType.kDefault, use_cuda_ := true, num_threads_ := 1,
    num_iteration_per_drop_scope_ := 1 }

/-- A scope heap after an owning construction over three devices: the global
scope at address 0 with the two scopes the coordinator created (addresses 1
and 2) and a child of another owner (address 3). -/
def ownedScopesHeap : List Scope :=
  [ { parent_ := none, kids_ := [1, 2, 3],
      vars_ := [("w", Variable.OfLoDTensor
        { dims_ := [2], type_ := 5, holder_ := some 0, offset_ := 0, lod_ := [] }),
        ("@LR_DECAY_COUNTER@", Variable.OfLoDTensor
        { dims_ := [1], type_ := 3, holder_ := some 1, offset_ := 1, lod_ := [] })],
      deleted := false },
    { parent_ := some 0, kids_ := [], vars_ := [], deleted := false },
    { parent_ := some 0, kids_ := [], vars_ := [], deleted := false },
    { parent_ := some 0, kids_ := [], vars_ := [], deleted := false } ]

/-- The coordinator that owns the scopes at addresses 1 and 2 of
`ownedScopesHeap`. -/
def owningMember : ParallelExecutorPrivate :=
  { blankMember with
    places_ := [Place.CPUPlace, Place.CPUPlace, Place.CPUPlace],
    local_scopes_ := [0, 1, 2], global_scope_ := 0, own_local_scope_ := true,
    use_all_reduce_ := false }

/-- A heap that holds the global scope only. -/
def globalOnlyHeap : List Scope :=
  [ { parent_ := none, kids_ := [], vars_ := [], deleted := false } ]

/-- A strategy of the default executor on host devices. -/
def cpuDefaultExec : ExecutionStrategy :=
  { type_ := ExecutorType.kDefault, use_cuda_ := false, num_threads_ := 1,
    num_iteration_per_drop_scope_ := 1 }

/-- A device memory with two host allocations of two elements each. -/
def twoBufferMemory : List Allocation :=
  [ { place := Place.CPUPlace, data := [7, 8] }, { place := Place.CPUPlace, data := [1, 2] } ]

/-- The world of an owning coordinator over three devices. -/
def ownedWorld : World := { scopes := ownedScopesHeap, memory := twoBufferMemory }

/-- A tensor of two rows backed by allocation 1, with sequence lengths. -/
def fedTensor : LoDTensor :=
  { dims_ := [2], type_ := 5, holder_ := some 1, offset_ := 0, lod_ := [[0, 1, 2]] }

/-- A tensor of one row backed by allocation 1. -/
def oneRowTensor : LoDTensor :=
  { dims_ := [1], type_ := 5, holder_ := some 1, offset_ := 0, lod_ := [] }

/-- A tensor of three rows backed by allocation 1. -/
def threeRowTensor : LoDTensor :=
  { dims_ := [3], type_ := 5, holder_ := some 1, offset_ := 0, lod_ := [] }

/-- One tensor map per device of `owningMember`. -/
def perDeviceFeed : List (NameMap LoDTensor) :=
  [[("x", fedTensor)], [("x", oneRowTensor), ("y", fedTensor)], []]

/-- A shared feed whose first tensor has a row for each of three devices and
whose second has a single row. -/
def sharedFeed : NameMap LoDTensor := [("x", threeRowTensor), ("y", oneRowTensor)]

/-- The names broadcast in the examples: a parameter bound in the global
scope, a name no scope binds, and the learning-rate counter. -/
def exampleBcastVars : List String := ["w", "missing", "@LR_DECAY_COUNTER@"]

/-- The tensor bound to the learning-rate counter in the global scope of
`ownedScopesHeap`. -/
def counterTensor : LoDTensor :=
  { dims_ := [1], type_ := 3, holder_ := some 1, offset_ := 1, lod_ := [] }

/-- An environment of a build with NCCL, the parallel-graph flag set and eager
deletion on: the graph builder returns one variable node per place it is given,
and the passes leave the graph as it is. -/
def cudaEnv : Env :=
  { PADDLE_WITH_CUDA := true,
    WIN32 := false,
    FLAGS_enable_parallel_graph := true,
    num_trainers := 1,
    NCCL_ID_VARNAME := "NCCLID",
    GetEagerDeletionThreshold := 0,
    IsFastEagerDeletionModeEnabled := false,
    Apply := fun _ _ places _ _ _ _ _ =>
      { Nodes := places.map (fun _ =>
          { IsVar := true, IsCtrlVar := false,
            Var := some { Name := "w", GetType := VarType.LOD_TENSOR, Persistable := true } }) },
    reference_count_pass := fun graph cnts => (graph, cnts, []),
    eager_deletion_pass := fun graph cnts _ _ _ => (graph, cnts),
    memory_early_delete_pass := fun graph _ => graph }

/-- A program of one block with a dense parameter and a "mul" operator. -/
def denseProgram : ProgramDesc :=
  { blocks :=
      [ { AllVars := [{ Name := "w", GetType := VarType.LOD_TENSOR, Persistable := true }],
          AllOps := [{ type := "mul" }] } ] }

/-- The world that holds the global scope only and no allocation. -/
def globalOnlyWorld : World := { scopes := globalOnlyHeap, memory := [] }

/-- A program of one block with a SELECTED_ROWS variable and a "mul" operator. -/
def sparseProgram : ProgramDesc :=
  { blocks :=
      [ { AllVars := [{ Name := "g", GetType := VarType.SELECTED_ROWS, Persistable := false }],
          AllOps := [{ type := "mul" }] } ] }

/-- Inputs with the flag unset and every other condition qualifying. -/
def flagUnsetInputs : AdmissibilityInputs :=
  { FLAGS_enable_parallel_graph := false, member_ := cudaAllReduceMember,
    main_program := denseProgram, exec_strategy := cudaDefaultExec,
    build_strategy := cudaAllReduceMember.build_strategy_ }

/-- The inputs `flagUnsetInputs` with a sparse variable in the program. -/
def flagUnsetSparseInputs : AdmissibilityInputs :=
  { flagUnsetInputs with main_program := sparseProgram }

/-- Inputs with every condition qualifying. -/
def admissibleInputs : AdmissibilityInputs :=
  { flagUnsetInputs with FLAGS_enable_parallel_graph := true }

/-- The inputs `admissibleInputs` with a sparse variable in the program. -/
def admissibleSparseInputs : AdmissibilityInputs :=
  { admissibleInputs with main_program := sparseProgram }


/-! ## Theorems -/

theorem NameMap.find_assign_same {α : Type} (m : NameMap α) (k : String) (v : α) :
    NameMap.find (NameMap.assign m k v) k = some v := by
  induction m with
  | nil => simp [NameMap.assign, NameMap.find]
  | cons p m ih =>
    obtain ⟨a, b⟩ := p
    by_cases h : a = k
    · simp [NameMap.assign, NameMap.find, h]
    · simp [NameMap.assign, NameMap.find, h, ih]

theorem NameMap.find_assign_ne {α : Type} (m : NameMap α) (k key : String) (v : α)
    (hne : k ≠ key) : NameMap.find (NameMap.assign m k v) key = NameMap.find m key := by
  induction m with
  | nil => simp [NameMap.assign, NameMap.find, hne]
  | cons p m ih =>
    obtain ⟨a, b⟩ := p
    by_cases h : a = k
    · subst h
      simp [NameMap.assign, NameMap.find, hne]
    · by_cases h2 : a = key
      · subst h2
        simp [NameMap.assign, NameMap.find, h]
      · simp [NameMap.assign, NameMap.find, h, h2, ih]

theorem NameMap.find_erase {α : Type} (m : NameMap α) (k key : String) :
    NameMap.find (NameMap.erase m k) key = if key = k then none else NameMap.find m key := by
  induction m with
  | nil => simp [NameMap.erase, NameMap.find]
  | cons p m ih =>
    obtain ⟨a, b⟩ := p
    by_cases h : a = k
    · subst h
      by_cases h2 : key = a
      · subst h2
        simpa [NameMap.erase, NameMap.find] using ih
      · have h3 : ¬ a = key := fun e => h2 e.symm
        simpa [NameMap.erase, NameMap.find, h2, h3] using ih
    · by_cases h2 : a = key
      · subst h2
        simp [NameMap.erase, NameMap.find, h]
      · simp [NameMap.erase, NameMap.find, h, h2, ih]

theorem NameMap.find_eq_none_of_not_mem {α : Type} (m : NameMap α) (key : String)
    (h : key ∉ m.keys) : NameMap.find m key = none := by
  induction m with
  | nil => rfl
  | cons p m ih =>
    obtain ⟨a, b⟩ := p
    simp only [NameMap.keys, List.map_cons, List.mem_cons, not_or] at h
    have h1 : ¬ a = key := fun e => h.1 e.symm
    simp only [NameMap.find, h1, if_false]
    exact ih h.2

theorem NameMap.mem_keys_of_find {α : Type} (m : NameMap α) (key : String) (v : α)
    (h : NameMap.find m key = some v) : key ∈ m.keys := by
  by_contra hc
  rw [NameMap.find_eq_none_of_not_mem m key hc] at h
  exact Option.noConfusion h

theorem NameMap.find_ne_none_of_mem {α : Type} (m : NameMap α) (key : String)
    (h : key ∈ m.keys) : NameMap.find m key ≠ none := by
  induction m with
  | nil => simp [NameMap.keys] at h
  | cons p m ih =>
    obtain ⟨a, b⟩ := p
    by_cases e : a = key
    · simp [NameMap.find, e]
    · simp only [NameMap.keys, List.map_cons, List.mem_cons] at h
      simp only [NameMap.find, e, if_false]
      rcases h with h | h
      · exact absurd h.symm e
      · exact ih h

theorem find_copyStaticCounts (g : ReferenceCountMap) (hg : g.keys.Nodup)
    (rt : ReferenceCountMap) (key : String) :
    NameMap.find (copyStaticCounts rt g) key =
      (NameMap.find g key).orElse (fun _ => NameMap.find rt key) := by
  induction g generalizing rt with
  | nil => simp [copyStaticCounts, NameMap.find]
  | cons p g ih =>
    obtain ⟨a, b⟩ := p
    simp only [NameMap.keys, List.map_cons, List.nodup_cons] at hg
    have step : copyStaticCounts rt ((a, b) :: g) = copyStaticCounts (NameMap.assign rt a b) g := by
      simp [copyStaticCounts]
    rw [step, ih hg.2]
    by_cases h : a = key
    · subst h
      have hnone : NameMap.find g a = none := NameMap.find_eq_none_of_not_mem g a hg.1
      simp [NameMap.find, hnone, NameMap.find_assign_same]
    · simp [NameMap.find, h, NameMap.find_assign_ne rt a key b h]

theorem find_eraseFetched (fetch_tensors : List String) (rt : ReferenceCountMap)
    (key : String) :
    NameMap.find (eraseFetched rt fetch_tensors) key =
      if key ∈ fetch_tensors then none else NameMap.find rt key := by
  induction fetch_tensors generalizing rt with
  | nil => simp [eraseFetched]
  | cons f fs ih =>
    have step : eraseFetched rt (f :: fs) = eraseFetched (NameMap.erase rt f) fs := by
      simp [eraseFetched]
    rw [step, ih, NameMap.find_erase]
    by_cases h1 : key ∈ fs
    · simp [h1]
    · by_cases h2 : key = f
      · simp [h2]
      · simp [h1, h2]

theorem find_resetOne (g rt : ReferenceCountMap) (hg : g.keys.Nodup)
    (hsub : NameMap.KeysSubset rt g) (fetch_tensors : List String)
    (fetched_var_name key : String) :
    NameMap.find (resetOne g rt fetch_tensors fetched_var_name) key =
      if key ∈ fetch_tensors ∨ key = fetched_var_name then none else NameMap.find g key := by
  unfold resetOne
  rw [NameMap.find_erase, find_eraseFetched, find_copyStaticCounts g hg]
  by_cases h1 : key = fetched_var_name
  · simp [h1]
  · by_cases h2 : key ∈ fetch_tensors
    · simp [h2]
    · simp only [h1, h2, if_false, or_self]
      cases hf : NameMap.find g key with
      | some v => simp
      | none =>
        have hrt : NameMap.find rt key = none := by
          cases hr : NameMap.find rt key with
          | none => rfl
          | some v =>
            have hk := hsub key (NameMap.mem_keys_of_find rt key v hr)
            exact absurd hf (NameMap.find_ne_none_of_mem g key hk)
        simp [hrt]

theorem length_resetFrom (g : List ReferenceCountMap) (fetch_tensors : List String)
    (fetched_var_name : String) (i : Nat) (rts : List ReferenceCountMap) :
    (resetFrom g fetch_tensors fetched_var_name i rts).length = rts.length := by
  induction rts generalizing i with
  | nil => rfl
  | cons rt rest ih => simp [resetFrom, ih]

theorem getD_resetFrom (g : List ReferenceCountMap) (fetch_tensors : List String)
    (fetched_var_name : String) (i : Nat) (rts : List ReferenceCountMap) (j : Nat)
    (hj : j < rts.length) :
    (resetFrom g fetch_tensors fetched_var_name i rts).getD j [] =
      resetOne (g.getD (i + j) []) (rts.getD j []) fetch_tensors fetched_var_name := by
  induction rts generalizing i j with
  | nil => simp at hj
  | cons rt rest ih =>
    cases j with
    | zero => simp [resetFrom]
    | succ j =>
      simp only [List.length_cons, Nat.add_lt_add_iff_right] at hj
      have := ih (i + 1) j hj
      simp only [resetFrom, List.getD_cons_succ]
      rw [this]
      congr 2
      omega

/-- Claim C1. With as many runtime maps as static maps, static maps without a
repeated key, and every runtime key a static key: ResetRuntimeReferenceCount
leaves the static maps alone and makes the runtime map of every device i the
static map of device i minus the fetch names and the output-slot name (a lookup
of a fetched or output-slot name finds nothing, every other lookup finds the
static count); and this is what the start of Run does whenever a garbage
collector exists. -/
theorem ResetRuntimeReferenceCount_spec (m : ParallelExecutorPrivate) (fetch_tensors : List String)
    (fetched_var_name : String)
    (hlen : m.global_ref_cnts_.length = m.runtime_ref_cnts_.length)
    (hwf : ∀ i, i < m.global_ref_cnts_.length → (m.global_ref_cnts_.getD i []).keys.Nodup)
    (hsub : ∀ i, i < m.runtime_ref_cnts_.length →
      NameMap.KeysSubset (m.runtime_ref_cnts_.getD i []) (m.global_ref_cnts_.getD i [])) :
    (ResetRuntimeReferenceCount m fetch_tensors fetched_var_name).global_ref_cnts_
        = m.global_ref_cnts_ ∧
    (ResetRuntimeReferenceCount m fetch_tensors fetched_var_name).runtime_ref_cnts_.length
        = m.runtime_ref_cnts_.length ∧
    (∀ i, i < m.runtime_ref_cnts_.length → ∀ name,
      NameMap.find
        ((ResetRuntimeReferenceCount m fetch_tensors fetched_var_name).runtime_ref_cnts_.getD i [])
        name =
        if name ∈ fetch_tensors ∨ name = fetched_var_name then none
        else NameMap.find (m.global_ref_cnts_.getD i []) name) ∧
    (HasGarbageCollectors m = true →
      RunResetPhase m fetch_tensors fetched_var_name =
        ResetRuntimeReferenceCount m fetch_tensors fetched_var_name) := by
  refine ⟨rfl, ?_, ?_, ?_⟩
  · simp [ResetRuntimeReferenceCount, length_resetFrom]
  · intro i hi name
    simp only [ResetRuntimeReferenceCount]
    rw [getD_resetFrom _ _ _ _ _ _ hi, Nat.zero_add]
    exact find_resetOne _ _ (hwf i (hlen ▸ hi)) (hsub i hi) _ _ _
  · intro h
    simp [RunResetPhase, h]

/-- Witness of claim C1 on a two-device state with stale runtime entries. -/
theorem ResetRuntimeReferenceCount_spec_witness :
    (ResetRuntimeReferenceCount exampleRefCnts ["y"] "fetch").global_ref_cnts_
        = exampleRefCnts.global_ref_cnts_ ∧
    (ResetRuntimeReferenceCount exampleRefCnts ["y"] "fetch").runtime_ref_cnts_.length
        = exampleRefCnts.runtime_ref_cnts_.length ∧
    (∀ i, i < exampleRefCnts.runtime_ref_cnts_.length → ∀ name,
      NameMap.find
        ((ResetRuntimeReferenceCount exampleRefCnts ["y"] "fetch").runtime_ref_cnts_.getD i [])
        name =
        if name ∈ ["y"] ∨ name = "fetch" then none
        else NameMap.find (exampleRefCnts.global_ref_cnts_.getD i []) name) ∧
    (HasGarbageCollectors exampleRefCnts = true →
      RunResetPhase exampleRefCnts ["y"] "fetch" =
        ResetRuntimeReferenceCount exampleRefCnts ["y"] "fetch") :=
  ResetRuntimeReferenceCount_spec exampleRefCnts ["y"] "fetch" (by decide) (by decide)
    (by decide)

/-! ### EnableParallelGraphExecution -/

theorem sparseVarLoop_eq_true (vars : List VarDesc) (e : Bool) :
    sparseVarLoop vars e = true ↔
      e = true ∧ ∀ v ∈ vars, v.GetType ≠ VarType.SELECTED_ROWS := by
  induction vars generalizing e with
  | nil => simp [sparseVarLoop]
  | cons v vs ih =>
    have step : sparseVarLoop (v :: vs) e =
        sparseVarLoop vs (if v.GetType = VarType.SELECTED_ROWS then false else e) := by
      simp [sparseVarLoop]
    rw [step, ih]
    by_cases h : v.GetType = VarType.SELECTED_ROWS
    · simp [h]
    · simp [h]

theorem sendRecvLoop_eq_true (ops : List OpDesc) (e : Bool) :
    sendRecvLoop ops e = true ↔
      e = true ∧ ∀ op ∈ ops, op.type ≠ "send" ∧ op.type ≠ "recv" := by
  induction ops with
  | nil => simp [sendRecvLoop]
  | cons op rest ih =>
    by_cases h : op.type = "send" ∨ op.type = "recv"
    · simp only [sendRecvLoop, h, if_true, List.mem_cons, forall_eq_or_imp]
      constructor
      · intro hf
        exact absurd hf (by decide)
      · rintro ⟨_, hop, _⟩
        rcases h with h | h
        · exact absurd h hop.1
        · exact absurd h hop.2
    · simp only [sendRecvLoop, h, if_false, ih, List.mem_cons, forall_eq_or_imp]
      have h2 : op.type ≠ "send" ∧ op.type ≠ "recv" := by
        constructor
        · exact fun e => h (Or.inl e)
        · exact fun e => h (Or.inr e)
      tauto

/-- Claim C2, as stated, fails: with the flag set, all-reduce, acceleration on,
no forced sequential execution and the default executor, the predicate returns
true on a program whose block 1 holds a SELECTED_ROWS variable and a "send"
operator, so "true iff no variable of the program is sparse and no operator of
the program is send/recv (and the other conditions)" does not hold. -/
theorem EnableParallelGraphExecution_whole_program_counterexample :
    ¬ (EnableParallelGraphExecution true cudaAllReduceMember subBlockSparseProgram
          cudaDefaultExec cudaAllReduceMember.build_strategy_ = true ↔
        (true = true ∧
         (∀ b ∈ subBlockSparseProgram.blocks, ∀ v ∈ b.AllVars,
            v.GetType ≠ VarType.SELECTED_ROWS) ∧
         (∀ b ∈ subBlockSparseProgram.blocks, ∀ op ∈ b.AllOps,
            op.type ≠ "send" ∧ op.type ≠ "recv") ∧
         (cudaAllReduceMember.build_strategy_.reduce_ = ReduceStrategy.kAllReduce ∧
            cudaDefaultExec.use_cuda_ = true) ∧
         (cudaAllReduceMember.build_strategy_.enable_sequential_execution_ = false ∧
            cudaDefaultExec.type_ ≠ ExecutorType.kExperimental))) := by
  decide

/-- Claim C2, amended. EnableParallelGraphExecution returns true if and only if
(1) the flag enable_parallel_graph is set, (2) no variable of block 0 of the
program is of type SELECTED_ROWS, (3) no operator of block 0 is a "send" or
"recv" operator, (4) the coordinator recorded all-reduce and use_cuda, (5)
sequential execution is not forced and the executor kind is not experimental;
with the flag unset the result is false whatever the other inputs are. -/
theorem EnableParallelGraphExecution_iff (FLAGS_enable_parallel_graph : Bool)
    (member_ : ParallelExecutorPrivate) (main_program : ProgramDesc)
    (exec_strategy : ExecutionStrategy) (build_strategy : BuildStrategy) :
    (EnableParallelGraphExecution FLAGS_enable_parallel_graph member_ main_program
        exec_strategy build_strategy = true ↔
      (FLAGS_enable_parallel_graph = true ∧
       (∀ v ∈ (main_program.Block 0).AllVars, v.GetType ≠ VarType.SELECTED_ROWS) ∧
       (∀ op ∈ (main_program.Block 0).AllOps, op.type ≠ "send" ∧ op.type ≠ "recv") ∧
       (member_.use_all_reduce_ = true ∧ member_.use_cuda_ = true) ∧
       (build_strategy.enable_sequential_execution_ = false ∧
          exec_strategy.type_ ≠ ExecutorType.kExperimental))) ∧
    EnableParallelGraphExecution false member_ main_program exec_strategy build_strategy
      = false := by
  refine ⟨?_, by simp [EnableParallelGraphExecution]⟩
  unfold EnableParallelGraphExecution
  cases FLAGS_enable_parallel_graph with
  | false => simp
  | true =>
    have hs := sparseVarLoop_eq_true (main_program.Block 0).AllVars true
    have hr := sendRecvLoop_eq_true (main_program.Block 0).AllOps
      (sparseVarLoop (main_program.Block 0).AllVars true)
    cases hseq : build_strategy.enable_sequential_execution_ <;>
    cases har : member_.use_all_reduce_ <;>
    cases hcu : member_.use_cuda_ <;>
    by_cases hex : exec_strategy.type_ = ExecutorType.kExperimental <;>
    simp [hex, hr, hs]

/-! ### Validation and per-device scope creation -/

/-- Claim C6. The validation at the head of the constructor raises an error if
and only if (a) the reduction strategy is not all-reduce and there is at most
one device, or (b) per-device scopes are supplied and their number differs from
the number of devices. -/
theorem ctor_validation_error_iff (num_trainers : Nat) (places : List Place) (scope : Nat)
    (local_scopes : List Nat) (exec_strategy : ExecutionStrategy)
    (build_strategy : BuildStrategy) (scopes : List Scope) :
    (ctorValidateAndCreateScopes num_trainers places scope local_scopes exec_strategy
        build_strategy scopes).error ≠ none ↔
      ((build_strategy.reduce_ ≠ ReduceStrategy.kAllReduce ∧ places.length ≤ 1) ∨
       (local_scopes ≠ [] ∧ local_scopes.length ≠ places.length)) := by
  unfold ctorValidateAndCreateScopes ctorLocalScopes ctorInit
  by_cases h1 : build_strategy.reduce_ = ReduceStrategy.kAllReduce
  · cases local_scopes with
    | nil => simp [h1]
    | cons p rest =>
      by_cases h2 : places.length = (p :: rest).length
      · simp [h1, h2]
      · have h3 : ¬ (p :: rest).length = places.length := fun e => h2 e.symm
        simp only [List.length_cons] at h2 h3
        simp [h1, h2, h3]
  · by_cases h0 : places.length ≤ 1
    · have : ¬ 1 < places.length := by omega
      simp [h1, h0, this]
    · have h0b : 1 < places.length := by omega
      cases local_scopes with
      | nil => simp [h1, h0, h0b]
      | cons p rest =>
        by_cases h2 : places.length = (p :: rest).length
        · simp only [List.length_cons] at h2
          have h4 : 1 < rest.length + 1 := h2 ▸ h0b
          have h5 : rest ≠ [] := by
            intro e
            simp [e] at h4
          simp [h1, h2, h4, h5]
        · have h3 : ¬ (p :: rest).length = places.length := fun e => h2 e.symm
          simp only [List.length_cons] at h2 h3
          simp [h1, h2, h3, h0, h0b]
theorem length_updateScope (scopes : List Scope) (p : Nat) (f : Scope → Scope) :
    (updateScope scopes p f).length = scopes.length := by
  unfold updateScope
  cases scopes[p]? <;> simp

theorem getElem?_updateScope (scopes : List Scope) (p q : Nat) (f : Scope → Scope) :
    (updateScope scopes p f)[q]? = if q = p then (scopes[q]?).map f else scopes[q]? := by
  unfold updateScope
  by_cases h : q = p
  · subst h
    cases hq : scopes[q]? with
    | none => simp [hq]
    | some s =>
      have hlt : q < scopes.length := by
        by_contra hc
        rw [List.getElem?_eq_none (by omega)] at hq
        exact Option.noConfusion hq
      simp [List.getElem?_set, hlt]
  · cases hp : scopes[p]? with
    | none => simp [h]
    | some s =>
      have h2 : ¬ p = q := fun e => h e.symm
      simp [List.getElem?_set, h, h2]

theorem length_NewScope (scopes : List Scope) (p : Nat) :
    (NewScope scopes p).1.length = scopes.length + 1 := by
  simp [NewScope, length_updateScope]

theorem NewScope_snd (scopes : List Scope) (p : Nat) : (NewScope scopes p).2 = scopes.length := rfl

theorem getElem?_NewScope_old (scopes : List Scope) (p q : Nat) (hq : q < scopes.length) :
    (NewScope scopes p).1[q]? =
      if q = p then (scopes[q]?).map (fun s => { s with kids_ := s.kids_ ++ [scopes.length] })
      else scopes[q]? := by
  unfold NewScope
  simp only
  rw [List.getElem?_append_left (by rw [length_updateScope]; exact hq), getElem?_updateScope]

theorem getElem?_NewScope_new (scopes : List Scope) (p : Nat) :
    (NewScope scopes p).1[scopes.length]? =
      some { parent_ := some p, kids_ := [], vars_ := [], deleted := false } := by
  unfold NewScope
  simp only
  rw [List.getElem?_append_right (by rw [length_updateScope])]
  simp [length_updateScope]

theorem IsChildOf_NewScope_keep (scopes : List Scope) (p parent child : Nat)
    (h : IsChildOf scopes parent child) : IsChildOf (NewScope scopes p).1 parent child := by
  obtain ⟨h1, h2⟩ := h
  have hc : child < scopes.length := by
    by_contra hc
    rw [List.getElem?_eq_none (by omega)] at h1
    simp at h1
  unfold HasKid at h2
  cases hp : scopes[parent]? with
  | none => simp [hp] at h2
  | some sp =>
    have hpl : parent < scopes.length := by
      by_contra hc2
      rw [List.getElem?_eq_none (by omega)] at hp
      exact Option.noConfusion hp
    simp only [hp, decide_eq_true_eq] at h2
    constructor
    · rw [getElem?_NewScope_old scopes p child hc]
      by_cases e : child = p
      · simp only [e, if_true, Option.map_map]
        rw [e] at h1
        simpa [Function.comp] using h1
      · simpa [e] using h1
    · unfold HasKid
      rw [getElem?_NewScope_old scopes p parent hpl]
      by_cases e : parent = p
      · simp [e ▸ hp, e, h2]
      · simp [e, hp, h2]

theorem IsChildOf_NewScope_new (scopes : List Scope) (p : Nat) (hp : p < scopes.length) :
    IsChildOf (NewScope scopes p).1 p scopes.length := by
  constructor
  · rw [getElem?_NewScope_new]
    rfl
  · unfold HasKid
    rw [getElem?_NewScope_old scopes p p hp]
    have : scopes[p]? = some scopes[p] := List.getElem?_eq_getElem hp
    simp [this]
theorem createOwnedScopes_spec (scope n : Nat) (scopes : List Scope) (ls : List Nat) :
    (createOwnedScopes scope n scopes ls).2 = ls ++ List.range' scopes.length n ∧
    (createOwnedScopes scope n scopes ls).1.length = scopes.length + n ∧
    (∀ parent child, IsChildOf scopes parent child →
      IsChildOf (createOwnedScopes scope n scopes ls).1 parent child) ∧
    (scope < scopes.length → ∀ k, k < n →
      IsChildOf (createOwnedScopes scope n scopes ls).1 scope (scopes.length + k)) := by
  induction n generalizing scopes ls with
  | zero => simp [createOwnedScopes]
  | succ n ih =>
    obtain ⟨i1, i2, i3, i4⟩ := ih (NewScope scopes scope).1 (ls ++ [(NewScope scopes scope).2])
    rw [length_NewScope] at i1 i2 i4
    simp only [createOwnedScopes]
    refine ⟨?_, ?_, ?_, ?_⟩
    · rw [i1, NewScope_snd, List.range'_succ, List.append_assoc]
      rfl
    · rw [i2]
      omega
    · intro parent child h
      exact i3 parent child (IsChildOf_NewScope_keep scopes scope parent child h)
    · intro hs k hk
      cases k with
      | zero => exact i3 _ _ (IsChildOf_NewScope_new scopes scope hs)
      | succ k =>
        have := i4 (by omega) k (by omega)
        have e : scopes.length + 1 + k = scopes.length + (k + 1) := by omega
        rw [e] at this
        exact this

theorem createBorrowedScopes_spec (supplied : List Nat) (scopes : List Scope) (ls : List Nat) :
    (createBorrowedScopes supplied scopes ls).2 = ls ++ List.range' scopes.length supplied.length ∧
    (createBorrowedScopes supplied scopes ls).1.length = scopes.length + supplied.length ∧
    (∀ parent child, IsChildOf scopes parent child →
      IsChildOf (createBorrowedScopes supplied scopes ls).1 parent child) ∧
    ((∀ p ∈ supplied, p < scopes.length) → ∀ k, k < supplied.length →
      IsChildOf (createBorrowedScopes supplied scopes ls).1 (supplied.getD k 0)
        (scopes.length + k)) := by
  induction supplied generalizing scopes ls with
  | nil => simp [createBorrowedScopes]
  | cons p rest ih =>
    obtain ⟨i1, i2, i3, i4⟩ := ih (NewScope scopes p).1 (ls ++ [(NewScope scopes p).2])
    rw [length_NewScope] at i1 i2 i4
    simp only [createBorrowedScopes]
    refine ⟨?_, ?_, ?_, ?_⟩
    · rw [i1, NewScope_snd, List.length_cons, List.range'_succ, List.append_assoc]
      rfl
    · rw [i2, List.length_cons]
      omega
    · intro parent child h
      exact i3 parent child (IsChildOf_NewScope_keep scopes p parent child h)
    · intro hs k hk
      cases k with
      | zero =>
        exact i3 _ _ (IsChildOf_NewScope_new scopes p (hs p (List.mem_cons_self _ _)))
      | succ k =>
        have hk2 : k < rest.length := by
          simp only [List.length_cons] at hk
          omega
        have := i4 (fun q hq => by
          have := hs q (List.mem_cons_of_mem _ hq)
          omega) k hk2
        have e : scopes.length + 1 + k = scopes.length + (k + 1) := by omega
        rw [e] at this
        simpa using this

theorem getElem?_append_range' (ls : List Nat) (s n k : Nat) (hk : k < n) :
    (ls ++ List.range' s n)[ls.length + k]? = some (s + k) := by
  rw [List.getElem?_append_right (by omega)]
  simp [List.getElem?_range', hk]

/-- Claim C5. When construction over N >= 1 devices passes its validation (the
global scope and the supplied scopes being live addresses), the list of
per-device scopes has N entries.  With no scopes supplied the coordinator owns
them, entry 0 is the global scope, N-1 scopes were created, and entry i (for
1 <= i < N) is the (i-1)-th new address and a child of the global scope.  With
scopes supplied, there are N of them, the coordinator does not own its scopes,
N scopes were created, and entry i is the i-th new address and a child of the
i-th supplied scope. -/
theorem ctor_local_scopes_spec (num_trainers : Nat) (places : List Place) (scope : Nat)
    (local_scopes : List Nat) (exec_strategy : ExecutionStrategy)
    (build_strategy : BuildStrategy) (scopes : List Scope)
    (hN : 1 ≤ places.length) (hscope : scope < scopes.length)
    (hsup : ∀ p ∈ local_scopes, p < scopes.length)
    (hok : (ctorValidateAndCreateScopes num_trainers places scope local_scopes exec_strategy
        build_strategy scopes).error = none) :
    (ctorValidateAndCreateScopes num_trainers places scope local_scopes exec_strategy
        build_strategy scopes).state.1.local_scopes_.length = places.length ∧
    (local_scopes = [] →
      (ctorValidateAndCreateScopes num_trainers places scope local_scopes exec_strategy
          build_strategy scopes).state.1.own_local_scope_ = true ∧
      (ctorValidateAndCreateScopes num_trainers places scope local_scopes exec_strategy
          build_strategy scopes).state.1.local_scopes_[0]? = some scope ∧
      (ctorValidateAndCreateScopes num_trainers places scope local_scopes exec_strategy
          build_strategy scopes).state.2.length = scopes.length + (places.length - 1) ∧
      ∀ i, 1 ≤ i → i < places.length →
        (ctorValidateAndCreateScopes num_trainers places scope local_scopes exec_strategy
            build_strategy scopes).state.1.local_scopes_[i]? = some (scopes.length + (i - 1)) ∧
        IsChildOf
          (ctorValidateAndCreateScopes num_trainers places scope local_scopes exec_strategy
            build_strategy scopes).state.2 scope (scopes.length + (i - 1))) ∧
    (local_scopes ≠ [] →
      local_scopes.length = places.length ∧
      (ctorValidateAndCreateScopes num_trainers places scope local_scopes exec_strategy
          build_strategy scopes).state.1.own_local_scope_ = false ∧
      (ctorValidateAndCreateScopes num_trainers places scope local_scopes exec_strategy
          build_strategy scopes).state.2.length = scopes.length + places.length ∧
      ∀ i, i < places.length →
        (ctorValidateAndCreateScopes num_trainers places scope local_scopes exec_strategy
            build_strategy scopes).state.1.local_scopes_[i]? = some (scopes.length + i) ∧
        IsChildOf
          (ctorValidateAndCreateScopes num_trainers places scope local_scopes exec_strategy
            build_strategy scopes).state.2 (local_scopes.getD i 0) (scopes.length + i)) := by
  unfold ctorValidateAndCreateScopes ctorLocalScopes at hok ⊢
  simp only [ctorInit] at hok ⊢
  by_cases hv : (!decide (build_strategy.reduce_ = ReduceStrategy.kAllReduce)
      && !decide (places.length > 1)) = true
  · simp [hv] at hok
  · simp only [hv, Bool.false_eq_true, if_false] at hok ⊢
    cases local_scopes with
    | nil =>
      obtain ⟨o1, o2, o3, o4⟩ := createOwnedScopes_spec scope (places.length - 1) scopes [scope]
      simp only [List.isEmpty_nil, if_true, List.nil_append]
      refine ⟨?_, ?_, ?_⟩
      · rw [o1]
        simp only [List.length_append, List.length_range', List.length_singleton]
        omega
      · intro _
        refine ⟨trivial, ?_, o2, ?_⟩
        · rw [o1]
          simp
        · intro i h1 h2
          refine ⟨?_, o4 hscope (i - 1) (by omega)⟩
          have := getElem?_append_range' [scope] scopes.length (places.length - 1) (i - 1)
            (by omega)
          have e : [scope].length + (i - 1) = i := by
            simp only [List.length_singleton]
            omega
          rw [e] at this
          rw [o1]
          exact this
      · intro h
        exact absurd rfl h
    | cons p rest =>
      simp only [List.isEmpty_cons, Bool.false_eq_true, if_false, List.length_cons, ne_eq,
        ite_not] at hok ⊢
      by_cases hl : places.length = rest.length + 1
      · simp only [hl, if_true]
        obtain ⟨o1, o2, o3, o4⟩ := createBorrowedScopes_spec (p :: rest) scopes []
        simp only [List.length_cons] at o1 o2 o4
        refine ⟨?_, ?_, ?_⟩
        · rw [o1, List.nil_append, List.length_range']
        · intro h
          exact absurd h (List.cons_ne_nil _ _)
        · intro _
          refine ⟨trivial, trivial, by rw [o2], ?_⟩
          intro i hi
          refine ⟨?_, o4 hsup i (by omega)⟩
          have := getElem?_append_range' [] scopes.length (rest.length + 1) i (by omega)
          simp only [List.length_nil, Nat.zero_add] at this
          rw [o1]
          exact this
      · simp only [hl, if_false] at hok
        exact Option.noConfusion hok
/-! ### Destruction -/

theorem HasKid_eq (scopes : List Scope) (p kid : Nat) :
    HasKid scopes p kid = decide (kid ∈ kidsOf scopes p) := by
  unfold HasKid kidsOf
  cases scopes[p]? <;> simp

theorem length_DeleteScope (scopes : List Scope) (p kid : Nat) :
    (DeleteScope scopes p kid).length = scopes.length := by
  simp [DeleteScope, length_updateScope]

theorem kidsOf_DeleteScope (scopes : List Scope) (p kid : Nat) :
    kidsOf (DeleteScope scopes p kid) p = (kidsOf scopes p).erase kid := by
  unfold kidsOf DeleteScope
  rw [getElem?_updateScope, getElem?_updateScope]
  simp only [if_true]
  by_cases h : p = kid
  · cases scopes[p]? <;> simp [h]
  · cases scopes[p]? <;> simp [h]

theorem isDeleted_DeleteScope (scopes : List Scope) (p kid q : Nat) :
    isDeleted (DeleteScope scopes p kid) q =
      if q = kid then (scopes[q]?).map (fun _ => true) else isDeleted scopes q := by
  unfold isDeleted DeleteScope
  rw [getElem?_updateScope, getElem?_updateScope]
  by_cases h1 : q = kid
  · subst h1
    by_cases h2 : q = p
    · subst h2
      cases scopes[q]? <;> simp
    · cases scopes[q]? <;> simp [h2]
  · by_cases h2 : q = p
    · subst h2
      cases scopes[q]? <;> simp [h1]
    · cases scopes[q]? <;> simp [h1, h2]

/-- One iteration of the destructor loop. -/
theorem deleteOwnedScopes_cons (g c : Nat) (rest : List Nat) (scopes : List Scope) :
    deleteOwnedScopes g (c :: rest) scopes =
      deleteOwnedScopes g rest
        (if HasKid scopes g c then DeleteScope scopes g c else scopes) := rfl

theorem deleteOwnedScopes_spec (g : Nat) (cs : List Nat) (scopes : List Scope)
    (hnodup : (kidsOf scopes g).Nodup) (hvalid : ∀ k ∈ kidsOf scopes g, k < scopes.length) :
    (deleteOwnedScopes g cs scopes).length = scopes.length ∧
    (∀ k, k ∈ kidsOf (deleteOwnedScopes g cs scopes) g ↔ k ∈ kidsOf scopes g ∧ k ∉ cs) ∧
    (∀ q, q ∈ cs → q ∈ kidsOf scopes g →
      isDeleted (deleteOwnedScopes g cs scopes) q = some true) ∧
    (∀ q, ¬ (q ∈ cs ∧ q ∈ kidsOf scopes g) →
      isDeleted (deleteOwnedScopes g cs scopes) q = isDeleted scopes q) := by
  induction cs generalizing scopes with
  | nil => simp [deleteOwnedScopes]
  | cons c rest ih =>
    rw [deleteOwnedScopes_cons]
    by_cases hc : c ∈ kidsOf scopes g
    · have hk : HasKid scopes g c = true := by simp [HasKid_eq, hc]
      simp only [hk, if_true]
      have hkids := kidsOf_DeleteScope scopes g c
      have hn1 : (kidsOf (DeleteScope scopes g c) g).Nodup := by
        rw [hkids]
        exact hnodup.erase c
      have hv1 : ∀ k ∈ kidsOf (DeleteScope scopes g c) g, k < (DeleteScope scopes g c).length := by
        intro k hk
        rw [hkids] at hk
        rw [length_DeleteScope]
        exact hvalid k (List.mem_of_mem_erase hk)
      obtain ⟨i1, i2, i3, i4⟩ := ih (DeleteScope scopes g c) hn1 hv1
      have hmem : ∀ k, k ∈ kidsOf (DeleteScope scopes g c) g ↔ k ≠ c ∧ k ∈ kidsOf scopes g := by
        intro k
        rw [hkids]
        exact hnodup.mem_erase_iff
      have hcdel : isDeleted (DeleteScope scopes g c) c = some true := by
        rw [isDeleted_DeleteScope]
        have hlt : c < scopes.length := hvalid c hc
        have : scopes[c]? = some (scopes.get ⟨c, hlt⟩) := List.getElem?_eq_getElem hlt
        simp [this]
      refine ⟨by rw [i1, length_DeleteScope], ?_, ?_, ?_⟩
      · intro k
        rw [i2 k, hmem k]
        simp only [List.mem_cons, not_or]
        tauto
      · intro q hq hqk
        by_cases e : q = c
        · subst e
          by_cases hr : q ∈ rest ∧ q ∈ kidsOf (DeleteScope scopes g q) g
          · exact i3 q hr.1 hr.2
          · rw [i4 q hr]
            exact hcdel
        · have hq2 : q ∈ rest := by
            rcases List.mem_cons.mp hq with h | h
            · exact absurd h e
            · exact h
          exact i3 q hq2 ((hmem q).mpr ⟨e, hqk⟩)
      · intro q hq
        have e : q ≠ c := by
          intro e
          subst e
          exact hq ⟨List.mem_cons_self _ _, hc⟩
        have hr : ¬ (q ∈ rest ∧ q ∈ kidsOf (DeleteScope scopes g c) g) := by
          rintro ⟨h1, h2⟩
          exact hq ⟨List.mem_cons_of_mem _ h1, ((hmem q).mp h2).2⟩
        rw [i4 q hr, isDeleted_DeleteScope]
        simp [e]
    · have hk : HasKid scopes g c = false := by simp [HasKid_eq, hc]
      simp only [hk, Bool.false_eq_true, if_false]
      obtain ⟨i1, i2, i3, i4⟩ := ih scopes hnodup hvalid
      refine ⟨i1, ?_, ?_, ?_⟩
      · intro k
        rw [i2 k]
        simp only [List.mem_cons, not_or]
        constructor
        · rintro ⟨h1, h2⟩
          exact ⟨h1, fun e => hc (e ▸ h1), h2⟩
        · rintro ⟨h1, _, h2⟩
          exact ⟨h1, h2⟩
      · intro q hq hqk
        rcases List.mem_cons.mp hq with h | h
        · exact absurd (h ▸ hqk) hc
        · exact i3 q h hqk
      · intro q hq
        exact i4 q (fun h => hq ⟨List.mem_cons_of_mem _ h.1, h.2⟩)
/-- Claim C7. In a scope heap where the children of the global scope are live
addresses, each listed once, and the global scope is not its own child: when
the coordinator owns its per-device scopes, destruction hands to DeleteScope
every scope of entries 1.. that is a child of the global scope, afterwards no
scope of entries 1.. is a child of the global scope, no other scope is handed
to DeleteScope, and the global scope is not; when it does not own them,
destruction changes no scope at all. -/
theorem destroy_spec (member_ : ParallelExecutorPrivate) (scopes : List Scope)
    (hnodup : (kidsOf scopes member_.global_scope_).Nodup)
    (hvalid : ∀ k ∈ kidsOf scopes member_.global_scope_, k < scopes.length)
    (hself : member_.global_scope_ ∉ kidsOf scopes member_.global_scope_) :
    (member_.own_local_scope_ = true →
      (∀ c ∈ member_.local_scopes_.drop 1, HasKid scopes member_.global_scope_ c = true →
        isDeleted (ParallelExecutor.destroy member_ scopes) c = some true) ∧
      (∀ c ∈ member_.local_scopes_.drop 1,
        HasKid (ParallelExecutor.destroy member_ scopes) member_.global_scope_ c = false) ∧
      (∀ q, ¬ (q ∈ member_.local_scopes_.drop 1 ∧ HasKid scopes member_.global_scope_ q = true) →
        isDeleted (ParallelExecutor.destroy member_ scopes) q = isDeleted scopes q) ∧
      isDeleted (ParallelExecutor.destroy member_ scopes) member_.global_scope_
        = isDeleted scopes member_.global_scope_) ∧
    (member_.own_local_scope_ = false → ParallelExecutor.destroy member_ scopes = scopes) := by
  unfold ParallelExecutor.destroy ParallelExecutorPrivate.destroy
  constructor
  · intro hown
    simp only [hown, if_true]
    obtain ⟨_, d2, d3, d4⟩ :=
      deleteOwnedScopes_spec member_.global_scope_ (member_.local_scopes_.drop 1) scopes
        hnodup hvalid
    refine ⟨?_, ?_, ?_, ?_⟩
    · intro c hc hk
      rw [HasKid_eq, decide_eq_true_eq] at hk
      exact d3 c hc hk
    · intro c hc
      rw [HasKid_eq, decide_eq_false_iff_not, d2 c]
      exact fun h => h.2 hc
    · intro q hq
      apply d4 q
      rw [HasKid_eq, decide_eq_true_eq] at hq
      exact hq
    · exact d4 _ (fun h => hself h.2)
  · intro hown
    simp [hown]

/-- Witness of claim C7: an owning coordinator over three devices whose global
scope also has a child of another owner. -/
theorem destroy_spec_witness :
    ((kidsOf ownedScopesHeap owningMember.global_scope_).Nodup ∧
     (∀ k ∈ kidsOf ownedScopesHeap owningMember.global_scope_, k < ownedScopesHeap.length) ∧
     owningMember.global_scope_ ∉ kidsOf ownedScopesHeap owningMember.global_scope_) ∧
    ((owningMember.own_local_scope_ = true →
      (∀ c ∈ owningMember.local_scopes_.drop 1,
        HasKid ownedScopesHeap owningMember.global_scope_ c = true →
        isDeleted (ParallelExecutor.destroy owningMember ownedScopesHeap) c = some true) ∧
      (∀ c ∈ owningMember.local_scopes_.drop 1,
        HasKid (ParallelExecutor.destroy owningMember ownedScopesHeap)
          owningMember.global_scope_ c = false) ∧
      (∀ q, ¬ (q ∈ owningMember.local_scopes_.drop 1 ∧
          HasKid ownedScopesHeap owningMember.global_scope_ q = true) →
        isDeleted (ParallelExecutor.destroy owningMember ownedScopesHeap) q
          = isDeleted ownedScopesHeap q) ∧
      isDeleted (ParallelExecutor.destroy owningMember ownedScopesHeap)
          owningMember.global_scope_
        = isDeleted ownedScopesHeap owningMember.global_scope_) ∧
    (owningMember.own_local_scope_ = false →
      ParallelExecutor.destroy owningMember ownedScopesHeap = ownedScopesHeap)) :=
  ⟨⟨by decide, by decide, by decide⟩,
   destroy_spec owningMember ownedScopesHeap (by decide) (by decide) (by decide)⟩

/-- Witness of claim C5: an owning construction over three host devices from a
heap that holds the global scope only. -/
theorem ctor_local_scopes_spec_witness :
    (1 ≤ [Place.CPUPlace, Place.CPUPlace, Place.CPUPlace].length ∧
     0 < globalOnlyHeap.length ∧
     (ctorValidateAndCreateScopes 1 [Place.CPUPlace, Place.CPUPlace, Place.CPUPlace] 0 []
        cpuDefaultExec blankMember.build_strategy_ globalOnlyHeap).error = none) ∧
    (ctorValidateAndCreateScopes 1 [Place.CPUPlace, Place.CPUPlace, Place.CPUPlace] 0 []
        cpuDefaultExec blankMember.build_strategy_ globalOnlyHeap).state.1.local_scopes_.length
      = 3 ∧
    (ctorValidateAndCreateScopes 1 [Place.CPUPlace, Place.CPUPlace, Place.CPUPlace] 0 []
        cpuDefaultExec blankMember.build_strategy_ globalOnlyHeap).state.1.own_local_scope_
      = true ∧
    (ctorValidateAndCreateScopes 1 [Place.CPUPlace, Place.CPUPlace, Place.CPUPlace] 0 []
        cpuDefaultExec blankMember.build_strategy_ globalOnlyHeap).state.1.local_scopes_[0]?
      = some 0 ∧
    IsChildOf
      (ctorValidateAndCreateScopes 1 [Place.CPUPlace, Place.CPUPlace, Place.CPUPlace] 0 []
        cpuDefaultExec blankMember.build_strategy_ globalOnlyHeap).state.2 0
      (globalOnlyHeap.length + (2 - 1)) :=
  have h := ctor_local_scopes_spec 1 [Place.CPUPlace, Place.CPUPlace, Place.CPUPlace] 0 []
    cpuDefaultExec blankMember.build_strategy_ globalOnlyHeap (by decide) (by decide)
    (by decide) (by decide)
  ⟨⟨by decide, by decide, by decide⟩, h.1, (h.2.1 rfl).1, (h.2.1 rfl).2.1,
   ((h.2.1 rfl).2.2.2 2 (by decide) (by decide)).2⟩
/-! ### Writes into a scope -/

theorem length_updateLocalTensor (scopes : List Scope) (p : Nat) (name : String)
    (f : LoDTensor → LoDTensor) :
    (updateLocalTensor scopes p name f).length = scopes.length := by
  simp [updateLocalTensor, length_updateScope]

theorem FindVarLocally_updateLocalTensor_same (scopes : List Scope) (p : Nat) (name : String)
    (f : LoDTensor → LoDTensor) (hp : p < scopes.length) :
    FindVarLocally (updateLocalTensor scopes p name f) p name =
      some (Variable.OfLoDTensor (f (localTensor scopes p name))) := by
  unfold FindVarLocally updateLocalTensor localTensor FindVarLocally
  rw [getElem?_updateScope]
  have : scopes[p]? = some (scopes.get ⟨p, hp⟩) := List.getElem?_eq_getElem hp
  simp [this, NameMap.find_assign_same]

theorem FindVarLocally_updateLocalTensor_other (scopes : List Scope) (p q : Nat)
    (name key : String) (f : LoDTensor → LoDTensor) (h : q ≠ p ∨ key ≠ name) :
    FindVarLocally (updateLocalTensor scopes p name f) q key = FindVarLocally scopes q key := by
  unfold FindVarLocally updateLocalTensor
  rw [getElem?_updateScope]
  by_cases e : q = p
  · subst e
    have hk : name ≠ key := by
      rcases h with h | h
      · exact absurd rfl h
      · exact fun e => h e.symm
    cases scopes[q]? with
    | none => simp
    | some s => simp [NameMap.find_assign_ne _ _ _ _ hk]
  · simp [e]

theorem share_set_lod (trg src : LoDTensor) :
    (trg.ShareDataWith src).set_lod src.lod_ = src := by
  cases src
  rfl

theorem NameMap.find_of_mem {α : Type} (m : NameMap α) (hm : m.keys.Nodup) (pair : String × α)
    (h : pair ∈ m) : NameMap.find m pair.1 = some pair.2 := by
  induction m with
  | nil => simp at h
  | cons p m ih =>
    obtain ⟨a, b⟩ := p
    simp only [NameMap.keys, List.map_cons, List.nodup_cons] at hm
    rcases List.mem_cons.mp h with h | h
    · subst h
      simp [NameMap.find]
    · have hne : a ≠ pair.1 := by
        intro e
        apply hm.1
        rw [e]
        exact List.mem_map_of_mem Prod.fst h
      simp only [NameMap.find, hne, if_false]
      exact ih hm.2 h

/-! ### FeedTensorsIntoLocalScopes -/

theorem length_feedMap (scope : Nat) (map : NameMap LoDTensor) (scopes : List Scope) :
    (feedMap scope map scopes).length = scopes.length := by
  induction map generalizing scopes with
  | nil => rfl
  | cons p rest ih =>
    have step : feedMap scope (p :: rest) scopes =
        feedMap scope rest (updateLocalTensor scopes scope p.1
          (fun trg => (trg.ShareDataWith p.2).set_lod p.2.lod_)) := by
      simp [feedMap]
    rw [step, ih, length_updateLocalTensor]

theorem FindVarLocally_feedMap (scope : Nat) (map : NameMap LoDTensor) (scopes : List Scope)
    (hm : map.keys.Nodup) (hs : scope < scopes.length) (q : Nat) (key : String) :
    FindVarLocally (feedMap scope map scopes) q key =
      if q = scope then
        ((NameMap.find map key).map Variable.OfLoDTensor).orElse
          (fun _ => FindVarLocally scopes q key)
      else FindVarLocally scopes q key := by
  induction map generalizing scopes with
  | nil =>
    by_cases e : q = scope <;> simp [feedMap, NameMap.find, e]
  | cons p rest ih =>
    obtain ⟨a, b⟩ := p
    have step : feedMap scope ((a, b) :: rest) scopes =
        feedMap scope rest (updateLocalTensor scopes scope a
          (fun trg => (trg.ShareDataWith b).set_lod b.lod_)) := by
      simp [feedMap]
    simp only [NameMap.keys, List.map_cons, List.nodup_cons] at hm
    rw [step, ih _ hm.2 (by rw [length_updateLocalTensor]; exact hs)]
    by_cases e : q = scope
    · subst e
      simp only [if_true]
      by_cases ek : a = key
      · subst ek
        have hnone : NameMap.find rest a = none := NameMap.find_eq_none_of_not_mem rest a hm.1
        rw [hnone, FindVarLocally_updateLocalTensor_same _ _ _ _ hs, share_set_lod]
        simp [NameMap.find]
      · have hk : key ≠ a := fun e => ek e.symm
        rw [FindVarLocally_updateLocalTensor_other _ _ _ _ _ _ (Or.inr hk)]
        simp [NameMap.find, ek]
    · simp only [e, if_false]
      exact FindVarLocally_updateLocalTensor_other _ _ _ _ _ _ (Or.inl e)

theorem length_feedFrom (ls : List Nat) (i : Nat) (maps : List (NameMap LoDTensor))
    (scopes : List Scope) : (feedFrom ls i maps scopes).length = scopes.length := by
  induction maps generalizing i scopes with
  | nil => rfl
  | cons m rest ih => simp [feedFrom, ih, length_feedMap]

theorem FindVarLocally_feedFrom_frame (ls : List Nat) (i : Nat) (maps : List (NameMap LoDTensor))
    (scopes : List Scope) (hkeys : ∀ m ∈ maps, m.keys.Nodup)
    (hvalid : ∀ p ∈ ls, p < scopes.length) (hlen : i + maps.length ≤ ls.length)
    (q : Nat) (hq : ∀ j, j < maps.length → ls.getD (i + j) 0 ≠ q) (key : String) :
    FindVarLocally (feedFrom ls i maps scopes) q key = FindVarLocally scopes q key := by
  induction maps generalizing i scopes with
  | nil => rfl
  | cons m rest ih =>
    simp only [feedFrom]
    simp only [List.length_cons] at hlen hq
    have hi : i < ls.length := by omega
    have hmem : ls.getD i 0 ∈ ls := by
      rw [List.getD_eq_getElem ls 0 hi]
      exact List.getElem_mem hi
    rw [ih (i + 1) (feedMap (ls.getD i 0) m scopes)
      (fun m' hm' => hkeys m' (List.mem_cons_of_mem _ hm'))
      (fun p hp => by rw [length_feedMap]; exact hvalid p hp) (by omega)
      (fun j hj => by
        have := hq (j + 1) (by omega)
        have e : i + 1 + j = i + (j + 1) := by omega
        rw [e]
        exact this)]
    rw [FindVarLocally_feedMap _ _ _ (hkeys m (List.mem_cons_self _ _)) (hvalid _ hmem)]
    have := hq 0 (by omega)
    simp only [Nat.add_zero] at this
    rw [if_neg (fun e : q = ls.getD i 0 => this e.symm)]

theorem FindVarLocally_feedFrom (ls : List Nat) (i : Nat) (maps : List (NameMap LoDTensor))
    (scopes : List Scope) (hnodup : ls.Nodup) (hkeys : ∀ m ∈ maps, m.keys.Nodup)
    (hvalid : ∀ p ∈ ls, p < scopes.length) (hlen : i + maps.length ≤ ls.length)
    (j : Nat) (hj : j < maps.length) (pair : String × LoDTensor)
    (hpair : pair ∈ maps.getD j []) :
    FindVarLocally (feedFrom ls i maps scopes) (ls.getD (i + j) 0) pair.1 =
      some (Variable.OfLoDTensor pair.2) := by
  induction maps generalizing i j scopes with
  | nil => simp at hj
  | cons m rest ih =>
    simp only [feedFrom]
    simp only [List.length_cons] at hlen hj
    have hi : i < ls.length := by omega
    have hmem : ls.getD i 0 ∈ ls := by
      rw [List.getD_eq_getElem ls 0 hi]
      exact List.getElem_mem hi
    cases j with
    | zero =>
      simp only [List.getD_cons_zero] at hpair
      rw [Nat.add_zero, FindVarLocally_feedFrom_frame ls (i + 1) rest _
        (fun m' hm' => hkeys m' (List.mem_cons_of_mem _ hm'))
        (fun p hp => by rw [length_feedMap]; exact hvalid p hp) (by omega)]
      · rw [FindVarLocally_feedMap _ _ _ (hkeys m (List.mem_cons_self _ _)) (hvalid _ hmem)]
        simp [NameMap.find_of_mem m (hkeys m (List.mem_cons_self _ _)) pair hpair]
      · intro k hk e
        have h1 : i + 1 + k < ls.length := by omega
        rw [List.getD_eq_getElem ls 0 h1] at e
        rw [show ls.getD (i + 0) 0 = ls.get ⟨i, hi⟩ from List.getD_eq_getElem ls 0 hi] at e
        have := (List.Nodup.getElem_inj_iff hnodup).mp e
        omega
    | succ j =>
      simp only [List.getD_cons_succ] at hpair
      have := ih (i + 1) (feedMap (ls.getD i 0) m scopes)
        (fun m' hm' => hkeys m' (List.mem_cons_of_mem _ hm'))
        (fun p hp => by rw [length_feedMap]; exact hvalid p hp) (by omega) j (by omega) hpair
      have e : i + 1 + j = i + (j + 1) := by omega
      rw [e] at this
      exact this
/-- Claim C10. With pairwise distinct, live per-device scopes and maps without
a repeated name: FeedTensorsIntoLocalScopes fails if and only if the number of
maps differs from the number of per-device scopes, and then changes nothing;
otherwise it copies no data, and for every device i and every (name, tensor) of
map i the i-th per-device scope afterwards binds the name to a tensor with the
holder (buffer), position, shape, element type and LoD of the supplied one. -/
theorem FeedTensorsIntoLocalScopes_spec (member_ : ParallelExecutorPrivate) (w : World)
    (tensors : List (NameMap LoDTensor))
    (hnodup : member_.local_scopes_.Nodup)
    (hvalid : ∀ p ∈ member_.local_scopes_, p < w.scopes.length)
    (hkeys : ∀ m ∈ tensors, m.keys.Nodup) :
    ((FeedTensorsIntoLocalScopes member_ w tensors).error ≠ none ↔
      tensors.length ≠ member_.local_scopes_.length) ∧
    ((FeedTensorsIntoLocalScopes member_ w tensors).error ≠ none →
      (FeedTensorsIntoLocalScopes member_ w tensors).state = w) ∧
    ((FeedTensorsIntoLocalScopes member_ w tensors).error = none →
      (FeedTensorsIntoLocalScopes member_ w tensors).state.memory = w.memory ∧
      ∀ i, i < tensors.length → ∀ pair ∈ tensors.getD i [],
        ∃ trg, FindVarLocally (FeedTensorsIntoLocalScopes member_ w tensors).state.scopes
            (member_.local_scopes_.getD i 0) pair.1 = some (Variable.OfLoDTensor trg) ∧
          trg.holder_ = pair.2.holder_ ∧ trg.offset_ = pair.2.offset_ ∧
          trg.dims_ = pair.2.dims_ ∧ trg.type_ = pair.2.type_ ∧ trg.lod_ = pair.2.lod_) := by
  unfold FeedTensorsIntoLocalScopes
  by_cases h : member_.local_scopes_.length ≠ tensors.length
  · have h2 : tensors.length ≠ member_.local_scopes_.length := fun e => h e.symm
    rw [if_pos h]
    refine ⟨?_, ?_, ?_⟩
    · simp [h2]
    · intro _
      trivial
    · intro hc
      exact Option.noConfusion hc
  · have h2 : member_.local_scopes_.length = tensors.length := not_not.mp h
    rw [if_neg h]
    refine ⟨?_, ?_, ?_⟩
    · simp [h2]
    · intro hc
      exact absurd rfl hc
    · intro _
      refine ⟨rfl, ?_⟩
      intro i hi pair hpair
      refine ⟨pair.2, ?_, rfl, rfl, rfl, rfl, rfl⟩
      have := FindVarLocally_feedFrom member_.local_scopes_ 0 tensors w.scopes hnodup hkeys
        hvalid (by omega) i hi pair hpair
      rw [Nat.zero_add] at this
      exact this

/-- Witness of claim C10: three maps fed to the three scopes of an owning
coordinator. -/
theorem FeedTensorsIntoLocalScopes_spec_witness :
    (owningMember.local_scopes_.Nodup ∧
     (∀ p ∈ owningMember.local_scopes_, p < ownedWorld.scopes.length) ∧
     (∀ m ∈ perDeviceFeed, m.keys.Nodup)) ∧
    (FeedTensorsIntoLocalScopes owningMember ownedWorld perDeviceFeed).error = none ∧
    ∃ trg, FindVarLocally
        (FeedTensorsIntoLocalScopes owningMember ownedWorld perDeviceFeed).state.scopes
        (owningMember.local_scopes_.getD 1 0) "y" = some (Variable.OfLoDTensor trg) ∧
      trg.holder_ = fedTensor.holder_ ∧ trg.offset_ = fedTensor.offset_ ∧
      trg.dims_ = fedTensor.dims_ ∧ trg.type_ = fedTensor.type_ ∧
      trg.lod_ = fedTensor.lod_ :=
  have h := FeedTensorsIntoLocalScopes_spec owningMember ownedWorld perDeviceFeed
    (by decide) (by decide) (by decide)
  ⟨⟨by decide, by decide, by decide⟩, by decide,
   (h.2.2 (by decide)).2 1 (by decide) ("y", fedTensor) (by decide)⟩
/-! ### FeedAndSplitTensorIntoLocalScopes -/

/-- Claim C3, as stated, fails: over three devices, with a first tensor of
three rows and a second of one row, the call fails on the second tensor after
the shards of the first have been bound in the per-device scopes. -/
theorem FeedAndSplit_no_change_counterexample :
    ¬ ((∃ pair ∈ sharedFeed,
          (SplitLoDTensor pair.2 owningMember.places_).length ≠ owningMember.places_.length) →
        (FeedAndSplitTensorIntoLocalScopes SplitLoDTensor owningMember sharedFeed
            ownedWorld).error ≠ none ∧
        (FeedAndSplitTensorIntoLocalScopes SplitLoDTensor owningMember sharedFeed
            ownedWorld).state.scopes = ownedWorld.scopes) := by
  decide

/-! ### Frame conditions of the writes -/

theorem ScopesFrame.frame_refl (keep : Nat → String → Prop) (sc : List Scope) :
    ScopesFrame keep sc sc :=
  ⟨rfl, fun _ => rfl, fun _ _ _ => rfl⟩

theorem ScopesFrame.frame_trans {keep : Nat → String → Prop} {sc1 sc2 sc3 : List Scope}
    (h12 : ScopesFrame keep sc1 sc2) (h23 : ScopesFrame keep sc2 sc3) :
    ScopesFrame keep sc1 sc3 :=
  ⟨h23.1.trans h12.1, fun q => (h23.2.1 q).trans (h12.2.1 q),
   fun q key hk => (h23.2.2 q key hk).trans (h12.2.2 q key hk)⟩

theorem ScopesFrame.weaken {keep keep2 : Nat → String → Prop} {sc1 sc2 : List Scope}
    (h : ScopesFrame keep sc1 sc2) (hk : ∀ q key, keep2 q key → keep q key) :
    ScopesFrame keep2 sc1 sc2 :=
  ⟨h.1, h.2.1, fun q key hq => h.2.2 q key (hk q key hq)⟩

theorem MemoryGrows.grows_refl (m : List Allocation) : MemoryGrows m m :=
  ⟨Nat.le_refl _, fun _ _ => rfl⟩

theorem MemoryGrows.grows_trans {m1 m2 m3 : List Allocation} (h12 : MemoryGrows m1 m2)
    (h23 : MemoryGrows m2 m3) : MemoryGrows m1 m3 :=
  ⟨Nat.le_trans h12.1 h23.1,
   fun b hb => (h23.2 b (Nat.lt_of_lt_of_le hb h12.1)).trans (h12.2 b hb)⟩

theorem ScopesFrame_updateLocalTensor (scopes : List Scope) (p : Nat) (name : String)
    (f : LoDTensor → LoDTensor) :
    ScopesFrame (fun q key => q ≠ p ∨ key ≠ name) scopes
      (updateLocalTensor scopes p name f) := by
  refine ⟨length_updateLocalTensor _ _ _ _, ?_, ?_⟩
  · intro q
    unfold updateLocalTensor
    rw [getElem?_updateScope]
    by_cases e : q = p
    · subst e
      cases scopes[q]? <;> simp
    · simp [e]
  · intro q key hk
    exact FindVarLocally_updateLocalTensor_other _ _ _ _ _ _ hk

theorem scopeChainAux_congr (sc1 sc2 : List Scope)
    (hpar : ∀ q : Nat, (sc2[q]?).map (fun s => s.parent_) = (sc1[q]?).map (fun s => s.parent_))
    (fuel p : Nat) : scopeChainAux sc2 fuel p = scopeChainAux sc1 fuel p := by
  induction fuel generalizing p with
  | zero => rfl
  | succ fuel ih =>
    have hp := hpar p
    unfold scopeChainAux
    cases h1 : sc1[p]? with
    | none =>
      rw [h1] at hp
      cases h2 : sc2[p]? with
      | none => rfl
      | some s2 =>
        rw [h2] at hp
        simp at hp
    | some s1 =>
      rw [h1] at hp
      cases h2 : sc2[p]? with
      | none =>
        rw [h2] at hp
        simp at hp
      | some s2 =>
        rw [h2] at hp
        simp only [Option.map_some', Option.some.injEq] at hp
        simp only [hp]
        cases s1.parent_ with
        | none => rfl
        | some q => simp only [ih q]

theorem scopeChain_frame {keep : Nat → String → Prop} {sc1 sc2 : List Scope}
    (h : ScopesFrame keep sc1 sc2) (p : Nat) : scopeChain sc2 p = scopeChain sc1 p := by
  unfold scopeChain
  rw [h.1]
  exact scopeChainAux_congr sc1 sc2 h.2.1 _ p

theorem findSome?_congr_mem {α β : Type} (l : List α) (f g : α → Option β)
    (h : ∀ a ∈ l, f a = g a) : l.findSome? f = l.findSome? g := by
  induction l with
  | nil => rfl
  | cons a l ih =>
    simp only [List.findSome?_cons]
    rw [h a (List.mem_cons_self _ _), ih (fun b hb => h b (List.mem_cons_of_mem _ hb))]

theorem FindVar_frame {keep : Nat → String → Prop} {sc1 sc2 : List Scope}
    (h : ScopesFrame keep sc1 sc2) (p : Nat) (name : String)
    (hk : ∀ q ∈ scopeChain sc1 p, keep q name) :
    FindVar sc2 p name = FindVar sc1 p name := by
  unfold FindVar
  rw [scopeChain_frame h p]
  exact findSome?_congr_mem _ _ _ (fun q hq => h.2.2 q name (hk q hq))
/-! ### Frame conditions of the broadcast -/

theorem MemoryGrows_append (m : List Allocation) (extra : List Allocation) :
    MemoryGrows m (m ++ extra) :=
  ⟨by simp, fun b hb => List.getElem?_append_left hb⟩

theorem MemoryGrows_write_new (m m2 : List Allocation) (h : MemoryGrows m m2) (b : Nat)
    (hb : m.length ≤ b) (place : Place) (data : List Nat) :
    MemoryGrows m (writeAllocation m2 b place data) := by
  unfold writeAllocation
  by_cases hlt : b < m2.length
  · rw [if_pos hlt]
    refine ⟨by simpa using h.1, ?_⟩
    intro c hc
    rw [List.getElem?_set_ne (by omega)]
    exact h.2 c hc
  · rw [if_neg hlt]
    exact h

theorem bcastHostDevice_frame (member_ : ParallelExecutorPrivate) (var : String)
    (main_tensor : LoDTensor) (w : World) (i : Nat) :
    ScopesFrame (fun q key => key ≠ var ∨ q ≠ member_.local_scopes_.getD i 0)
        w.scopes (bcastHostDevice member_ var main_tensor w i).scopes ∧
      MemoryGrows w.memory (bcastHostDevice member_ var main_tensor w i).memory := by
  unfold bcastHostDevice
  by_cases hc : (member_.use_all_reduce_ || member_.use_cuda_ ||
      decide (var = "@LR_DECAY_COUNTER@")) = true
  · rw [if_pos hc]
    dsimp only
    constructor
    · exact (ScopesFrame_updateLocalTensor w.scopes (member_.local_scopes_.getD i 0) var
        _).weaken (fun q key hk => Or.symm hk)
    · simp only [TensorCopy, LoDTensor.mutable_data]
      exact MemoryGrows_write_new _ _ (MemoryGrows_append _ _) _ (Nat.le_refl _) _ _
  · rw [if_neg hc]
    dsimp only
    constructor
    · exact (ScopesFrame_updateLocalTensor w.scopes (member_.local_scopes_.getD i 0) var
        _).weaken (fun q key hk => Or.symm hk)
    · exact MemoryGrows.grows_refl _

theorem bcastNcclDevice_frame (member_ : ParallelExecutorPrivate) (var : String)
    (main_tensor : LoDTensor) (w : World) (i : Nat) :
    ScopesFrame (fun q key => key ≠ var ∨ i = 0 ∨ q ≠ member_.local_scopes_.getD i 0)
        w.scopes (bcastNcclDevice member_ var main_tensor w i).scopes ∧
      MemoryGrows w.memory (bcastNcclDevice member_ var main_tensor w i).memory := by
  unfold bcastNcclDevice
  by_cases h0 : i = 0
  · rw [if_pos h0]
    exact ⟨ScopesFrame.frame_refl _ _, MemoryGrows.grows_refl _⟩
  · rw [if_neg h0]
    dsimp only
    constructor
    · exact (ScopesFrame_updateLocalTensor w.scopes (member_.local_scopes_.getD i 0) var
        _).weaken (fun q key hk => by
        rcases hk with hk | hk | hk
        · exact Or.inr hk
        · exact absurd hk h0
        · exact Or.inl hk)
    · simp only [LoDTensor.mutable_data]
      exact MemoryGrows_write_new _ _ (MemoryGrows_append _ _) _ (Nat.le_refl _) _ _

theorem foldl_frame (g : World → Nat → World) (K : Nat → Nat → String → Prop)
    (devices : List Nat)
    (hstep : ∀ w i, i ∈ devices →
      ScopesFrame (K i) w.scopes (g w i).scopes ∧ MemoryGrows w.memory (g w i).memory)
    (w : World) :
    ScopesFrame (fun q key => ∀ i ∈ devices, K i q key) w.scopes (devices.foldl g w).scopes ∧
      MemoryGrows w.memory (devices.foldl g w).memory := by
  induction devices generalizing w with
  | nil => exact ⟨ScopesFrame.frame_refl _ _, MemoryGrows.grows_refl _⟩
  | cons i rest ih =>
    simp only [List.foldl_cons]
    obtain ⟨s1, m1⟩ := hstep w i (List.mem_cons_self _ _)
    obtain ⟨s2, m2⟩ := ih (fun w j hj => hstep w j (List.mem_cons_of_mem _ hj)) (g w i)
    constructor
    · exact ScopesFrame.frame_trans
        (s1.weaken (fun q key hk => hk i (List.mem_cons_self _ _)))
        (s2.weaken (fun q key hk j hj => hk j (List.mem_cons_of_mem _ hj)))
    · exact m1.grows_trans m2

/-- What one variable of the broadcast leaves alone: every binding of another
name, every binding in a scope that is not a per-device scope after the first,
the parents of all scopes, and every allocation that existed. -/
theorem bcastVar_frame (with_cuda : Bool) (member_ : ParallelExecutorPrivate) (var : String)
    (w : World) :
    ScopesFrame (fun q key => key ≠ var ∨
          ∀ i, 1 ≤ i → i < member_.places_.length → q ≠ member_.local_scopes_.getD i 0)
        w.scopes (bcastVar with_cuda member_ var w).state.scopes ∧
      MemoryGrows w.memory (bcastVar with_cuda member_ var w).state.memory := by
  unfold bcastVar
  split
  · rename_i main_tensor _
    by_cases h1 : (!main_tensor.IsInitialized) = true
    · rw [if_pos h1]
      exact ⟨ScopesFrame.frame_refl _ _, MemoryGrows.grows_refl _⟩
    · rw [if_neg h1]
      by_cases h2 : is_gpu_place (main_tensor.place w.memory) = true
      · rw [if_pos h2]
        cases with_cuda with
        | false => exact ⟨ScopesFrame.frame_refl _ _, MemoryGrows.grows_refl _⟩
        | true =>
          rw [if_pos rfl]
          obtain ⟨s, m⟩ := foldl_frame (bcastNcclDevice member_ var main_tensor)
            (fun i q key => key ≠ var ∨ i = 0 ∨ q ≠ member_.local_scopes_.getD i 0)
            (List.range member_.places_.length)
            (fun w i _ => bcastNcclDevice_frame member_ var main_tensor w i) w
          refine ⟨s.weaken ?_, m⟩
          intro q key hk i hi
          rcases hk with hk | hk
          · exact Or.inl hk
          · by_cases h0 : i = 0
            · exact Or.inr (Or.inl h0)
            · exact Or.inr (Or.inr (hk i (by omega) (List.mem_range.mp hi)))
      · rw [if_neg h2]
        obtain ⟨s, m⟩ := foldl_frame (bcastHostDevice member_ var main_tensor)
          (fun i q key => key ≠ var ∨ q ≠ member_.local_scopes_.getD i 0)
          (List.range' 1 (member_.places_.length - 1))
          (fun w i _ => bcastHostDevice_frame member_ var main_tensor w i) w
        refine ⟨s.weaken ?_, m⟩
        intro q key hk i hi
        rcases hk with hk | hk
        · exact Or.inl hk
        · have := List.mem_range'_1.mp hi
          exact Or.inr (hk i this.1 (by omega))
  · exact ⟨ScopesFrame.frame_refl _ _, MemoryGrows.grows_refl _⟩
/-! ### BCastParamsToDevices: skipped names -/

theorem bcastVar_skip (with_cuda : Bool) (member_ : ParallelExecutorPrivate) (name : String)
    (w : World) (hskip : Skipped w.scopes (member_.local_scopes_.getD 0 0) name) :
    bcastVar with_cuda member_ name w = { state := w, error := none } := by
  unfold bcastVar
  rcases hskip with h | ⟨v, h, hv⟩ | ⟨t, h, ht⟩
  · rw [h]
  · rw [h]
    cases v with
    | Uninitialized => rfl
    | OfLoDTensor t => simp [Variable.IsTypeLoDTensor] at hv
    | Other n => rfl
  · rw [h]
    simp [ht]

theorem bcastVar_FindVar_other (with_cuda : Bool) (member_ : ParallelExecutorPrivate)
    (var name : String) (w : World) (hne : name ≠ var) (p : Nat) :
    FindVar (bcastVar with_cuda member_ var w).state.scopes p name = FindVar w.scopes p name :=
  FindVar_frame (bcastVar_frame with_cuda member_ var w).1 p name (fun _ _ => Or.inl hne)

theorem Skipped_bcastVar_other (with_cuda : Bool) (member_ : ParallelExecutorPrivate)
    (var name : String) (w : World) (hne : name ≠ var) (p : Nat)
    (h : Skipped w.scopes p name) :
    Skipped (bcastVar with_cuda member_ var w).state.scopes p name := by
  unfold Skipped at h ⊢
  rw [bcastVar_FindVar_other with_cuda member_ var name w hne p]
  exact h

/-- Claim C9. For a name that is not found from device 0's scope, or is found
but is not a LoDTensor, or is an uninitialized tensor: BCastParamsToDevices over
a list of names returns what it returns over the list without that name (same
scopes, same memory, same exception if any), and no scope's own binding of that
name differs from before the call. -/
theorem BCastParamsToDevices_skipped (with_cuda : Bool) (member_ : ParallelExecutorPrivate)
    (vars : List String) (name : String) (w : World)
    (hskip : Skipped w.scopes (member_.local_scopes_.getD 0 0) name) :
    BCastParamsToDevices with_cuda member_ vars w =
      BCastParamsToDevices with_cuda member_ (vars.filter (fun v => decide (v ≠ name))) w ∧
    ∀ q, FindVarLocally (BCastParamsToDevices with_cuda member_ vars w).state.scopes q name =
      FindVarLocally w.scopes q name := by
  induction vars generalizing w with
  | nil => exact ⟨rfl, fun _ => rfl⟩
  | cons v rest ih =>
    by_cases e : v = name
    · subst e
      have hs := bcastVar_skip with_cuda member_ v w hskip
      have step : BCastParamsToDevices with_cuda member_ (v :: rest) w =
          BCastParamsToDevices with_cuda member_ rest w := by
        simp only [BCastParamsToDevices, hs]
      obtain ⟨i1, i2⟩ := ih w hskip
      rw [step]
      refine ⟨?_, i2⟩
      rw [i1]
      simp
    · have hne : name ≠ v := fun h => e h.symm
      have hf : (v :: rest).filter (fun v => decide (v ≠ name)) =
          v :: rest.filter (fun v => decide (v ≠ name)) := by
        simp [List.filter_cons, e]
      rw [hf]
      simp only [BCastParamsToDevices]
      have hloc : ∀ q, FindVarLocally (bcastVar with_cuda member_ v w).state.scopes q name =
          FindVarLocally w.scopes q name :=
        fun q => (bcastVar_frame with_cuda member_ v w).1.2.2 q name (Or.inl hne)
      cases herr : (bcastVar with_cuda member_ v w).error with
      | some msg => exact ⟨rfl, hloc⟩
      | none =>
        obtain ⟨i1, i2⟩ := ih (bcastVar with_cuda member_ v w).state
          (Skipped_bcastVar_other with_cuda member_ v name w hne _ hskip)
        exact ⟨i1, fun q => (i2 q).trans (hloc q)⟩

/-- Witness of claim C9: the name "missing" is bound in no scope. -/
theorem BCastParamsToDevices_skipped_witness :
    BCastParamsToDevices false owningMember exampleBcastVars ownedWorld =
      BCastParamsToDevices false owningMember
        (exampleBcastVars.filter (fun v => decide (v ≠ "missing"))) ownedWorld ∧
    ∀ q, FindVarLocally
        (BCastParamsToDevices false owningMember exampleBcastVars ownedWorld).state.scopes q
        "missing" = FindVarLocally ownedWorld.scopes q "missing" :=
  BCastParamsToDevices_skipped false owningMember exampleBcastVars "missing" ownedWorld
    (Or.inl (by decide))
/-! ### BCastParamsToDevices: the host path -/

theorem contents_of_grows (m m2 : List Allocation) (h : MemoryGrows m m2) (t : LoDTensor)
    (b : Nat) (hb : t.holder_ = some b) (hlt : b < m.length) :
    t.contents m2 = t.contents m := by
  unfold LoDTensor.contents
  rw [hb]
  simp only
  have e : m2[b]? = m[b]? := h.2 b hlt
  rw [List.getD_eq_getElem?_getD, List.getD_eq_getElem?_getD, e]

theorem place_of_grows (m m2 : List Allocation) (h : MemoryGrows m m2) (t : LoDTensor)
    (b : Nat) (hb : t.holder_ = some b) (hlt : b < m.length) :
    t.place m2 = t.place m := by
  unfold LoDTensor.place
  rw [hb]
  simp only
  have e : m2[b]? = m[b]? := h.2 b hlt
  rw [List.getD_eq_getElem?_getD, List.getD_eq_getElem?_getD, e]

theorem contents_of_alloc (m : List Allocation) (t src : LoDTensor) (b : Nat) (place : Place)
    (m0 : List Allocation)
    (hb : t.holder_ = some b) (ho : t.offset_ = 0) (hd : t.dims_ = src.dims_)
    (ha : m[b]? = some { place := place, data := src.contents m0 }) :
    t.contents m = src.contents m0 := by
  have hn : t.numel = src.numel := by
    unfold LoDTensor.numel
    rw [hd]
  unfold LoDTensor.contents at *
  rw [hb]
  simp only
  rw [List.getD_eq_getElem?_getD, ha, ho, hn]
  simp only [Option.getD_some, List.drop_zero]
  cases src.holder_ with
  | none => simp
  | some c => simp [List.take_take]

/-- The copy condition of the host path. -/
theorem bcastHostDevice_copy (member_ : ParallelExecutorPrivate) (var : String)
    (main_tensor : LoDTensor) (w : World) (i b : Nat)
    (hdeep : (member_.use_all_reduce_ || member_.use_cuda_ ||
      decide (var = "@LR_DECAY_COUNTER@")) = true)
    (hp : member_.local_scopes_.getD i 0 < w.scopes.length)
    (hb : main_tensor.holder_ = some b) (hlt : b < w.memory.length) :
    (bcastHostDevice member_ var main_tensor w i).memory.length = w.memory.length + 1 ∧
    (bcastHostDevice member_ var main_tensor w i).memory[w.memory.length]? =
      some { place := Place.CPUPlace, data := main_tensor.contents w.memory } ∧
    ∃ t, FindVarLocally (bcastHostDevice member_ var main_tensor w i).scopes
        (member_.local_scopes_.getD i 0) var = some (Variable.OfLoDTensor t) ∧
      t.dims_ = main_tensor.dims_ ∧ t.type_ = main_tensor.type_ ∧
      t.holder_ = some w.memory.length ∧ t.offset_ = 0 := by
  unfold bcastHostDevice
  rw [if_pos hdeep]
  dsimp only
  have hc : ∀ extra : List Allocation,
      main_tensor.contents (w.memory ++ extra) = main_tensor.contents w.memory :=
    fun extra => contents_of_grows _ _ (MemoryGrows_append w.memory extra) main_tensor b hb hlt
  refine ⟨?_, ?_, ?_⟩
  · simp [TensorCopy, LoDTensor.mutable_data, writeAllocation]
  · simp only [TensorCopy, LoDTensor.mutable_data, writeAllocation, hc]
    simp
  · refine ⟨_, FindVarLocally_updateLocalTensor_same _ _ _ _ hp, ?_, ?_, ?_, ?_⟩ <;>
      simp [TensorCopy, LoDTensor.mutable_data]

/-- The sharing branch of the host path. -/
theorem bcastHostDevice_share (member_ : ParallelExecutorPrivate) (var : String)
    (main_tensor : LoDTensor) (w : World) (i : Nat)
    (hdeep : ¬ (member_.use_all_reduce_ || member_.use_cuda_ ||
      decide (var = "@LR_DECAY_COUNTER@")) = true)
    (hp : member_.local_scopes_.getD i 0 < w.scopes.length) :
    (bcastHostDevice member_ var main_tensor w i).memory = w.memory ∧
    ∃ t, FindVarLocally (bcastHostDevice member_ var main_tensor w i).scopes
        (member_.local_scopes_.getD i 0) var = some (Variable.OfLoDTensor t) ∧
      t.dims_ = main_tensor.dims_ ∧ t.type_ = main_tensor.type_ ∧
      t.holder_ = main_tensor.holder_ ∧ t.offset_ = main_tensor.offset_ := by
  unfold bcastHostDevice
  rw [if_neg hdeep]
  dsimp only
  refine ⟨rfl, _, FindVarLocally_updateLocalTensor_same _ _ _ _ hp, ?_, ?_, ?_, ?_⟩ <;>
    simp [LoDTensor.ShareDataWith]
theorem getD_ne_of_nodup (ls : List Nat) (hnodup : ls.Nodup) (i j : Nat) (hi : i < ls.length)
    (hj : j < ls.length) (hne : i ≠ j) : ls.getD i 0 ≠ ls.getD j 0 := by
  rw [List.getD_eq_getElem ls 0 hi, List.getD_eq_getElem ls 0 hj]
  intro e
  exact hne ((List.Nodup.getElem_inj_iff hnodup).mp e)

theorem host_fold_frame (member_ : ParallelExecutorPrivate) (var : String)
    (main_tensor : LoDTensor) (s n : Nat) (w : World) :
    ScopesFrame (fun q key => key ≠ var ∨
          ∀ i, s ≤ i → i < s + n → q ≠ member_.local_scopes_.getD i 0)
        w.scopes ((List.range' s n).foldl (bcastHostDevice member_ var main_tensor) w).scopes ∧
      MemoryGrows w.memory
        ((List.range' s n).foldl (bcastHostDevice member_ var main_tensor) w).memory := by
  obtain ⟨f, m⟩ := foldl_frame (bcastHostDevice member_ var main_tensor)
    (fun i q key => key ≠ var ∨ q ≠ member_.local_scopes_.getD i 0)
    (List.range' s n)
    (fun w i _ => bcastHostDevice_frame member_ var main_tensor w i) w
  refine ⟨f.weaken ?_, m⟩
  intro q key hk i hi
  rcases hk with hk | hk
  · exact Or.inl hk
  · have := List.mem_range'_1.mp hi
    exact Or.inr (hk i this.1 this.2)

theorem host_fold_copy (member_ : ParallelExecutorPrivate) (var : String)
    (main_tensor : LoDTensor) (b : Nat)
    (hdeep : (member_.use_all_reduce_ || member_.use_cuda_ ||
      decide (var = "@LR_DECAY_COUNTER@")) = true)
    (hnodup : member_.local_scopes_.Nodup) (hb : main_tensor.holder_ = some b)
    (n s : Nat) (w : World) (hidx : s + n ≤ member_.local_scopes_.length)
    (hvalid : ∀ p ∈ member_.local_scopes_, p < w.scopes.length) (hlt : b < w.memory.length) :
    ((List.range' s n).foldl (bcastHostDevice member_ var main_tensor) w).memory.length
      = w.memory.length + n ∧
    ∀ d, s ≤ d → d < s + n →
      ∃ t, FindVarLocally
          ((List.range' s n).foldl (bcastHostDevice member_ var main_tensor) w).scopes
          (member_.local_scopes_.getD d 0) var = some (Variable.OfLoDTensor t) ∧
        t.dims_ = main_tensor.dims_ ∧ t.type_ = main_tensor.type_ ∧
        t.holder_ = some (w.memory.length + (d - s)) ∧ t.offset_ = 0 ∧
        ((List.range' s n).foldl (bcastHostDevice member_ var main_tensor)
            w).memory[w.memory.length + (d - s)]? =
          some { place := Place.CPUPlace, data := main_tensor.contents w.memory } := by
  induction n generalizing s w with
  | zero =>
    refine ⟨by simp, ?_⟩
    intro d h1 h2
    omega
  | succ n ih =>
    rw [List.range'_succ, List.foldl_cons]
    have hs : s < member_.local_scopes_.length := by omega
    have hmem : member_.local_scopes_.getD s 0 ∈ member_.local_scopes_ := by
      rw [List.getD_eq_getElem _ 0 hs]
      exact List.getElem_mem hs
    obtain ⟨c1, c2, t, c3, c4, c5, c6, c7⟩ :=
      bcastHostDevice_copy member_ var main_tensor w s b hdeep (hvalid _ hmem) hb hlt
    obtain ⟨f1, g1⟩ := bcastHostDevice_frame member_ var main_tensor w s
    obtain ⟨i1, i2⟩ := ih (s + 1) (bcastHostDevice member_ var main_tensor w s) (by omega)
      (fun p hp => by rw [f1.1]; exact hvalid p hp) (by omega)
    obtain ⟨f2, g2⟩ := host_fold_frame member_ var main_tensor (s + 1) n
      (bcastHostDevice member_ var main_tensor w s)
    refine ⟨by rw [i1, c1]; omega, ?_⟩
    intro d h1 h2
    by_cases e : d = s
    · subst e
      refine ⟨t, ?_, c4, c5, ?_, c7, ?_⟩
      · rw [f2.2.2 _ var (Or.inr (fun i hi1 hi2 =>
          getD_ne_of_nodup _ hnodup d i hs (by omega) (by omega)))]
        exact c3
      · rw [c6]
        simp
      · rw [Nat.sub_self, Nat.add_zero, g2.2 _ (by omega)]
        exact c2
    · obtain ⟨t2, j1, j2, j3, j4, j5, j6⟩ := i2 d (by omega) (by omega)
      have e2 : (bcastHostDevice member_ var main_tensor w s).memory.length + (d - (s + 1))
          = w.memory.length + (d - s) := by
        rw [c1]
        omega
      rw [e2] at j4 j6
      refine ⟨t2, j1, j2, j3, j4, j5, ?_⟩
      rw [j6, contents_of_grows _ _ g1 main_tensor b hb hlt]

theorem host_fold_share (member_ : ParallelExecutorPrivate) (var : String)
    (main_tensor : LoDTensor)
    (hdeep : ¬ (member_.use_all_reduce_ || member_.use_cuda_ ||
      decide (var = "@LR_DECAY_COUNTER@")) = true)
    (hnodup : member_.local_scopes_.Nodup)
    (n s : Nat) (w : World) (hidx : s + n ≤ member_.local_scopes_.length)
    (hvalid : ∀ p ∈ member_.local_scopes_, p < w.scopes.length) :
    ((List.range' s n).foldl (bcastHostDevice member_ var main_tensor) w).memory = w.memory ∧
    ∀ d, s ≤ d → d < s + n →
      ∃ t, FindVarLocally
          ((List.range' s n).foldl (bcastHostDevice member_ var main_tensor) w).scopes
          (member_.local_scopes_.getD d 0) var = some (Variable.OfLoDTensor t) ∧
        t.dims_ = main_tensor.dims_ ∧ t.type_ = main_tensor.type_ ∧
        t.holder_ = main_tensor.holder_ ∧ t.offset_ = main_tensor.offset_ := by
  induction n generalizing s w with
  | zero =>
    refine ⟨by simp, ?_⟩
    intro d h1 h2
    omega
  | succ n ih =>
    rw [List.range'_succ, List.foldl_cons]
    have hs : s < member_.local_scopes_.length := by omega
    have hmem : member_.local_scopes_.getD s 0 ∈ member_.local_scopes_ := by
      rw [List.getD_eq_getElem _ 0 hs]
      exact List.getElem_mem hs
    obtain ⟨c1, t, c3, c4, c5, c6, c7⟩ :=
      bcastHostDevice_share member_ var main_tensor w s hdeep (hvalid _ hmem)
    obtain ⟨f1, g1⟩ := bcastHostDevice_frame member_ var main_tensor w s
    obtain ⟨i1, i2⟩ := ih (s + 1) (bcastHostDevice member_ var main_tensor w s) (by omega)
      (fun p hp => by rw [f1.1]; exact hvalid p hp)
    obtain ⟨f2, g2⟩ := host_fold_frame member_ var main_tensor (s + 1) n
      (bcastHostDevice member_ var main_tensor w s)
    refine ⟨by rw [i1, c1], ?_⟩
    intro d h1 h2
    by_cases e : d = s
    · subst e
      refine ⟨t, ?_, c4, c5, c6, c7⟩
      rw [f2.2.2 _ var (Or.inr (fun i hi1 hi2 =>
        getD_ne_of_nodup _ hnodup d i hs (by omega) (by omega)))]
      exact c3
    · exact i2 d (by omega) (by omega)
theorem BCastParamsToDevices_frame (with_cuda : Bool) (member_ : ParallelExecutorPrivate)
    (var : String) (l : List String) (hl : var ∉ l) (w : World) :
    ScopesFrame (fun _ key => key = var) w.scopes
        (BCastParamsToDevices with_cuda member_ l w).state.scopes ∧
      MemoryGrows w.memory (BCastParamsToDevices with_cuda member_ l w).state.memory := by
  induction l generalizing w with
  | nil => exact ⟨ScopesFrame.frame_refl _ _, MemoryGrows.grows_refl _⟩
  | cons v rest ih =>
    have hv : var ≠ v := fun e => hl (e ▸ List.mem_cons_self _ _)
    obtain ⟨f1, g1⟩ := bcastVar_frame with_cuda member_ v w
    have f1b : ScopesFrame (fun _ key => key = var) w.scopes
        (bcastVar with_cuda member_ v w).state.scopes :=
      f1.weaken (fun q key hk => Or.inl (hk ▸ hv))
    simp only [BCastParamsToDevices]
    cases herr : (bcastVar with_cuda member_ v w).error with
    | some msg => exact ⟨f1b, g1⟩
    | none =>
      obtain ⟨f2, g2⟩ := ih (fun h => hl (List.mem_cons_of_mem _ h))
        (bcastVar with_cuda member_ v w).state
      exact ⟨f1b.frame_trans f2, g1.grows_trans g2⟩

theorem BCastParamsToDevices_append (with_cuda : Bool) (member_ : ParallelExecutorPrivate)
    (l1 l2 : List String) (w : World)
    (hok : (BCastParamsToDevices with_cuda member_ (l1 ++ l2) w).error = none) :
    (BCastParamsToDevices with_cuda member_ l1 w).error = none ∧
    BCastParamsToDevices with_cuda member_ (l1 ++ l2) w =
      BCastParamsToDevices with_cuda member_ l2
        (BCastParamsToDevices with_cuda member_ l1 w).state := by
  induction l1 generalizing w with
  | nil => exact ⟨rfl, rfl⟩
  | cons v rest ih =>
    simp only [List.cons_append, BCastParamsToDevices] at hok ⊢
    cases herr : (bcastVar with_cuda member_ v w).error with
    | some msg =>
      rw [herr] at hok
      exact Option.noConfusion hok
    | none =>
      rw [herr] at hok
      exact ih (bcastVar with_cuda member_ v w).state hok

theorem bcastVar_host (with_cuda : Bool) (member_ : ParallelExecutorPrivate) (var : String)
    (w : World) (main_tensor : LoDTensor) (b : Nat) (alloc : Allocation)
    (hmain : FindVar w.scopes (member_.local_scopes_.getD 0 0) var =
      some (Variable.OfLoDTensor main_tensor))
    (hholder : main_tensor.holder_ = some b) (halloc : w.memory[b]? = some alloc)
    (hhost : is_gpu_place alloc.place = false) :
    bcastVar with_cuda member_ var w =
      { state := (List.range' 1 (member_.places_.length - 1)).foldl
          (bcastHostDevice member_ var main_tensor) w,
        error := none } := by
  unfold bcastVar
  rw [hmain]
  have h1 : main_tensor.IsInitialized = true := by
    simp [LoDTensor.IsInitialized, hholder]
  have h2 : is_gpu_place (main_tensor.place w.memory) = false := by
    unfold LoDTensor.place
    rw [hholder]
    simp only
    rw [List.getD_eq_getElem?_getD, halloc]
    exact hhost
  simp [h1, h2]

theorem contents_eq_of_same_view (m : List Allocation) (t src : LoDTensor)
    (hh : t.holder_ = src.holder_) (ho : t.offset_ = src.offset_) (hd : t.dims_ = src.dims_) :
    t.contents m = src.contents m := by
  unfold LoDTensor.contents LoDTensor.numel
  rw [hh, ho, hd]
/-- Claim C8. Let the per-device scopes be pairwise distinct live scopes, one
per device, none of those after the first on the path from device 0's scope to
the root; let the broadcast names be distinct, and let `var` be one of them,
found from device 0's scope as an initialized tensor `main_tensor` whose
allocation is not on an accelerator.  If BCastParamsToDevices returns normally,
then device 0's tensor and its elements are as before, and for every device
i >= 1 the scope of device i binds `var` to a tensor with the shape, the
element type and the elements of `main_tensor`.  When the reduction strategy is
all-reduce, or use_cuda is on, or the name is "@LR_DECAY_COUNTER@", that tensor
has the buffer at address base + (i - 1), where base is at least the size of
the memory before the call: a buffer allocated by the call, of device i alone,
and not the one of `main_tensor`.  Otherwise it has the holder and the position
of `main_tensor`: the same buffer. -/
theorem BCastParamsToDevices_host (with_cuda : Bool) (member_ : ParallelExecutorPrivate)
    (vars : List String) (var : String) (w : World) (main_tensor : LoDTensor) (b : Nat)
    (alloc : Allocation)
    (hlen : member_.local_scopes_.length = member_.places_.length)
    (hnodup : member_.local_scopes_.Nodup)
    (hvalid : ∀ p ∈ member_.local_scopes_, p < w.scopes.length)
    (halias : ∀ q ∈ member_.local_scopes_.drop 1,
      q ∉ scopeChain w.scopes (member_.local_scopes_.getD 0 0))
    (hvars : vars.Nodup) (hvar : var ∈ vars)
    (hmain : FindVar w.scopes (member_.local_scopes_.getD 0 0) var =
      some (Variable.OfLoDTensor main_tensor))
    (hholder : main_tensor.holder_ = some b) (halloc : w.memory[b]? = some alloc)
    (hhost : is_gpu_place alloc.place = false)
    (hok : (BCastParamsToDevices with_cuda member_ vars w).error = none) :
    FindVar (BCastParamsToDevices with_cuda member_ vars w).state.scopes
        (member_.local_scopes_.getD 0 0) var = some (Variable.OfLoDTensor main_tensor) ∧
    main_tensor.contents (BCastParamsToDevices with_cuda member_ vars w).state.memory
      = main_tensor.contents w.memory ∧
    ∃ base, w.memory.length ≤ base ∧
      ∀ i, 1 ≤ i → i < member_.places_.length →
        ∃ t, FindVarLocally (BCastParamsToDevices with_cuda member_ vars w).state.scopes
            (member_.local_scopes_.getD i 0) var = some (Variable.OfLoDTensor t) ∧
          t.dims_ = main_tensor.dims_ ∧ t.type_ = main_tensor.type_ ∧
          t.contents (BCastParamsToDevices with_cuda member_ vars w).state.memory
            = main_tensor.contents w.memory ∧
          ((member_.use_all_reduce_ = true ∨ member_.use_cuda_ = true ∨
              var = "@LR_DECAY_COUNTER@") → t.holder_ = some (base + (i - 1))) ∧
          (¬ (member_.use_all_reduce_ = true ∨ member_.use_cuda_ = true ∨
              var = "@LR_DECAY_COUNTER@") →
            t.holder_ = main_tensor.holder_ ∧ t.offset_ = main_tensor.offset_) := by
  obtain ⟨l1, l2, hsplit⟩ := List.append_of_mem hvar
  subst hsplit
  have hnd := List.nodup_append.mp hvars
  have hl1 : var ∉ l1 := fun h => hnd.2.2 h (List.mem_cons_self _ _)
  have hl2 : var ∉ l2 := (List.nodup_cons.mp hnd.2.1).1
  obtain ⟨hok1, happ⟩ := BCastParamsToDevices_append with_cuda member_ l1 (var :: l2) w hok
  rw [happ] at hok ⊢
  obtain ⟨F1, G1⟩ := BCastParamsToDevices_frame with_cuda member_ var l1 hl1 w
  generalize (BCastParamsToDevices with_cuda member_ l1 w).state = w1 at hok F1 G1 ⊢
  have hblt : b < w.memory.length := by
    by_contra hc
    rw [List.getElem?_eq_none (by omega)] at halloc
    exact Option.noConfusion halloc
  have hmain1 : FindVar w1.scopes (member_.local_scopes_.getD 0 0) var =
      some (Variable.OfLoDTensor main_tensor) := by
    rw [FindVar_frame F1 _ var (fun _ _ => rfl)]
    exact hmain
  have halloc1 : w1.memory[b]? = some alloc := by
    rw [G1.2 b hblt]
    exact halloc
  have hhostvar := bcastVar_host with_cuda member_ var w1 main_tensor b alloc hmain1 hholder
    halloc1 hhost
  obtain ⟨Fv, Gv⟩ := bcastVar_frame with_cuda member_ var w1
  simp only [BCastParamsToDevices] at hok ⊢
  rw [hhostvar] at hok Fv Gv ⊢
  simp only at hok Fv Gv ⊢
  obtain ⟨F2, G2⟩ := BCastParamsToDevices_frame with_cuda member_ var l2 hl2
    ((List.range' 1 (member_.places_.length - 1)).foldl
      (bcastHostDevice member_ var main_tensor) w1)
  have hvalid1 : ∀ p ∈ member_.local_scopes_, p < w1.scopes.length := by
    intro p hp
    rw [F1.1]
    exact hvalid p hp
  have Gall := (G1.grows_trans Gv).grows_trans G2
  refine ⟨?_, contents_of_grows _ _ Gall main_tensor b hholder hblt, w1.memory.length, G1.1, ?_⟩
  · rw [FindVar_frame F2 _ var (fun _ _ => rfl), FindVar_frame Fv _ var ?_]
    · exact hmain1
    · intro q hq
      right
      intro i hi1 hi2 e
      rw [scopeChain_frame F1] at hq
      apply halias q _ hq
      rw [e, List.getD_eq_getElem _ 0 (by omega)]
      have hi3 : i - 1 < (member_.local_scopes_.drop 1).length := by
        rw [List.length_drop]
        omega
      have : (member_.local_scopes_.drop 1)[i - 1]? = member_.local_scopes_[i]? := by
        rw [List.getElem?_drop]
        congr 1
        omega
      have hget : member_.local_scopes_[i]? = some (member_.local_scopes_.get ⟨i, by omega⟩) :=
        List.getElem?_eq_getElem (by omega)
      rw [hget] at this
      exact List.getElem?_mem this
  · intro i hi1 hi2
    have hidx : 1 + (member_.places_.length - 1) ≤ member_.local_scopes_.length := by omega
    have hb1 : b < w1.memory.length := Nat.lt_of_lt_of_le hblt G1.1
    by_cases hdeep : (member_.use_all_reduce_ || member_.use_cuda_ ||
        decide (var = "@LR_DECAY_COUNTER@")) = true
    · have hdeep2 : member_.use_all_reduce_ = true ∨ member_.use_cuda_ = true ∨
          var = "@LR_DECAY_COUNTER@" := by
        simpa [Bool.or_eq_true, or_assoc] using hdeep
      obtain ⟨c1, c2⟩ := host_fold_copy member_ var main_tensor b hdeep hnodup hholder
        (member_.places_.length - 1) 1 w1 hidx hvalid1 hb1
      obtain ⟨t, d1, d2, d3, d4, d5, d6⟩ := c2 i hi1 (by omega)
      refine ⟨t, ?_, d2, d3, ?_, fun _ => d4, fun h => absurd hdeep2 h⟩
      · rw [F2.2.2 _ var rfl]
        exact d1
      · have hm : (BCastParamsToDevices with_cuda member_ l2
            ((List.range' 1 (member_.places_.length - 1)).foldl
              (bcastHostDevice member_ var main_tensor) w1)).state.memory[
              w1.memory.length + (i - 1)]? =
            some { place := Place.CPUPlace, data := main_tensor.contents w1.memory } := by
          rw [G2.2 _ (by rw [c1]; omega)]
          exact d6
        rw [contents_of_alloc _ t main_tensor _ Place.CPUPlace w1.memory d4 d5 d2 hm]
        exact contents_of_grows _ _ G1 main_tensor b hholder hblt
    · have hdeep2 : ¬ (member_.use_all_reduce_ = true ∨ member_.use_cuda_ = true ∨
          var = "@LR_DECAY_COUNTER@") := by
        intro h
        apply hdeep
        simpa [Bool.or_eq_true, or_assoc] using h
      obtain ⟨c1, c2⟩ := host_fold_share member_ var main_tensor hdeep hnodup
        (member_.places_.length - 1) 1 w1 hidx hvalid1
      obtain ⟨t, d1, d2, d3, d4, d5⟩ := c2 i hi1 (by omega)
      refine ⟨t, ?_, d2, d3, ?_, fun h => absurd h hdeep2, fun _ => ⟨d4, d5⟩⟩
      · rw [F2.2.2 _ var rfl]
        exact d1
      · rw [contents_eq_of_same_view _ t main_tensor d4 d5 d2]
        exact contents_of_grows _ _ Gall main_tensor b hholder hblt
/-- Witness of claim C8: a reduce-strategy coordinator on three host devices
broadcasts the learning-rate counter, which is copied although the strategy
alone would share it. -/
theorem BCastParamsToDevices_host_witness :
    FindVar (BCastParamsToDevices false owningMember exampleBcastVars ownedWorld).state.scopes
        (owningMember.local_scopes_.getD 0 0) "@LR_DECAY_COUNTER@"
      = some (Variable.OfLoDTensor counterTensor) ∧
    counterTensor.contents
        (BCastParamsToDevices false owningMember exampleBcastVars ownedWorld).state.memory
      = counterTensor.contents ownedWorld.memory ∧
    ∃ base, ownedWorld.memory.length ≤ base ∧
      ∀ i, 1 ≤ i → i < owningMember.places_.length →
        ∃ t, FindVarLocally
            (BCastParamsToDevices false owningMember exampleBcastVars ownedWorld).state.scopes
            (owningMember.local_scopes_.getD i 0) "@LR_DECAY_COUNTER@"
            = some (Variable.OfLoDTensor t) ∧
          t.dims_ = counterTensor.dims_ ∧ t.type_ = counterTensor.type_ ∧
          t.contents
              (BCastParamsToDevices false owningMember exampleBcastVars ownedWorld).state.memory
            = counterTensor.contents ownedWorld.memory ∧
          ((owningMember.use_all_reduce_ = true ∨ owningMember.use_cuda_ = true ∨
              "@LR_DECAY_COUNTER@" = "@LR_DECAY_COUNTER@") →
            t.holder_ = some (base + (i - 1))) ∧
          (¬ (owningMember.use_all_reduce_ = true ∨ owningMember.use_cuda_ = true ∨
              "@LR_DECAY_COUNTER@" = "@LR_DECAY_COUNTER@") →
            t.holder_ = counterTensor.holder_ ∧ t.offset_ = counterTensor.offset_) :=
  BCastParamsToDevices_host false owningMember exampleBcastVars "@LR_DECAY_COUNTER@" ownedWorld
    counterTensor 1 { place := Place.CPUPlace, data := [1, 2] }
    (by decide) (by decide) (by decide) (by decide) (by decide) (by decide) (by decide)
    (by decide) (by decide) (by decide) (by decide)

theorem exampleBroadcast_result :
    (BCastParamsToDevices false owningMember exampleBcastVars ownedWorld).state.memory =
      [ { place := Place.CPUPlace, data := [7, 8] }, { place := Place.CPUPlace, data := [1, 2] },
        { place := Place.CPUPlace, data := [2] }, { place := Place.CPUPlace, data := [2] } ] ∧
    FindVarLocally (BCastParamsToDevices false owningMember exampleBcastVars ownedWorld).state.scopes
        2 "@LR_DECAY_COUNTER@" = some (Variable.OfLoDTensor
          { dims_ := [1], type_ := 3, holder_ := some 3, offset_ := 0, lod_ := [] }) ∧
    FindVarLocally (BCastParamsToDevices false owningMember exampleBcastVars ownedWorld).state.scopes
        2 "w" = some (Variable.OfLoDTensor
          { dims_ := [2], type_ := 5, holder_ := some 0, offset_ := 0, lod_ := [] }) := by
  decide
/-! ### The constructor: graphs and executor -/

theorem length_buildPerDeviceGraphs (env : Env) (member_ : ParallelExecutorPrivate)
    (bs : BuildStrategy) (main_program : ProgramDesc) (loss_var_name : String) (n i : Nat) :
    (buildPerDeviceGraphs env member_ bs main_program loss_var_name n i).length = n := by
  induction n generalizing i with
  | zero => rfl
  | succ n ih => simp [buildPerDeviceGraphs, ih]

theorem length_buildGraphs (env : Env) (member_ : ParallelExecutorPrivate)
    (bs : BuildStrategy) (main_program : ProgramDesc) (loss_var_name : String) :
    (buildGraphs env member_ bs main_program loss_var_name).length =
      if env.ncclBuild = true ∧ bs.enable_parallel_graph_ = true then member_.places_.length
      else 1 := by
  unfold buildGraphs
  cases env.ncclBuild <;> cases bs.enable_parallel_graph_ <;>
    simp [length_buildPerDeviceGraphs]

theorem PrepareGCAndRefCnts_places (env : Env) (member_ : ParallelExecutorPrivate)
    (graph : Graph) (max_memory_size : Nat) :
    (PrepareGCAndRefCnts env member_ graph max_memory_size).state.1.places_
      = member_.places_ := by
  unfold PrepareGCAndRefCnts
  simp only
  split
  · rfl
  · unfold applyGCPasses
    simp only
    split <;> rfl

theorem prepareGraphs_length (env : Env) (max_memory_size : Nat) (graphs : List Graph)
    (member_ : ParallelExecutorPrivate) (done : List Graph) :
    (prepareGraphs env max_memory_size graphs member_ done).state.2.length
      = done.length + graphs.length := by
  induction graphs generalizing member_ done with
  | nil => simp [prepareGraphs]
  | cons g rest ih =>
    simp only [prepareGraphs]
    split
    · simp
    · rw [ih]
      simp
      omega

theorem ctorFinish_spec (env : Env) (member_ : ParallelExecutorPrivate) (w : World)
    (bs : BuildStrategy) (main_program : ProgramDesc) (loss_var_name : String)
    (exec_strategy : ExecutionStrategy)
    (hok : (ctorFinish env member_ w bs main_program loss_var_name exec_strategy).error = none) :
    (ctorFinish env member_ w bs main_program loss_var_name exec_strategy).build_strategy = bs ∧
    (ctorFinish env member_ w bs main_program loss_var_name exec_strategy).graphs.length =
      (buildGraphs env member_ bs main_program loss_var_name).length ∧
    ∃ var_infos,
      (ctorFinish env member_ w bs main_program loss_var_name exec_strategy).member_.executor_ =
        some (SSAGraphExecutor.ScopeBufferedSSAGraphExecutor var_infos
          (selectExecutor bs exec_strategy
            (ctorFinish env member_ w bs main_program loss_var_name exec_strategy).graphs)) := by
  have hlen : (prepareAll env member_
      (buildGraphs env member_ bs main_program loss_var_name)).state.2.length =
      (buildGraphs env member_ bs main_program loss_var_name).length := by
    unfold prepareAll
    by_cases hth : env.GetEagerDeletionThreshold ≥ 0
    · rw [if_pos hth, prepareGraphs_length]
      simp
    · rw [if_neg hth]
  cases h : (prepareAll env member_
      (buildGraphs env member_ bs main_program loss_var_name)).error with
  | some e =>
    simp [ctorFinish, h] at hok
  | none =>
    simp only [ctorFinish, h]
    exact ⟨trivial, hlen, _, rfl⟩
theorem EnableParallelGraphExecution_use_cuda (flag : Bool) (member_ : ParallelExecutorPrivate)
    (main_program : ProgramDesc) (exec_strategy : ExecutionStrategy)
    (build_strategy : BuildStrategy)
    (h : EnableParallelGraphExecution flag member_ main_program exec_strategy build_strategy
      = true) : member_.use_cuda_ = true := by
  unfold EnableParallelGraphExecution at h
  cases hc : member_.use_cuda_ with
  | true => rfl
  | false =>
    cases flag <;> simp [hc] at h

theorem ctorValidateAndCreateScopes_fields (num_trainers : Nat) (places : List Place)
    (scope : Nat) (local_scopes : List Nat) (exec_strategy : ExecutionStrategy)
    (build_strategy : BuildStrategy) (scopes : List Scope) :
    (ctorValidateAndCreateScopes num_trainers places scope local_scopes exec_strategy
        build_strategy scopes).state.1.places_ = places ∧
    (ctorValidateAndCreateScopes num_trainers places scope local_scopes exec_strategy
        build_strategy scopes).state.1.use_cuda_ = exec_strategy.use_cuda_ := by
  unfold ctorValidateAndCreateScopes ctorLocalScopes
  simp only [ctorInit]
  split
  · exact ⟨rfl, rfl⟩
  · split
    · exact ⟨rfl, rfl⟩
    · split <;> exact ⟨rfl, rfl⟩

theorem selectExecutor_parallel (bs : BuildStrategy) (exec_strategy : ExecutionStrategy)
    (graphs : List Graph) :
    (∃ gs, selectExecutor bs exec_strategy graphs = SSAGraphExecutor.ParallelSSAGraphExecutor gs)
      ↔ bs.enable_parallel_graph_ = true := by
  unfold selectExecutor
  cases bs.enable_parallel_graph_ with
  | true => simp
  | false =>
    by_cases h : exec_strategy.type_ = ExecutorType.kDefault <;> simp [h]

theorem ctorNccl_fields (env : Env) (m1 : ParallelExecutorPrivate) (scopes : List Scope)
    (scope : Nat) (bs : BuildStrategy) :
    (ctorNccl env m1 scopes scope bs).places_ = m1.places_ := by
  unfold ctorNccl
  split <;> rfl

theorem ctorAfterDecision_spec (env : Env) (m1 : ParallelExecutorPrivate) (w1 : World)
    (bcast_vars : List String) (main_program : ProgramDesc) (loss_var_name : String)
    (scope : Nat) (local_scopes : List Nat) (exec_strategy : ExecutionStrategy)
    (bs : BuildStrategy)
    (hcuda : bs.enable_parallel_graph_ = true → m1.use_cuda_ = true)
    (hok : (ctorAfterDecision env m1 w1 bcast_vars main_program loss_var_name scope
      local_scopes exec_strategy bs).error = none) :
    (ctorAfterDecision env m1 w1 bcast_vars main_program loss_var_name scope local_scopes
        exec_strategy bs).build_strategy = bs ∧
    (ctorAfterDecision env m1 w1 bcast_vars main_program loss_var_name scope local_scopes
        exec_strategy bs).graphs.length =
      (if bs.enable_parallel_graph_ = true then m1.places_.length else 1) ∧
    ∃ var_infos,
      (ctorAfterDecision env m1 w1 bcast_vars main_program loss_var_name scope local_scopes
          exec_strategy bs).member_.executor_ =
        some (SSAGraphExecutor.ScopeBufferedSSAGraphExecutor var_infos
          (selectExecutor bs exec_strategy
            (ctorAfterDecision env m1 w1 bcast_vars main_program loss_var_name scope
              local_scopes exec_strategy bs).graphs)) := by
  unfold ctorAfterDecision at hok ⊢
  simp only at hok ⊢
  by_cases h2 : (m1.use_cuda_ && !env.ncclBuild) = true
  · rw [if_pos h2] at hok
    exact Option.noConfusion hok
  · rw [if_neg h2] at hok ⊢
    cases hb : (ctorBroadcast env (ctorNccl env m1 w1.scopes scope bs) local_scopes bcast_vars
        w1).error with
    | some e =>
      rw [hb] at hok
      exact Option.noConfusion hok
    | none =>
      simp only [hb] at hok ⊢
      obtain ⟨f1, f2, v, f3⟩ := ctorFinish_spec _ _ _ _ _ _ _ hok
      refine ⟨f1, ?_, v, f3⟩
      rw [f2, length_buildGraphs, ctorNccl_fields]
      by_cases he : bs.enable_parallel_graph_ = true
      · have hc := hcuda he
        have hn : env.ncclBuild = true := by
          cases hnb : env.ncclBuild with
          | true => rfl
          | false => simp [hc, hnb] at h2
        simp [he, hn]
      · simp [he]

theorem ctorAfterScopes_spec (env : Env) (m1 : ParallelExecutorPrivate) (w1 : World)
    (bcast_vars : List String) (main_program : ProgramDesc) (loss_var_name : String)
    (scope : Nat) (local_scopes : List Nat) (exec_strategy : ExecutionStrategy)
    (build_strategy : BuildStrategy)
    (hok : (ctorAfterScopes env m1 w1 bcast_vars main_program loss_var_name scope local_scopes
      exec_strategy build_strategy).error = none) :
    (ctorAfterScopes env m1 w1 bcast_vars main_program loss_var_name scope local_scopes
        exec_strategy build_strategy).build_strategy.enable_parallel_graph_ =
      EnableParallelGraphExecution env.FLAGS_enable_parallel_graph m1 main_program
        exec_strategy build_strategy ∧
    (ctorAfterScopes env m1 w1 bcast_vars main_program loss_var_name scope local_scopes
        exec_strategy build_strategy).graphs.length =
      (if (ctorAfterScopes env m1 w1 bcast_vars main_program loss_var_name scope local_scopes
          exec_strategy build_strategy).build_strategy.enable_parallel_graph_ = true
        then m1.places_.length else 1) ∧
    ∃ var_infos,
      (ctorAfterScopes env m1 w1 bcast_vars main_program loss_var_name scope local_scopes
          exec_strategy build_strategy).member_.executor_ =
        some (SSAGraphExecutor.ScopeBufferedSSAGraphExecutor var_infos
          (selectExecutor
            (ctorAfterScopes env m1 w1 bcast_vars main_program loss_var_name scope local_scopes
              exec_strategy build_strategy).build_strategy exec_strategy
            (ctorAfterScopes env m1 w1 bcast_vars main_program loss_var_name scope local_scopes
              exec_strategy build_strategy).graphs)) := by
  unfold ctorAfterScopes at hok ⊢
  obtain ⟨f1, f2, v, f3⟩ := ctorAfterDecision_spec env m1 w1 bcast_vars main_program
    loss_var_name scope local_scopes exec_strategy _
    (fun he => EnableParallelGraphExecution_use_cuda _ _ _ _ _ he) hok
  rw [f1]
  exact ⟨rfl, f2, v, f3⟩

/-- Claim C4. Whenever the constructor returns normally: the value it assigned
to `enable_parallel_graph_` is the one EnableParallelGraphExecution returned;
the executor it leaves is the scope-buffering executor wrapped around an
executor that is the parallel one if and only if that value is true; when it
is true, the parallel executor holds the graphs built and there is one graph
per device; when it is false, exactly one graph was built and it is held by the
threaded executor if the executor kind is default and by the fast executor for
every other kind. -/
theorem ctor_executor_selection (env : Env) (places : List Place) (bcast_vars : List String)
    (main_program : ProgramDesc) (loss_var_name : String) (scope : Nat)
    (local_scopes : List Nat) (exec_strategy : ExecutionStrategy)
    (build_strategy : BuildStrategy) (w : World)
    (hok : (ParallelExecutor.ctor env places bcast_vars main_program loss_var_name scope
      local_scopes exec_strategy build_strategy w).error = none) :
    (ParallelExecutor.ctor env places bcast_vars main_program loss_var_name scope
        local_scopes exec_strategy build_strategy w).build_strategy.enable_parallel_graph_ =
      EnableParallelGraphExecution env.FLAGS_enable_parallel_graph
        (ctorValidateAndCreateScopes env.num_trainers places scope local_scopes exec_strategy
          build_strategy w.scopes).state.1 main_program exec_strategy build_strategy ∧
    ∃ var_infos inner,
      (ParallelExecutor.ctor env places bcast_vars main_program loss_var_name scope
          local_scopes exec_strategy build_strategy w).member_.executor_ =
        some (SSAGraphExecutor.ScopeBufferedSSAGraphExecutor var_infos inner) ∧
      ((∃ gs, inner = SSAGraphExecutor.ParallelSSAGraphExecutor gs) ↔
        (ParallelExecutor.ctor env places bcast_vars main_program loss_var_name scope
          local_scopes exec_strategy build_strategy w).build_strategy.enable_parallel_graph_
          = true) ∧
      ((ParallelExecutor.ctor env places bcast_vars main_program loss_var_name scope
          local_scopes exec_strategy build_strategy w).build_strategy.enable_parallel_graph_
          = true →
        inner = SSAGraphExecutor.ParallelSSAGraphExecutor
          (ParallelExecutor.ctor env places bcast_vars main_program loss_var_name scope
            local_scopes exec_strategy build_strategy w).graphs ∧
        (ParallelExecutor.ctor env places bcast_vars main_program loss_var_name scope
          local_scopes exec_strategy build_strategy w).graphs.length = places.length) ∧
      ((ParallelExecutor.ctor env places bcast_vars main_program loss_var_name scope
          local_scopes exec_strategy build_strategy w).build_strategy.enable_parallel_graph_
          = false →
        ∃ graph,
          (ParallelExecutor.ctor env places bcast_vars main_program loss_var_name scope
            local_scopes exec_strategy build_strategy w).graphs = [graph] ∧
          (exec_strategy.type_ = ExecutorType.kDefault →
            inner = SSAGraphExecutor.ThreadedSSAGraphExecutor graph) ∧
          (exec_strategy.type_ ≠ ExecutorType.kDefault →
            inner = SSAGraphExecutor.FastThreadedSSAGraphExecutor graph)) := by
  obtain ⟨hplaces, _⟩ := ctorValidateAndCreateScopes_fields env.num_trainers places scope
    local_scopes exec_strategy build_strategy w.scopes
  unfold ParallelExecutor.ctor at hok ⊢
  simp only at hok ⊢
  cases h1 : (ctorValidateAndCreateScopes env.num_trainers places scope local_scopes
      exec_strategy build_strategy w.scopes).error with
  | some e =>
    rw [h1] at hok
    exact Option.noConfusion hok
  | none =>
    rw [h1] at hok
    simp only [h1] at hok ⊢
    obtain ⟨a1, a2, v, a3⟩ := ctorAfterScopes_spec _ _ _ _ _ _ _ _ _ _ hok
    rw [hplaces] at a2
    refine ⟨a1, v, _, a3, selectExecutor_parallel _ _ _, ?_, ?_⟩
    · intro he
      rw [if_pos he] at a2
      refine ⟨?_, a2⟩
      simp [selectExecutor, he]
    · intro he
      rw [if_neg (by simp [he])] at a2
      obtain ⟨graph, hg⟩ := List.length_eq_one.mp a2
      refine ⟨graph, hg, ?_, ?_⟩
      · intro hk
        simp [selectExecutor, he, hk, hg]
      · intro hk
        simp [selectExecutor, he, hk, hg]
/-- Witness of claim C4: construction over two accelerators in a build with
NCCL, with the parallel-graph flag set. -/
theorem ctor_executor_selection_witness :
    (ParallelExecutor.ctor cudaEnv [Place.CUDAPlace 0, Place.CUDAPlace 1] ["w"] denseProgram
        "loss" 0 [] cudaDefaultExec blankMember.build_strategy_ globalOnlyWorld).error = none ∧
    (ParallelExecutor.ctor cudaEnv [Place.CUDAPlace 0, Place.CUDAPlace 1] ["w"] denseProgram
        "loss" 0 [] cudaDefaultExec blankMember.build_strategy_
        globalOnlyWorld).build_strategy.enable_parallel_graph_ =
      EnableParallelGraphExecution cudaEnv.FLAGS_enable_parallel_graph
        (ctorValidateAndCreateScopes cudaEnv.num_trainers [Place.CUDAPlace 0, Place.CUDAPlace 1]
          0 [] cudaDefaultExec blankMember.build_strategy_ globalOnlyWorld.scopes).state.1
        denseProgram cudaDefaultExec blankMember.build_strategy_ ∧
    ∃ var_infos inner,
      (ParallelExecutor.ctor cudaEnv [Place.CUDAPlace 0, Place.CUDAPlace 1] ["w"] denseProgram
          "loss" 0 [] cudaDefaultExec blankMember.build_strategy_
          globalOnlyWorld).member_.executor_ =
        some (SSAGraphExecutor.ScopeBufferedSSAGraphExecutor var_infos inner) ∧
      ((∃ gs, inner = SSAGraphExecutor.ParallelSSAGraphExecutor gs) ↔
        (ParallelExecutor.ctor cudaEnv [Place.CUDAPlace 0, Place.CUDAPlace 1] ["w"]
          denseProgram "loss" 0 [] cudaDefaultExec blankMember.build_strategy_
          globalOnlyWorld).build_strategy.enable_parallel_graph_ = true) := by
  obtain ⟨h1, v, inner, h2, h3, _, _⟩ :=
    ctor_executor_selection cudaEnv [Place.CUDAPlace 0, Place.CUDAPlace 1] ["w"] denseProgram
      "loss" 0 [] cudaDefaultExec blankMember.build_strategy_ globalOnlyWorld (by decide)
  exact ⟨by decide, h1, v, inner, h2, h3⟩

theorem cudaExample_construction :
    (ParallelExecutor.ctor cudaEnv [Place.CUDAPlace 0, Place.CUDAPlace 1] ["w"] denseProgram
        "loss" 0 [] cudaDefaultExec blankMember.build_strategy_
        globalOnlyWorld).build_strategy.enable_parallel_graph_ = true ∧
    (ParallelExecutor.ctor cudaEnv [Place.CUDAPlace 0, Place.CUDAPlace 1] ["w"] denseProgram
        "loss" 0 [] cudaDefaultExec blankMember.build_strategy_
        globalOnlyWorld).graphs.length = 2 ∧
    (ParallelExecutor.ctor cudaEnv [Place.CUDAPlace 0, Place.CUDAPlace 1] ["w"] denseProgram
        "loss" 0 [] cudaDefaultExec blankMember.build_strategy_
        globalOnlyWorld).member_.local_scopes_ = [0, 1] ∧
    (ParallelExecutor.ctor cudaEnv [Place.CUDAPlace 0, Place.CUDAPlace 1] ["w"] denseProgram
        "loss" 0 [] cudaDefaultExec blankMember.build_strategy_
        globalOnlyWorld).member_.gcs_ =
      [(Place.CUDAPlace 0, GarbageCollector.StreamGarbageCollector 0 0),
       (Place.CUDAPlace 1, GarbageCollector.StreamGarbageCollector 1 0)] := by
  decide
/-! ### EnableParallelGraphExecution: one condition at a time -/

theorem decision_eq_all (x : AdmissibilityInputs) :
    x.decision = x.conditions.all id := by
  unfold AdmissibilityInputs.decision AdmissibilityInputs.conditions
    EnableParallelGraphExecution
  have hs := sparseVarLoop_eq_true (x.main_program.Block 0).AllVars true
  have hr := sendRecvLoop_eq_true (x.main_program.Block 0).AllOps
    (sparseVarLoop (x.main_program.Block 0).AllVars true)
  rw [Bool.eq_iff_iff]
  cases hflag : x.FLAGS_enable_parallel_graph <;>
  cases hseq : x.build_strategy.enable_sequential_execution_ <;>
  cases har : x.member_.use_all_reduce_ <;>
  cases hcu : x.member_.use_cuda_ <;>
  by_cases hex : x.exec_strategy.type_ = ExecutorType.kExperimental <;>
  simp [hex, hr, hs]

set_option maxHeartbeats 4000000 in
theorem flip_one_of_seven (a0 a1 a2 a3 a4 a5 a6 b0 b1 b2 b3 b4 b5 b6 : Bool) (k : Nat)
    (hk : k < 7)
    (hdiff : [a0, a1, a2, a3, a4, a5, a6].getD k false ≠ [b0, b1, b2, b3, b4, b5, b6].getD k false)
    (hsame : ∀ j, j < 7 → j ≠ k →
      [a0, a1, a2, a3, a4, a5, a6].getD j false = [b0, b1, b2, b3, b4, b5, b6].getD j false) :
    ([a0, a1, a2, a3, a4, a5, a6].all id ≠ [b0, b1, b2, b3, b4, b5, b6].all id ↔
      ∀ j, j < 7 → j ≠ k → [a0, a1, a2, a3, a4, a5, a6].getD j false = true) ∧
    ((∃ j, j < 7 ∧ j ≠ k ∧ [a0, a1, a2, a3, a4, a5, a6].getD j false = false) →
      [a0, a1, a2, a3, a4, a5, a6].all id = false ∧
      [b0, b1, b2, b3, b4, b5, b6].all id = false) := by
  have h0 := hsame 0 (by omega)
  have h1 := hsame 1 (by omega)
  have h2 := hsame 2 (by omega)
  have h3 := hsame 3 (by omega)
  have h4 := hsame 4 (by omega)
  have h5 := hsame 5 (by omega)
  have h6 := hsame 6 (by omega)
  simp only [List.getD_cons_zero, List.getD_cons_succ] at h0 h1 h2 h3 h4 h5 h6
  clear hsame
  interval_cases k
  · have e1 := h1 (by decide); have e2 := h2 (by decide); have e3 := h3 (by decide)
    have e4 := h4 (by decide); have e5 := h5 (by decide); have e6 := h6 (by decide)
    subst e1 e2 e3 e4 e5 e6
    clear h0 h1 h2 h3 h4 h5 h6
    revert hdiff
    cases a0 <;> cases b0 <;> cases a1 <;> cases a2 <;> cases a3 <;> cases a4 <;> cases a5 <;> cases a6 <;>
      decide
  · have e0 := h0 (by decide); have e2 := h2 (by decide); have e3 := h3 (by decide)
    have e4 := h4 (by decide); have e5 := h5 (by decide); have e6 := h6 (by decide)
    subst e0 e2 e3 e4 e5 e6
    clear h0 h1 h2 h3 h4 h5 h6
    revert hdiff
    cases a1 <;> cases b1 <;> cases a0 <;> cases a2 <;> cases a3 <;> cases a4 <;> cases a5 <;> cases a6 <;>
      decide
  · have e0 := h0 (by decide); have e1 := h1 (by decide); have e3 := h3 (by decide)
    have e4 := h4 (by decide); have e5 := h5 (by decide); have e6 := h6 (by decide)
    subst e0 e1 e3 e4 e5 e6
    clear h0 h1 h2 h3 h4 h5 h6
    revert hdiff
    cases a2 <;> cases b2 <;> cases a0 <;> cases a1 <;> cases a3 <;> cases a4 <;> cases a5 <;> cases a6 <;>
      decide
  · have e0 := h0 (by decide); have e1 := h1 (by decide); have e2 := h2 (by decide)
    have e4 := h4 (by decide); have e5 := h5 (by decide); have e6 := h6 (by decide)
    subst e0 e1 e2 e4 e5 e6
    clear h0 h1 h2 h3 h4 h5 h6
    revert hdiff
    cases a3 <;> cases b3 <;> cases a0 <;> cases a1 <;> cases a2 <;> cases a4 <;> cases a5 <;> cases a6 <;>
      decide
  · have e0 := h0 (by decide); have e1 := h1 (by decide); have e2 := h2 (by decide)
    have e3 := h3 (by decide); have e5 := h5 (by decide); have e6 := h6 (by decide)
    subst e0 e1 e2 e3 e5 e6
    clear h0 h1 h2 h3 h4 h5 h6
    revert hdiff
    cases a4 <;> cases b4 <;> cases a0 <;> cases a1 <;> cases a2 <;> cases a3 <;> cases a5 <;> cases a6 <;>
      decide
  · have e0 := h0 (by decide); have e1 := h1 (by decide); have e2 := h2 (by decide)
    have e3 := h3 (by decide); have e4 := h4 (by decide); have e6 := h6 (by decide)
    subst e0 e1 e2 e3 e4 e6
    clear h0 h1 h2 h3 h4 h5 h6
    revert hdiff
    cases a5 <;> cases b5 <;> cases a0 <;> cases a1 <;> cases a2 <;> cases a3 <;> cases a4 <;> cases a6 <;>
      decide
  · have e0 := h0 (by decide); have e1 := h1 (by decide); have e2 := h2 (by decide)
    have e3 := h3 (by decide); have e4 := h4 (by decide); have e5 := h5 (by decide)
    subst e0 e1 e2 e3 e4 e5
    clear h0 h1 h2 h3 h4 h5 h6
    revert hdiff
    cases a6 <;> cases b6 <;> cases a0 <;> cases a1 <;> cases a2 <;> cases a3 <;> cases a4 <;> cases a5 <;>
      decide
/-- Claim C11, as stated, fails: with the flag unset and every other input
fixed, putting a SELECTED_ROWS variable into block 0 of the program changes the
sparse-variable condition and no other, and the result of
EnableParallelGraphExecution is false before and after. -/
theorem one_condition_flip_counterexample :
    ¬ ((flagUnsetInputs.conditions.getD 1 false ≠ flagUnsetSparseInputs.conditions.getD 1 false ∧
        ∀ j, j < 7 → j ≠ 1 →
          flagUnsetInputs.conditions.getD j false = flagUnsetSparseInputs.conditions.getD j false) →
      flagUnsetInputs.decision ≠ flagUnsetSparseInputs.decision) := by
  decide

/-- Claim C11, amended. The result of EnableParallelGraphExecution is the
conjunction of its seven conditions.  For two assignments of the inputs that
differ in exactly one condition k and agree on the other six: the results
differ if and only if the other six conditions are all at their qualifying
values; when one of the other six is at its disqualifying value, the result is
false for both assignments. -/
theorem one_condition_flip (x y : AdmissibilityInputs) (k : Nat) (hk : k < 7)
    (hdiff : x.conditions.getD k false ≠ y.conditions.getD k false)
    (hsame : ∀ j, j < 7 → j ≠ k → x.conditions.getD j false = y.conditions.getD j false) :
    x.decision = x.conditions.all id ∧
    (x.decision ≠ y.decision ↔ ∀ j, j < 7 → j ≠ k → x.conditions.getD j false = true) ∧
    ((∃ j, j < 7 ∧ j ≠ k ∧ x.conditions.getD j false = false) →
      x.decision = false ∧ y.decision = false) := by
  refine ⟨decision_eq_all x, ?_⟩
  rw [decision_eq_all x, decision_eq_all y]
  unfold AdmissibilityInputs.conditions at hdiff hsame ⊢
  exact flip_one_of_seven _ _ _ _ _ _ _ _ _ _ _ _ _ _ k hk hdiff hsame

/-- Witness of claim C11 (amended): with the other six conditions qualifying,
a SELECTED_ROWS variable in block 0 changes the result. -/
theorem one_condition_flip_witness :
    (1 < 7 ∧
     admissibleInputs.conditions.getD 1 false ≠ admissibleSparseInputs.conditions.getD 1 false ∧
     ∀ j, j < 7 → j ≠ 1 →
       admissibleInputs.conditions.getD j false = admissibleSparseInputs.conditions.getD j false) ∧
    (admissibleInputs.decision = admissibleInputs.conditions.all id ∧
     (admissibleInputs.decision ≠ admissibleSparseInputs.decision ↔
       ∀ j, j < 7 → j ≠ 1 → admissibleInputs.conditions.getD j false = true) ∧
     ((∃ j, j < 7 ∧ j ≠ 1 ∧ admissibleInputs.conditions.getD j false = false) →
       admissibleInputs.decision = false ∧ admissibleSparseInputs.decision = false)) :=
  ⟨⟨by decide, by decide, by decide⟩,
   one_condition_flip admissibleInputs admissibleSparseInputs 1 (by decide) (by decide)
     (by decide)⟩

theorem admissible_examples :
    admissibleInputs.decision = true ∧ admissibleSparseInputs.decision = false ∧
    flagUnsetInputs.decision = false ∧ flagUnsetSparseInputs.decision = false := by
  decide
/-! ### FeedAndSplitTensorIntoLocalScopes: what a failing call leaves -/

theorem SameTree_refl (sc : List Scope) : SameTree sc sc := ⟨rfl, fun _ => rfl⟩

theorem SameTree_trans {sc1 sc2 sc3 : List Scope} (h12 : SameTree sc1 sc2)
    (h23 : SameTree sc2 sc3) : SameTree sc1 sc3 :=
  ⟨h23.1.trans h12.1, fun q => (h23.2 q).trans (h12.2 q)⟩

theorem SameTree_updateLocalTensor (scopes : List Scope) (p : Nat) (name : String)
    (f : LoDTensor → LoDTensor) : SameTree scopes (updateLocalTensor scopes p name f) := by
  refine ⟨length_updateLocalTensor _ _ _ _, ?_⟩
  intro q
  unfold updateLocalTensor
  rw [getElem?_updateScope]
  by_cases e : q = p
  · subst e
    cases scopes[q]? <;> simp
  · simp [e]

theorem feedShards_spec (ls : List Nat) (name : String) (shards : List LoDTensor)
    (n j : Nat) (scopes : List Scope) :
    SameTree scopes (feedShards ls name shards n j scopes) ∧
    (∀ q key, (key ≠ name ∨ ∀ i, j ≤ i → i < j + n → q ≠ ls.getD i 0) →
      FindVarLocally (feedShards ls name shards n j scopes) q key =
        FindVarLocally scopes q key) ∧
    (ls.Nodup → (∀ p ∈ ls, p < scopes.length) → j + n ≤ ls.length →
      ∀ i, j ≤ i → i < j + n →
        FindVarLocally (feedShards ls name shards n j scopes) (ls.getD i 0) name =
          some (Variable.OfLoDTensor (shards.getD i LoDTensor.empty))) := by
  induction n generalizing j scopes with
  | zero =>
    refine ⟨SameTree_refl _, fun _ _ _ => rfl, ?_⟩
    intro _ _ _ i h1 h2
    omega
  | succ n ih =>
    simp only [feedShards]
    obtain ⟨t1, f1, b1⟩ := ih (j + 1)
      (updateLocalTensor scopes (ls.getD j 0) name
        (fun t => (t.ShareDataWith (shards.getD j LoDTensor.empty)).set_lod
          (shards.getD j LoDTensor.empty).lod_))
    refine ⟨SameTree_trans (SameTree_updateLocalTensor _ _ _ _) t1, ?_, ?_⟩
    · intro q key hk
      rw [f1 q key (by
        rcases hk with hk | hk
        · exact Or.inl hk
        · exact Or.inr (fun i h1 h2 => hk i (by omega) (by omega)))]
      apply FindVarLocally_updateLocalTensor_other
      rcases hk with hk | hk
      · exact Or.inr hk
      · exact Or.inl (hk j (Nat.le_refl _) (by omega))
    · intro hnodup hvalid hlen i h1 h2
      have hj : j < ls.length := by omega
      by_cases e : i = j
      · subst e
        rw [f1 _ name (Or.inr (fun k hk1 hk2 =>
          getD_ne_of_nodup ls hnodup i k hj (by omega) (by omega)))]
        have hmem : ls.getD i 0 ∈ ls := by
          rw [List.getD_eq_getElem ls 0 hj]
          exact List.getElem_mem hj
        rw [FindVarLocally_updateLocalTensor_same _ _ _ _ (hvalid _ hmem), share_set_lod]
      · exact b1 hnodup (fun p hp => by rw [length_updateLocalTensor]; exact hvalid p hp)
          (by omega) i (by omega) (by omega)

/-- A feed in which every tensor splits into one shard per device succeeds,
touches no memory and no scope's place in the tree, binds in every per-device
scope each name to its shard, and changes no other binding. -/
theorem feedAndSplit_good (split : LoDTensor → List Place → List LoDTensor)
    (member_ : ParallelExecutorPrivate) (l : NameMap LoDTensor) (w : World)
    (hgood : ∀ p ∈ l, (split p.2 member_.places_).length = member_.places_.length) :
    (FeedAndSplitTensorIntoLocalScopes split member_ l w).error = none ∧
    (FeedAndSplitTensorIntoLocalScopes split member_ l w).state.memory = w.memory ∧
    SameTree w.scopes (FeedAndSplitTensorIntoLocalScopes split member_ l w).state.scopes ∧
    (∀ q key, (key ∉ l.keys ∨
        ∀ i, i < member_.places_.length → q ≠ member_.local_scopes_.getD i 0) →
      FindVarLocally (FeedAndSplitTensorIntoLocalScopes split member_ l w).state.scopes q key =
        FindVarLocally w.scopes q key) ∧
    (member_.local_scopes_.Nodup → (∀ p ∈ member_.local_scopes_, p < w.scopes.length) →
      member_.places_.length ≤ member_.local_scopes_.length → l.keys.Nodup →
      ∀ pair ∈ l, ∀ i, i < member_.places_.length →
        FindVarLocally (FeedAndSplitTensorIntoLocalScopes split member_ l w).state.scopes
            (member_.local_scopes_.getD i 0) pair.1 =
          some (Variable.OfLoDTensor
            ((split pair.2 member_.places_).getD i LoDTensor.empty))) := by
  induction l generalizing w with
  | nil =>
    refine ⟨rfl, rfl, SameTree_refl _, fun _ _ _ => rfl, ?_⟩
    intro _ _ _ _ pair hp
    simp at hp
  | cons pair rest ih =>
    have hg := hgood pair (List.mem_cons_self _ _)
    have step : FeedAndSplitTensorIntoLocalScopes split member_ (pair :: rest) w =
        FeedAndSplitTensorIntoLocalScopes split member_ rest
          (feedSplitEntry member_ pair.1 (split pair.2 member_.places_) w) := by
      simp only [FeedAndSplitTensorIntoLocalScopes]
      rw [if_neg (fun h => h hg.symm)]
    obtain ⟨i1, i2, i3, i4, i5⟩ := ih
      (feedSplitEntry member_ pair.1 (split pair.2 member_.places_) w)
      (fun p hp => hgood p (List.mem_cons_of_mem _ hp))
    obtain ⟨s1, s2, s3⟩ := feedShards_spec member_.local_scopes_ pair.1
      (split pair.2 member_.places_) member_.places_.length 0 w.scopes
    rw [step]
    refine ⟨i1, i2, SameTree_trans s1 i3, ?_, ?_⟩
    · intro q key hk
      rw [i4 q key (by
        rcases hk with hk | hk
        · exact Or.inl (fun h => hk (List.mem_cons_of_mem _ h))
        · exact Or.inr hk)]
      apply s2
      rcases hk with hk | hk
      · exact Or.inl (fun e => hk (e ▸ List.mem_cons_self _ _))
      · exact Or.inr (fun i _ h2 => hk i (by omega))
    · intro hnodup hvalid hlen hkeys p hp i hi
      simp only [NameMap.keys, List.map_cons, List.nodup_cons] at hkeys
      rcases List.mem_cons.mp hp with e | e
      · subst e
        rw [i4 _ _ (Or.inl hkeys.1)]
        exact s3 hnodup hvalid (by omega) i (Nat.zero_le _) (by omega)
      · exact i5 hnodup (fun q hq => by
            have := hvalid q hq
            have hl : (feedSplitEntry member_ pair.1 (split pair.2 member_.places_)
                w).scopes.length = w.scopes.length := s1.1
            omega)
          hlen hkeys.2 p e i hi
/-- A feed with a tensor that does not split into one shard per device fails at
the first such tensor, in the state the entries before it have produced. -/
theorem feedAndSplit_first_failure (split : LoDTensor → List Place → List LoDTensor)
    (member_ : ParallelExecutorPrivate) (tensors : NameMap LoDTensor) (w : World)
    (hbad : ∃ pair ∈ tensors,
      (split pair.2 member_.places_).length ≠ member_.places_.length) :
    (FeedAndSplitTensorIntoLocalScopes split member_ tensors w).error ≠ none ∧
    ∃ before bad after, tensors = before ++ bad :: after ∧
      (∀ p ∈ before, (split p.2 member_.places_).length = member_.places_.length) ∧
      (split bad.2 member_.places_).length ≠ member_.places_.length ∧
      (FeedAndSplitTensorIntoLocalScopes split member_ before w).error = none ∧
      (FeedAndSplitTensorIntoLocalScopes split member_ tensors w).state =
        (FeedAndSplitTensorIntoLocalScopes split member_ before w).state ∧
      (before = [] → (FeedAndSplitTensorIntoLocalScopes split member_ tensors w).state = w) := by
  induction tensors generalizing w with
  | nil =>
    obtain ⟨pair, hp, _⟩ := hbad
    simp at hp
  | cons pair rest ih =>
    by_cases hb : member_.places_.length ≠ (split pair.2 member_.places_).length
    · refine ⟨?_, [], pair, rest, rfl, ?_, fun e => hb e.symm, rfl, ?_, ?_⟩
      · simp only [FeedAndSplitTensorIntoLocalScopes]
        rw [if_pos hb]
        simp
      · intro p hp
        simp at hp
      · simp only [FeedAndSplitTensorIntoLocalScopes]
        rw [if_pos hb]
      · intro _
        simp only [FeedAndSplitTensorIntoLocalScopes]
        rw [if_pos hb]
    · have hg : (split pair.2 member_.places_).length = member_.places_.length :=
        (not_not.mp hb).symm
      have hrest : ∃ p ∈ rest, (split p.2 member_.places_).length ≠ member_.places_.length := by
        obtain ⟨p, hp, hpb⟩ := hbad
        rcases List.mem_cons.mp hp with e | e
        · subst e
          exact absurd hg hpb
        · exact ⟨p, e, hpb⟩
      have step : ∀ (l : NameMap LoDTensor),
          FeedAndSplitTensorIntoLocalScopes split member_ (pair :: l) w =
            FeedAndSplitTensorIntoLocalScopes split member_ l
              (feedSplitEntry member_ pair.1 (split pair.2 member_.places_) w) := by
        intro l
        simp only [FeedAndSplitTensorIntoLocalScopes]
        rw [if_neg hb]
      obtain ⟨i1, before, bad, after, e1, e2, e3, e4, e5, _⟩ :=
        ih (feedSplitEntry member_ pair.1 (split pair.2 member_.places_) w) hrest
      refine ⟨?_, pair :: before, bad, after, ?_, ?_, e3, ?_, ?_, ?_⟩
      · rw [step]
        exact i1
      · rw [e1]
        rfl
      · intro p hp
        rcases List.mem_cons.mp hp with e | e
        · subst e
          exact hg
        · exact e2 p e
      · rw [step]
        exact e4
      · rw [step, step]
        exact e5
      · intro e
        exact absurd e (List.cons_ne_nil _ _)

/-- Claim C3, amended. If some tensor of the map splits into a number of shards
different from the number of devices, FeedAndSplitTensorIntoLocalScopes fails.
The map then is `before ++ bad :: after`, where every tensor of `before` splits
into one shard per device and `bad` does not, and the state left is the one the
feed of `before` alone produces: the memory and every scope's parent, children
and deletion mark are as before the call; every binding of a name outside
`before`, and every binding in a scope that is not one of the per-device
scopes, is as before the call (so the failing entry and the entries after it
have changed nothing, and nothing has changed when `before` is empty); and,
for pairwise distinct live per-device scopes, one per device, and a map without
a repeated name, the scope of every device i binds every name of `before` to
shard i of its tensor. -/
theorem FeedAndSplit_failure_state (split : LoDTensor → List Place → List LoDTensor)
    (member_ : ParallelExecutorPrivate) (tensors : NameMap LoDTensor) (w : World)
    (hbad : ∃ pair ∈ tensors,
      (split pair.2 member_.places_).length ≠ member_.places_.length) :
    (FeedAndSplitTensorIntoLocalScopes split member_ tensors w).error ≠ none ∧
    ∃ before bad after, tensors = before ++ bad :: after ∧
      (∀ p ∈ before, (split p.2 member_.places_).length = member_.places_.length) ∧
      (split bad.2 member_.places_).length ≠ member_.places_.length ∧
      (FeedAndSplitTensorIntoLocalScopes split member_ before w).error = none ∧
      (FeedAndSplitTensorIntoLocalScopes split member_ tensors w).state =
        (FeedAndSplitTensorIntoLocalScopes split member_ before w).state ∧
      (before = [] → (FeedAndSplitTensorIntoLocalScopes split member_ tensors w).state = w) ∧
      (FeedAndSplitTensorIntoLocalScopes split member_ tensors w).state.memory = w.memory ∧
      SameTree w.scopes (FeedAndSplitTensorIntoLocalScopes split member_ tensors w).state.scopes ∧
      (∀ q key, (key ∉ before.keys ∨
          ∀ i, i < member_.places_.length → q ≠ member_.local_scopes_.getD i 0) →
        FindVarLocally (FeedAndSplitTensorIntoLocalScopes split member_ tensors w).state.scopes
            q key = FindVarLocally w.scopes q key) ∧
      (member_.local_scopes_.Nodup → (∀ p ∈ member_.local_scopes_, p < w.scopes.length) →
        member_.places_.length ≤ member_.local_scopes_.length → tensors.keys.Nodup →
        ∀ pair ∈ before, ∀ i, i < member_.places_.length →
          FindVarLocally
              (FeedAndSplitTensorIntoLocalScopes split member_ tensors w).state.scopes
              (member_.local_scopes_.getD i 0) pair.1 =
            some (Variable.OfLoDTensor
              ((split pair.2 member_.places_).getD i LoDTensor.empty))) := by
  obtain ⟨h1, before, bad, after, e1, e2, e3, e4, e5, e6⟩ :=
    feedAndSplit_first_failure split member_ tensors w hbad
  obtain ⟨_, g2, g3, g4, g5⟩ := feedAndSplit_good split member_ before w e2
  refine ⟨h1, before, bad, after, e1, e2, e3, e4, e5, e6, ?_, ?_, ?_, ?_⟩
  · rw [e5]
    exact g2
  · rw [e5]
    exact g3
  · rw [e5]
    exact g4
  · intro hnodup hvalid hlen hkeys
    rw [e5]
    apply g5 hnodup hvalid hlen
    have hk : (before ++ bad :: after).keys.Nodup := e1 ▸ hkeys
    simp only [NameMap.keys, List.map_append] at hk
    exact (List.nodup_append.mp hk).1

/-- Witness of claim C3 (amended): the shared feed whose second tensor has a
single row for three devices. -/
theorem FeedAndSplit_failure_state_witness :
    (owningMember.local_scopes_.Nodup ∧
     (∀ p ∈ owningMember.local_scopes_, p < ownedWorld.scopes.length) ∧
     owningMember.places_.length ≤ owningMember.local_scopes_.length ∧
     sharedFeed.keys.Nodup) ∧
    ((FeedAndSplitTensorIntoLocalScopes SplitLoDTensor owningMember sharedFeed
        ownedWorld).error ≠ none ∧
    ∃ before bad after, sharedFeed = before ++ bad :: after ∧
      (∀ p ∈ before,
        (SplitLoDTensor p.2 owningMember.places_).length = owningMember.places_.length) ∧
      (SplitLoDTensor bad.2 owningMember.places_).length ≠ owningMember.places_.length ∧
      (FeedAndSplitTensorIntoLocalScopes SplitLoDTensor owningMember before
        ownedWorld).error = none ∧
      (FeedAndSplitTensorIntoLocalScopes SplitLoDTensor owningMember sharedFeed
          ownedWorld).state =
        (FeedAndSplitTensorIntoLocalScopes SplitLoDTensor owningMember before
          ownedWorld).state ∧
      (before = [] →
        (FeedAndSplitTensorIntoLocalScopes SplitLoDTensor owningMember sharedFeed
          ownedWorld).state = ownedWorld) ∧
      (FeedAndSplitTensorIntoLocalScopes SplitLoDTensor owningMember sharedFeed
          ownedWorld).state.memory = ownedWorld.memory ∧
      SameTree ownedWorld.scopes
        (FeedAndSplitTensorIntoLocalScopes SplitLoDTensor owningMember sharedFeed
          ownedWorld).state.scopes ∧
      (∀ q key, (key ∉ before.keys ∨
          ∀ i, i < owningMember.places_.length → q ≠ owningMember.local_scopes_.getD i 0) →
        FindVarLocally
            (FeedAndSplitTensorIntoLocalScopes SplitLoDTensor owningMember sharedFeed
              ownedWorld).state.scopes q key = FindVarLocally ownedWorld.scopes q key) ∧
      (owningMember.local_scopes_.Nodup →
        (∀ p ∈ owningMember.local_scopes_, p < ownedWorld.scopes.length) →
        owningMember.places_.length ≤ owningMember.local_scopes_.length →
        sharedFeed.keys.Nodup →
        ∀ pair ∈ before, ∀ i, i < owningMember.places_.length →
          FindVarLocally
              (FeedAndSplitTensorIntoLocalScopes SplitLoDTensor owningMember sharedFeed
                ownedWorld).state.scopes
              (owningMember.local_scopes_.getD i 0) pair.1 =
            some (Variable.OfLoDTensor
              ((SplitLoDTensor pair.2 owningMember.places_).getD i LoDTensor.empty)))) :=
  ⟨⟨by decide, by decide, by decide, by decide⟩,
   FeedAndSplit_failure_state SplitLoDTensor owningMember sharedFeed ownedWorld
     ⟨("y", oneRowTensor), by decide, by decide⟩⟩

theorem sharedFeed_failure_result :
    FindVarLocally
        (FeedAndSplitTensorIntoLocalScopes SplitLoDTensor owningMember sharedFeed
          ownedWorld).state.scopes 2 "x" =
      some (Variable.OfLoDTensor
        { dims_ := [1], type_ := 5, holder_ := some 1, offset_ := 2, lod_ := [] }) ∧
    FindVarLocally
        (FeedAndSplitTensorIntoLocalScopes SplitLoDTensor owningMember sharedFeed
          ownedWorld).state.scopes 2 "y" = none ∧
    FindVarLocally ownedWorld.scopes 2 "x" = none := by
  decide

end paddle.framework
